import Mathlib

/-!
# PICT decoder (`plpictdec.cpp`): shallow embedding and verified properties

The decoder is embedded as state-passing functions.  A computation over a
state `σ` either returns a value with the new state, or raises an error code
and leaves the state it had reached (C++ exceptions do not roll back member
variables or caller-owned buffers).
-/

namespace PLPict

/-! ## Basic types -/

/-- One byte of the input file (`PLBYTE`). -/
abbrev PLBYTE := Fin 256

/-- Error codes passed to `raiseError`.  `PL_ERREND_OF_FILE` is what the data
source raises when asked for bytes that are not there; `PL_ASSERTION` stands
for a failed `PLASSERT` in a debug build. -/
inductive PLError where
  | PL_ERRWRONG_SIGNATURE
  | PL_ERRFORMAT_UNKNOWN
  | PL_ERRFORMAT_NOT_SUPPORTED
  | PL_ERREND_OF_FILE
  | PL_ASSERTION
deriving DecidableEq, Repr

/-- Result of running a computation on a state of type `σ`. -/
inductive Res (σ α : Type) where
  | ok (a : α) (s : σ)
  | raise (e : PLError) (s : σ)
deriving DecidableEq, Repr

/-- State-passing computations that may raise. -/
def M (σ α : Type) : Type := σ → Res σ α

/-- Sequencing: an error of the first computation skips the second. -/
def M.bind {σ α β : Type} (m : M σ α) (f : α → M σ β) : M σ β :=
  fun s => match m s with
    | .ok a s1 => f a s1
    | .raise e s1 => .raise e s1

instance {σ : Type} : Monad (M σ) where
  pure := fun a s => .ok a s
  bind := M.bind

/-- The call `raiseError (code, msg)`: throws, so nothing after it runs. -/
def raiseError {σ α : Type} (e : PLError) : M σ α := fun s => .raise e s

/-- Read the current state. -/
def getState {σ : Type} : M σ σ := fun s => .ok s s

/-- Update the current state. -/
def modifyState {σ : Type} (f : σ → σ) : M σ Unit := fun s => .ok () (f s)

/-- Run a computation on a component of a larger state. -/
def zoom {σ τ α : Type} (get : σ → τ) (set : τ → σ → σ) (m : M τ α) : M σ α :=
  fun s => match m (get s) with
    | .ok a t => .ok a (set t s)
    | .raise e t => .raise e (set t s)

/-- The state a result ends in. -/
def Res.state {σ α : Type} : Res σ α → σ
  | .ok _ s => s
  | .raise _ s => s

/-- The error code of a result, if it is an error. -/
def Res.error {σ α : Type} : Res σ α → Option PLError
  | .ok _ _ => none
  | .raise e _ => some e

/-- The returned value of a result, if there is one. -/
def Res.value {σ α : Type} : Res σ α → Option α
  | .ok a _ => some a
  | .raise _ _ => none

/-! ## Byte cursor (`PLDataSource`) -/

/-- Modelled from the spec: the byte cursor `PLDataSource` (its class is not
part of the decoder sources).  `consumed` holds the bytes already read, most
recent first; `rest` the bytes still ahead.  The read offset is
`consumed.length`. -/
structure PLDataSource where
  consumed : List PLBYTE
  rest : List PLBYTE
deriving DecidableEq, Repr

/-- Offset of the cursor from the start of the data. -/
def PLDataSource.pos (d : PLDataSource) : Nat := d.consumed.length

/-- Modelled from the spec: `readByte() -> u8`. -/
def ReadByte : M PLDataSource Nat := fun d =>
  match d.rest with
  | [] => .raise .PL_ERREND_OF_FILE d
  | b :: r => .ok b.val ⟨b :: d.consumed, r⟩

/-- Modelled from the spec: `readWordBE() -> u16`, big-endian. -/
def ReadMWord : M PLDataSource Nat := fun d =>
  match d.rest with
  | b0 :: b1 :: r => .ok (b0.val * 256 + b1.val) ⟨b1 :: b0 :: d.consumed, r⟩
  | _ => .raise .PL_ERREND_OF_FILE d

/-- Two's-complement reading of a 32-bit pattern. -/
def toInt32 (n : Nat) : Int :=
  if n % 4294967296 < 2147483648 then (n % 4294967296 : Nat)
  else ((n % 4294967296 : Nat) : Int) - 4294967296

/-- Two's-complement reading of a 16-bit pattern. -/
def toInt16 (n : Nat) : Int :=
  if n % 65536 < 32768 then (n % 65536 : Nat) else ((n % 65536 : Nat) : Int) - 65536

/-- Modelled from the spec: `readLongBE() -> i32`, big-endian. -/
def ReadMLong : M PLDataSource Int := fun d =>
  match d.rest with
  | b0 :: b1 :: b2 :: b3 :: r =>
      .ok (toInt32 (((b0.val * 256 + b1.val) * 256 + b2.val) * 256 + b3.val))
        ⟨b3 :: b2 :: b1 :: b0 :: d.consumed, r⟩
  | _ => .raise .PL_ERREND_OF_FILE d

/-- Move the cursor `n` bytes forward, if that many bytes are ahead. -/
def PLDataSource.forward : Nat → PLDataSource → Option PLDataSource
  | 0, d => some d
  | n + 1, d =>
    match d.rest with
    | [] => none
    | b :: r => PLDataSource.forward n ⟨b :: d.consumed, r⟩

/-- Move the cursor `n` bytes backward, if that many bytes were read. -/
def PLDataSource.backward : Nat → PLDataSource → Option PLDataSource
  | 0, d => some d
  | n + 1, d =>
    match d.consumed with
    | [] => none
    | b :: c => PLDataSource.backward n ⟨c, b :: d.rest⟩

/-- Modelled from the spec: `skip(n)`, a relative move of the cursor.  The
argument is a C `int`; a move that would leave the data fails. -/
def Skip (n : Int) : M PLDataSource Unit := fun d =>
  match (if 0 ≤ n then d.forward n.toNat else d.backward (-n).toNat) with
  | some d1 => .ok () d1
  | none => .raise .PL_ERREND_OF_FILE d

/-- Modelled from the spec: `alignToEvenOffset()`. -/
def AlignToWord : M PLDataSource Unit := fun d =>
  if d.pos % 2 = 1 then Skip 1 d else .ok () d

/-- Modelled from the spec: `readExact(n)`.  The C++ call returns a pointer
into the data at the old read position; the model returns the data from that
position on, so that reads past the `n` bytes see what follows in the file. -/
def ReadNBytes (n : Nat) : M PLDataSource (List PLBYTE) := fun d =>
  match d.forward n with
  | some d1 => .ok d.rest d1
  | none => .raise .PL_ERREND_OF_FILE d

/-- Modelled from the spec: `peek(n)`, a borrowed view of the next `n` bytes
that does not move the cursor. -/
def GetBufferPtr (n : Nat) : M PLDataSource (List PLBYTE) := fun d =>
  if n ≤ d.rest.length then .ok d.rest d else .raise .PL_ERREND_OF_FILE d

/-- Byte `k` behind a pointer into the file data (`p[k]`); positions past the
end of the data read as 0. -/
def peekByte (p : List PLBYTE) (k : Nat) : Nat :=
  match p.get? k with
  | some b => b.val
  | none => 0

/-! ## Geometry and header codec -/

/-- Modelled from the spec: `MacRect`, four signed 16-bit fields in the order
top, left, bottom, right (the struct is declared in a header that is not part
of the decoder sources). -/
structure MacRect where
  top : Int
  left : Int
  bottom : Int
  right : Int
deriving DecidableEq, Repr

/-- Embeds `PLPictDecoder::readRect`. -/
def readRect : M PLDataSource MacRect := do
  let top ← ReadMWord
  let left ← ReadMWord
  let bottom ← ReadMWord
  let right ← ReadMWord
  pure ⟨toInt16 top, toInt16 left, toInt16 bottom, toInt16 right⟩

/-! ## Header phase -/

/-- The loop `while ((ch = ReadByte(pDataSrc)) == 0);` of `readHeader`: reads
bytes until one is non-zero and returns it. -/
def readNonZeroByte : List PLBYTE → List PLBYTE → Res PLDataSource Nat
  | consumed, [] => .raise .PL_ERREND_OF_FILE ⟨consumed, []⟩
  | consumed, b :: r =>
    if b.val = 0 then readNonZeroByte (b :: consumed) r
    else .ok b.val ⟨b :: consumed, r⟩

/-- Embeds `PLPictDecoder::readHeader`; the result is the out-parameter `Version`. -/
def readHeader : M PLDataSource Nat := do
  let _PicSize ← ReadMWord
  let _Frame ← readRect
  let ch ← (fun d => readNonZeroByte d.consumed d.rest)
  if ch ≠ 0x11 then
    raiseError .PL_ERRWRONG_SIGNATURE
  else do
    let v ← ReadByte
    if v = 1 then
      pure 1
    else if v = 2 then do
      let b ← ReadByte
      if b ≠ 0xff then raiseError .PL_ERRWRONG_SIGNATURE else pure 2
    else
      raiseError .PL_ERRWRONG_SIGNATURE


/-- Modelled from the spec: `MacpixMap`, the PixMapHeader record (declared in a
header that is not part of the decoder sources).  Fields filled from a word
hold the unsigned word, fields filled from a long the signed long. -/
structure MacpixMap where
  Bounds : MacRect
  version : Nat
  packType : Nat
  packSize : Int
  hRes : Nat
  vRes : Nat
  pixelType : Nat
  pixelSize : Nat
  cmpCount : Nat
  cmpSize : Nat
  planeBytes : Int
  pmTable : Int
  pmReserved : Int
deriving DecidableEq, Repr

/-- Embeds `PLPictDecoder::readPixmap`: fills every field of `*pPixMap` but
`Bounds`. -/
def readPixmap (pPixMap : MacpixMap) : M PLDataSource MacpixMap := do
  let version ← ReadMWord
  let packType ← ReadMWord
  let packSize ← ReadMLong
  let hRes ← ReadMWord
  let _ ← ReadMWord
  let vRes ← ReadMWord
  let _ ← ReadMWord
  let pixelType ← ReadMWord
  let pixelSize ← ReadMWord
  let cmpCount ← ReadMWord
  let cmpSize ← ReadMWord
  let planeBytes ← ReadMLong
  let pmTable ← ReadMLong
  let pmReserved ← ReadMLong
  pure ⟨pPixMap.Bounds, version, packType, packSize, hRes, vRes, pixelType, pixelSize,
    cmpCount, cmpSize, planeBytes, pmTable, pmReserved⟩

/-- A 32-bit pixel (`PLPixel32`) seen as its four channels. -/
structure PLPixel32 where
  r : Nat
  g : Nat
  b : Nat
  a : Nat
deriving DecidableEq, Repr

/-- A palette array `PLPixel32 *`, indexed by slot.  The arrays the decoder
passes have 256 slots; a slot number of 256 or more is memory behind the
array. -/
abbrev Palette := Nat → PLPixel32

/-- The assignment `pPal[val].SetR (x)`. -/
def Palette.SetR (p : Palette) (val x : Nat) : Palette :=
  fun k => if k = val then { p k with r := x } else p k

/-- The assignment `pPal[val].SetG (x)`. -/
def Palette.SetG (p : Palette) (val x : Nat) : Palette :=
  fun k => if k = val then { p k with g := x } else p k

/-- The assignment `pPal[val].SetB (x)`. -/
def Palette.SetB (p : Palette) (val x : Nat) : Palette :=
  fun k => if k = val then { p k with b := x } else p k

/-- A data-source operation run next to a caller-owned object. -/
def onSrc {τ α : Type} (m : M PLDataSource α) : M (τ × PLDataSource) α :=
  zoom (fun s => s.2) (fun d s => (s.1, d)) m

/-- The `for (i = 0; i < *pNumColors; i++)` loop of `readColourTable`; the
first argument counts the iterations that remain. -/
def readColourTableLoop (ctFlags NumColors : Nat) :
    Nat → Nat → M (Palette × PLDataSource) Unit
  | 0, _ => pure ()
  | n + 1, i => do
    let val0 ← onSrc ReadMWord
    let val := if ctFlags &&& 0x8000 ≠ 0 then i % 65536 else val0
    if val ≥ NumColors then
      raiseError .PL_ERRFORMAT_UNKNOWN
    else do
      let r ← onSrc ReadMWord
      modifyState (fun s => (s.1.SetR val ((r >>> 8) &&& 0xFF), s.2))
      let g ← onSrc ReadMWord
      modifyState (fun s => (s.1.SetG val ((g >>> 8) &&& 0xFF), s.2))
      let b ← onSrc ReadMWord
      modifyState (fun s => (s.1.SetB val ((b >>> 8) &&& 0xFF), s.2))
      readColourTableLoop ctFlags NumColors n (i + 1)

/-- Embeds `PLPictDecoder::readColourTable`; the state pairs the palette `pPal` with
the data source, the result is `*pNumColors` (a `PLWORD`, so the sum wraps at
16 bits). -/
def readColourTable : M (Palette × PLDataSource) Nat := do
  let _ctSeed ← onSrc ReadMLong
  let ctFlags ← onSrc ReadMWord
  let cnt ← onSrc ReadMWord
  let NumColors := (cnt + 1) % 65536
  readColourTableLoop ctFlags NumColors NumColors 0
  pure NumColors

/-- Colour-table entry as the spec describes it: an index word followed by
three 16-bit colour channels. -/
structure CTEntry where
  index : Nat
  red : Nat
  green : Nat
  blue : Nat
deriving DecidableEq, Repr

/-- The first `n` colour-table entries stored in a byte sequence, 8 bytes
each, as far as they are complete. -/
def ctEntries : Nat → List PLBYTE → List CTEntry
  | n + 1, i0 :: i1 :: r0 :: r1 :: g0 :: g1 :: b0 :: b1 :: rest =>
    ⟨i0.val * 256 + i1.val, r0.val * 256 + r1.val, g0.val * 256 + g1.val,
      b0.val * 256 + b1.val⟩ :: ctEntries n rest
  | _, _ => []

/-- Spec-side palette construction: entry number `i` goes to slot `i` in a
device table (`device = true`) and to the slot of its stored index otherwise;
R, G, B become the high bytes of the three channels, alpha is kept. -/
def specPalette (device : Bool) : Nat → List CTEntry → Palette → Palette
  | _, [], pal => pal
  | i, e :: es, pal =>
    specPalette device (i + 1) es
      (fun k => if k = (if device then i else e.index)
        then ⟨e.red / 256, e.green / 256, e.blue / 256, (pal k).a⟩ else pal k)

/-! ## Decode session -/

/-- The picture-kind tag `m_PictType`. -/
inductive PictType where
  | none
  | op9a
  | jpeg
  | pixmap
  | bitmap
deriving DecidableEq, Repr

/-- Pixel formats the decoder selects. -/
inductive PLPixelFormat where
  | A8R8G8B8
  | X8R8G8B8
  | I8
deriving DecidableEq, Repr

/-- A point or size (`PLPoint`). -/
structure PLPoint where
  x : Int
  y : Int
deriving DecidableEq, Repr

/-- Modelled from the spec: what the image sink is told by
`setDimensions(width, height, horizontalRes, verticalRes, pixelFormat)`
(`SetBmpInfo` of the base class). -/
structure PLBmpInfo where
  size : PLPoint
  resolution : PLPoint
  pf : PLPixelFormat
deriving DecidableEq, Repr

/-- Modelled from the spec: the target bitmap `PLBmpBase`.  `lines i k` is
byte `k` of the line `GetLineArray()[i]`; a 32-bit pixel `j` of the line
occupies bytes `4 * j .. 4 * j + 3`. -/
structure PLBmp where
  palette : Palette
  lines : Nat → Nat → Nat
  bitsPerPixel : Nat

/-- Modelled from the spec: the optional JPEG sub-decoder, `open(cursor)` and
`decodeInto(sink)`. -/
structure PLJPEGDecoder where
  Open : M PLDataSource PLBmpInfo
  GetImage : M (PLBmp × PLDataSource) Unit

/-- Entry of the static opcode table `optable` (`ploptable.h`). -/
structure OpDef where
  name : String
  len : Int

/-- What the decoder takes from outside `plpictdec.cpp`: the opcode table and
its `WORD_LEN` marker, the build switches, the JPEG decoder handed to the
constructor, the byte offsets of the channels inside a 32-bit pixel, and the
contents of memory that the code uses without initialising it. -/
structure Env where
  optable : Nat → OpDef
  WORD_LEN : Int
  PL_SUPPORT_JPEG : Bool
  m_pJPEGDecoder : Option PLJPEGDecoder
  PL_RGBA_BLUE : Nat
  PL_RGBA_GREEN : Nat
  PL_RGBA_RED : Nat
  PL_RGBA_ALPHA : Nat
  debugBuild : Bool
  heap : Nat → Nat
  stackPal : Palette
  stackPixMap : MacpixMap

/-- The mutable members of `PLPictDecoder`, with the data source and the
bitmap info of its base class. -/
structure PLPictDecoder where
  m_pDataSrc : PLDataSource
  m_PictType : PictType
  m_PixMap : MacpixMap
  m_Bounds : MacRect
  m_rowBytes : Nat
  m_bIsRegion : Bool
  m_Resolution : PLPoint
  bmpInfo : PLBmpInfo
deriving DecidableEq, Repr

/-- A data-source operation run on the session's data source. -/
def onDataSrc {α : Type} (m : M PLDataSource α) : M PLPictDecoder α :=
  zoom (fun s => s.m_pDataSrc) (fun d s => { s with m_pDataSrc := d }) m

/-- The base-class call `SetBmpInfo (size, resolution, pf)`. -/
def SetBmpInfo (size resolution : PLPoint) (pf : PLPixelFormat) : M PLPictDecoder Unit :=
  modifyState (fun s => { s with bmpInfo := ⟨size, resolution, pf⟩ })

/-- Embeds `PLPictDecoder::setBmpInfo`. -/
def setBmpInfo (PixMap : MacpixMap) : M PLPictDecoder Unit :=
  let pf :=
    if PixMap.pixelSize > 8 then
      if PixMap.cmpCount = 4 then PLPixelFormat.A8R8G8B8 else PLPixelFormat.X8R8G8B8
    else PLPixelFormat.I8
  SetBmpInfo ⟨PixMap.Bounds.right - PixMap.Bounds.left, PixMap.Bounds.bottom - PixMap.Bounds.top⟩
    ⟨PixMap.hRes, PixMap.vRes⟩ pf

/-- Value of a C `int` stored into a `PLWORD`. -/
def toWord (n : Int) : Nat := (n % 65536).toNat

/-! ## Opcode handlers -/

/-- Embeds `PLPictDecoder::clip`. -/
def clip : M PLDataSource Unit := do
  let len ← ReadMWord
  if len = 0x000a then do
    let _ClipRect ← readRect
    pure ()
  else
    Skip ((len : Int) - 2)

/-- The row loop of `skipBits` (`rowBytes >= 8`); the first argument counts the
rows that remain. -/
def skipBitsRows (rowBytes : Nat) : Nat → M PLDataSource Unit
  | 0 => pure ()
  | n + 1 => do
    let linelen ← if rowBytes > 250 then ReadMWord else ReadByte
    Skip linelen
    skipBitsRows rowBytes n

/-- Embeds `PLPictDecoder::skipBits`. -/
def skipBits (pBounds : MacRect) (rowBytes : Nat) (pixelSize : Nat) : M PLDataSource Unit :=
  let Height : Int := pBounds.bottom - pBounds.top
  let Width : Int := pBounds.right - pBounds.left
  let rowBytes1 := if pixelSize ≤ 8 then rowBytes &&& 0x7fff else rowBytes
  let pixwidth := if pixelSize = 16 then (toWord Width * 2) % 65536 else toWord Width
  let rowBytes2 := if rowBytes1 = 0 then pixwidth else rowBytes1
  if rowBytes2 < 8 then
    Skip ((rowBytes2 : Int) * Height)
  else
    skipBitsRows rowBytes2 Height.toNat

/-- Embeds `PLPictDecoder::pixPat`.  The local pixmap `p` and colour table `CT` start
out with whatever the stack holds.  In the source `CT` is an array of 256
entries beside the locals `rowBytes`, `p` and `NumColors`; here it is a palette
without an end, which is given up after the call, so a colour table that
overruns `CT` in the source is read like any other. -/
def pixPat (env : Env) : M PLDataSource Unit := do
  let PatType ← ReadMWord
  if PatType = 2 then do
    Skip 8
    Skip 5
  else if PatType = 1 then do
    Skip 8
    let rowBytes ← ReadMWord
    let Bounds ← readRect
    let p ← readPixmap { env.stackPixMap with Bounds := Bounds }
    let _NumColors ← zoom (fun d => (env.stackPal, d)) (fun s _ => s.2) readColourTable
    skipBits p.Bounds rowBytes p.pixelSize
  else
    raiseError .PL_ERRFORMAT_UNKNOWN

/-- Embeds `PLPictDecoder::skipPolyOrRegion`. -/
def skipPolyOrRegion : M PLDataSource Unit := do
  let len ← ReadMWord
  Skip ((len : Int) - 2)

/-- Embeds `PLPictDecoder::doBitmap`. -/
def doBitmap : M PLPictDecoder Unit := do
  let Bounds ← onDataSrc readRect
  modifyState (fun s => { s with m_Bounds := Bounds })
  let _SrcRect ← onDataSrc readRect
  let _DstRect ← onDataSrc readRect
  let width := toWord (Bounds.right - Bounds.left)
  let height := toWord (Bounds.bottom - Bounds.top)
  SetBmpInfo ⟨width, height⟩ ⟨0, 0⟩ .I8
  modifyState (fun s => { s with m_PictType := .bitmap })

/-- Embeds `PLPictDecoder::doPixmap`. -/
def doPixmap : M PLPictDecoder Unit := do
  let Bounds ← onDataSrc readRect
  modifyState (fun s => { s with m_PixMap := { s.m_PixMap with Bounds := Bounds } })
  let s ← getState
  let p ← onDataSrc (readPixmap s.m_PixMap)
  modifyState (fun s => { s with m_PixMap := p })
  setBmpInfo p
  modifyState (fun s => { s with m_PictType := .pixmap })

/-- Embeds `PLPictDecoder::bitsRect`. -/
def bitsRect : M PLPictDecoder Unit := do
  let rowBytes ← onDataSrc ReadMWord
  modifyState (fun s => { s with m_rowBytes := rowBytes })
  modifyState (fun s => { s with m_bIsRegion := false })
  if rowBytes &&& 0x8000 ≠ 0 then doPixmap else doBitmap

/-- Embeds `PLPictDecoder::bitsRegion`. -/
def bitsRegion : M PLPictDecoder Unit := do
  let rowBytes ← onDataSrc ReadMWord
  modifyState (fun s => { s with m_rowBytes := rowBytes })
  modifyState (fun s => { s with m_bIsRegion := true })
  if rowBytes &&& 0x8000 ≠ 0 then doPixmap else doBitmap

/-- Embeds `PLPictDecoder::opcode9a`. -/
def opcode9a : M PLPictDecoder Unit := do
  onDataSrc (Skip 4)
  let _ ← onDataSrc ReadMWord
  let Bounds ← onDataSrc readRect
  modifyState (fun s => { s with m_PixMap := { s.m_PixMap with Bounds := Bounds } })
  let s ← getState
  let p ← onDataSrc (readPixmap s.m_PixMap)
  modifyState (fun s => { s with m_PixMap := p })
  let _TempRect ← onDataSrc readRect
  let _TempRect ← onDataSrc readRect
  let _mode ← onDataSrc ReadMWord
  setBmpInfo p
  modifyState (fun s => { s with m_PictType := .op9a })

/-- Embeds `PLPictDecoder::longComment`. -/
def longComment : M PLDataSource Unit := do
  let _type ← ReadMWord
  let len ← ReadMWord
  if len > 0 then Skip len else pure ()

/-- Embeds `PLPictDecoder::headerOp`. -/
def headerOp : M PLPictDecoder Unit := do
  let _Version ← onDataSrc ReadMWord
  let x ← onDataSrc ReadMLong
  modifyState (fun s => { s with m_Resolution := { s.m_Resolution with x := x } })
  let y ← onDataSrc ReadMLong
  modifyState (fun s => { s with m_Resolution := { s.m_Resolution with y := y } })
  let _Dummy ← onDataSrc readRect
  let _ ← onDataSrc ReadMWord
  pure ()

/-- The marker search `while (!bFound && i < OpLen)` of `jpegOp`; the result
is `bFound`.  Every iteration that does not stop reads one byte, so the loop
is a recursion over the bytes ahead. -/
def jpegScan (OpLen : Int) : Nat → List PLBYTE → List PLBYTE → Res PLDataSource Bool
  | i, consumed, rest =>
    if (i : Int) < OpLen then
      match GetBufferPtr 3 ⟨consumed, rest⟩ with
      | .raise e s => .raise e s
      | .ok pData _ =>
        if peekByte pData 0 = 0xFF ∧ peekByte pData 1 = 0xD8 ∧ peekByte pData 2 = 0xFF then
          .ok true ⟨consumed, rest⟩
        else
          match rest with
          | [] => .raise .PL_ERREND_OF_FILE ⟨consumed, rest⟩
          | b :: r => jpegScan OpLen (i + 1) (b :: consumed) r
    else .ok false ⟨consumed, rest⟩

/-- Embeds `PLPictDecoder::jpegOp`. -/
def jpegOp (env : Env) : M PLPictDecoder Unit := do
  let OpLen ← onDataSrc ReadMLong
  let bFound ← onDataSrc (fun d => jpegScan OpLen 0 d.consumed d.rest)
  if bFound then
    match env.m_pJPEGDecoder with
    | some dec =>
      if env.PL_SUPPORT_JPEG then do
        let info ← onDataSrc dec.Open
        modifyState (fun s => { s with bmpInfo := info })
        modifyState (fun s => { s with m_PictType := .jpeg })
      else
        raiseError .PL_ERRFORMAT_NOT_SUPPORTED
    | none => raiseError .PL_ERRFORMAT_NOT_SUPPORTED
  else
    raiseError .PL_ERRFORMAT_NOT_SUPPORTED

/-- Embeds `PLPictDecoder::readOpcode`. -/
def readOpcode (Version : Nat) : M PLDataSource Nat := do
  if Version = 2 then AlignToWord else pure ()
  if Version = 1 then ReadByte else ReadMWord

/-- One pass through the body of the `while (!bDone)` loop of
`interpretOpcodes`: the opcode that was read and the value of `bDone` at the
end of the pass. -/
def interpretOpcode (env : Env) (Version : Nat) : M PLPictDecoder (Nat × Bool) := do
  let Opcode ← onDataSrc (readOpcode Version)
  if Opcode = 0xFF ∨ Opcode = 0xFFFF then
    raiseError .PL_ERRFORMAT_NOT_SUPPORTED
  else if Opcode < 0xa2 then
    if Opcode = 0x01 then do
      onDataSrc clip
      pure (Opcode, false)
    else if Opcode = 0x12 ∨ Opcode = 0x13 ∨ Opcode = 0x14 then do
      onDataSrc (pixPat env)
      pure (Opcode, false)
    else if 0x70 ≤ Opcode ∧ Opcode ≤ 0x77 then do
      onDataSrc skipPolyOrRegion
      pure (Opcode, false)
    else if Opcode = 0x90 ∨ Opcode = 0x98 then do
      bitsRect
      pure (Opcode, true)
    else if Opcode = 0x91 ∨ Opcode = 0x99 then do
      bitsRegion
      pure (Opcode, true)
    else if Opcode = 0x9a then do
      opcode9a
      pure (Opcode, true)
    else if Opcode = 0xa1 then do
      onDataSrc longComment
      pure (Opcode, false)
    else if (env.optable Opcode).len = env.WORD_LEN then do
      let n ← onDataSrc ReadMWord
      onDataSrc (Skip n)
      pure (Opcode, false)
    else do
      onDataSrc (Skip (env.optable Opcode).len)
      pure (Opcode, false)
  else if Opcode = 0xc00 then do
    headerOp
    pure (Opcode, false)
  else if Opcode = 0x8200 then do
    jpegOp env
    pure (Opcode, true)
  else if Opcode ≥ 0xa2 ∧ Opcode ≤ 0xaf then do
    let n ← onDataSrc ReadMWord
    onDataSrc (Skip n)
    pure (Opcode, false)
  else if (Opcode ≥ 0xb0 ∧ Opcode ≤ 0xcf) ∨ (Opcode ≥ 0x8000 ∧ Opcode ≤ 0x80ff) then
    pure (Opcode, false)
  else if (Opcode ≥ 0xd0 ∧ Opcode ≤ 0xfe) ∨ Opcode ≥ 8100 then do
    let n ← onDataSrc ReadMLong
    onDataSrc (Skip n)
    pure (Opcode, false)
  else if Opcode ≥ 0x100 ∧ Opcode ≤ 0x7fff then do
    onDataSrc (Skip (((Opcode >>> 7) &&& 255 : Nat) : Int))
    pure (Opcode, false)
  else
    raiseError .PL_ERRFORMAT_UNKNOWN

/-- Embeds `PLPictDecoder::interpretOpcodes`: the loop runs `interpretOpcode` until
`bDone`.  The first argument bounds the number of passes; the result is the
last opcode dispatched, or `none` when the bound was reached with the loop
still running. -/
def interpretOpcodes (env : Env) (Version : Nat) : Nat → M PLPictDecoder (Option Nat)
  | 0 => pure none
  | fuel + 1 => do
    let r ← interpretOpcode env Version
    if r.2 then pure (some r.1) else interpretOpcodes env Version fuel

/-- Embeds `PLPictDecoder::Open`, with the bound on loop passes of
`interpretOpcodes`. -/
def Open (env : Env) (fuel : Nat) : M PLPictDecoder (Option Nat) := do
  onDataSrc (Skip 512)
  let Version ← onDataSrc readHeader
  interpretOpcodes env Version fuel

/-! ## Raster unpackers -/

/-- A byte buffer behind a pointer: the byte at each offset.  Offsets past the
allocated size are the memory that follows the buffer. -/
abbrev Buf := Nat → Nat

/-- The store `p[i] = v` of a `PLBYTE`. -/
def Buf.store (d : Buf) (i v : Nat) : Buf :=
  fun k => if k = i then v % 256 else d k

/-- Consecutive stores `p[i] = v0; p[i+1] = v1; ...`. -/
def Buf.storeList (d : Buf) : Nat → List Nat → Buf
  | _, [] => d
  | i, v :: vs => (d.store i v).storeList (i + 1) vs

/-- The call `memcpy (dst + dOff, src + sOff, n)` between two buffers. -/
def memcpy (dst : Buf) (dOff : Nat) (src : Buf) (sOff n : Nat) : Buf :=
  fun k => if dOff ≤ k ∧ k < dOff + n then src (sOff + (k - dOff)) else dst k

/-- The file data behind a pointer, as a buffer. -/
def fileBuf (p : List PLBYTE) : Buf := fun k => peekByte p k

/-- The `for` loop of `expandBuf` (16 bpp); the first argument counts the
iterations that remain. -/
def expandBufLoop (env : Env) (pSrcLine : List PLBYTE) : Nat → Nat → Nat → Buf → Buf
  | 0, _, _, d => d
  | n + 1, pSrcBuf, pDestBuf, d =>
    let Src := (peekByte pSrcLine (pSrcBuf + 1) + (peekByte pSrcLine pSrcBuf <<< 8)) % 65536
    let d1 := d.store (pDestBuf + env.PL_RGBA_BLUE) ((Src &&& 31) * 8)
    let d2 := d1.store (pDestBuf + env.PL_RGBA_GREEN) (((Src >>> 5) &&& 31) * 8)
    let d3 := d2.store (pDestBuf + env.PL_RGBA_RED) (((Src >>> 10) &&& 31) * 8)
    let d4 := d3.store (pDestBuf + env.PL_RGBA_ALPHA) 0xFF
    expandBufLoop env pSrcLine n (pSrcBuf + 2) (pDestBuf + 4) d4

/-- Embeds `PLPictDecoder::expandBuf`: destination buffer and offset, source data and
offset, `Width` and `bpp`. -/
def expandBuf (env : Env) (dest : Buf) (pDestBuf : Nat) (pSrcLine : List PLBYTE)
    (pSrcBuf : Nat) (Width : Int) (bpp : Nat) : Except PLError Buf :=
  if bpp = 16 then
    .ok (expandBufLoop env pSrcLine Width.toNat pSrcBuf pDestBuf dest)
  else
    .error .PL_ERRFORMAT_UNKNOWN

/-- The main loop of `expandBuf8`, case 4. -/
def expandBuf8Loop4 (pSrcLine : List PLBYTE) : Nat → Nat → Nat → Buf → Buf
  | 0, _, _, d => d
  | n + 1, pSrc, pDest, d =>
    let s := peekByte pSrcLine pSrc
    expandBuf8Loop4 pSrcLine n (pSrc + 1) (pDest + 2)
      (d.storeList pDest [(s >>> 4) &&& 15, s &&& 15])

/-- The main loop of `expandBuf8`, case 2. -/
def expandBuf8Loop2 (pSrcLine : List PLBYTE) : Nat → Nat → Nat → Buf → Buf
  | 0, _, _, d => d
  | n + 1, pSrc, pDest, d =>
    let s := peekByte pSrcLine pSrc
    expandBuf8Loop2 pSrcLine n (pSrc + 1) (pDest + 4)
      (d.storeList pDest [(s >>> 6) &&& 3, (s >>> 4) &&& 3, (s >>> 2) &&& 3, s &&& 3])

/-- The main loop of `expandBuf8`, case 1. -/
def expandBuf8Loop1 (pSrcLine : List PLBYTE) : Nat → Nat → Nat → Buf → Buf
  | 0, _, _, d => d
  | n + 1, pSrc, pDest, d =>
    let s := peekByte pSrcLine pSrc
    expandBuf8Loop1 pSrcLine n (pSrc + 1) (pDest + 8)
      (d.storeList pDest [(s >>> 7) &&& 1, (s >>> 6) &&& 1, (s >>> 5) &&& 1, (s >>> 4) &&& 1,
        (s >>> 3) &&& 1, (s >>> 2) &&& 1, (s >>> 1) &&& 1, s &&& 1])

/-- Embeds `PLPictDecoder::expandBuf8`.  `Width & m` on a C `int` is `Width % (m+1)`
for the masks used here; the leftover loops run `i` down from 6 (7) while it
exceeds the bound, and store from the same source byte. -/
def expandBuf8 (dest : Buf) (pDestBuf : Nat) (pSrcLine : List PLBYTE)
    (pSrcBuf : Nat) (Width : Int) (bpp : Nat) : Except PLError Buf :=
  let n := Width.toNat
  if bpp = 8 then
    .ok (memcpy dest pDestBuf (fileBuf pSrcLine) pSrcBuf n)
  else if bpp = 4 then
    let d := expandBuf8Loop4 pSrcLine n pSrcBuf pDestBuf dest
    if Width % 2 ≠ 0 then
      .ok (d.store (pDestBuf + 2 * n) ((peekByte pSrcLine (pSrcBuf + n) >>> 4) &&& 15))
    else .ok d
  else if bpp = 2 then
    let d := expandBuf8Loop2 pSrcLine n pSrcBuf pDestBuf dest
    if Width % 4 ≠ 0 then
      .ok (d.storeList (pDestBuf + 4 * n)
        (([6, 4, 2, 0].takeWhile (fun i : Nat => decide ((i : Int) > 8 - (Width % 4) * 2))).map
          (fun i => (peekByte pSrcLine (pSrcBuf + n) >>> i) &&& 3)))
    else .ok d
  else if bpp = 1 then
    let d := expandBuf8Loop1 pSrcLine n pSrcBuf pDestBuf dest
    if Width % 8 ≠ 0 then
      .ok (d.storeList (pDestBuf + 8 * n)
        (([7, 6, 5, 4, 3, 2, 1, 0].takeWhile (fun i : Nat => decide ((i : Int) > (8 - Width) % 8))).map
          (fun i => (peekByte pSrcLine (pSrcBuf + n) >>> i) &&& 1)))
    else .ok d
  else
    .error .PL_ERRFORMAT_UNKNOWN

/-- Raise the error of a buffer operation, or return its buffer. -/
def liftExcept {σ α : Type} : Except PLError α → M σ α
  | .ok a => pure a
  | .error e => raiseError e

/-- The loop variables of the RLE loop of `unpackbits`: the read position `j`
in the source line, the write offset `pBuf - pLineBuf`, and the contents of
`pLineBuf`. -/
structure RleState where
  j : Nat
  pBuf : Nat
  lineBuf : Buf

/-- The `for (k = 1; k < len; k++) memcpy (pBuf + k*sz, pBuf, sz)` loop; the
first argument counts the iterations that remain. -/
def repeatUnit (pBuf sz : Nat) : Nat → Nat → Buf → Buf
  | 0, _, d => d
  | n + 1, k, d => repeatUnit pBuf sz n (k + 1) (memcpy d (pBuf + k * sz) d pBuf sz)

/-- One pass through the body of `for (j = 0; j < linelen; )` in
`unpackbits`. -/
def rleStep (env : Env) (pixelSize pkpixsize PixelPerRLEUnit : Nat) (pSrcLine : List PLBYTE)
    (st : RleState) : Except PLError RleState :=
  let FlagCounter := peekByte pSrcLine st.j
  if FlagCounter &&& 0x80 ≠ 0 then
    if FlagCounter = 0x80 then
      .ok { st with j := st.j + 1 }
    else
      let len := ((FlagCounter ^^^ 255) &&& 255) + 2
      if pixelSize = 16 then do
        let d ← expandBuf env st.lineBuf st.pBuf pSrcLine (st.j + 1) 1 pixelSize
        pure ⟨st.j + (1 + pkpixsize), st.pBuf + len * 4 * PixelPerRLEUnit,
          repeatUnit st.pBuf (4 * PixelPerRLEUnit) (len - 1) 1 d⟩
      else do
        let d ← expandBuf8 st.lineBuf st.pBuf pSrcLine (st.j + 1) 1 pixelSize
        pure ⟨st.j + (1 + pkpixsize), st.pBuf + len * PixelPerRLEUnit,
          repeatUnit st.pBuf PixelPerRLEUnit (len - 1) 1 d⟩
  else
    let len := (FlagCounter &&& 255) + 1
    if pixelSize = 16 then do
      let d ← expandBuf env st.lineBuf st.pBuf pSrcLine (st.j + 1) len pixelSize
      pure ⟨st.j + (len * pkpixsize + 1), st.pBuf + len * 4 * PixelPerRLEUnit, d⟩
    else do
      let d ← expandBuf8 st.lineBuf st.pBuf pSrcLine (st.j + 1) len pixelSize
      pure ⟨st.j + (len * pkpixsize + 1), st.pBuf + len * PixelPerRLEUnit, d⟩

/-- The loop `for (j = 0; j < linelen; )` of `unpackbits`.  Every pass moves
`j` forward, so `linelen` passes are always enough; the first argument counts
the passes that remain. -/
def unpackRle (env : Env) (pixelSize pkpixsize PixelPerRLEUnit : Nat) (pSrcLine : List PLBYTE)
    (linelen : Nat) : Nat → RleState → Except PLError RleState
  | 0, st => .ok st
  | fuel + 1, st =>
    if st.j < linelen then do
      let st1 ← rleStep env pixelSize pkpixsize PixelPerRLEUnit pSrcLine st
      unpackRle env pixelSize pkpixsize PixelPerRLEUnit pSrcLine linelen fuel st1
    else .ok st

/-- Replace line `i` of the bitmap. -/
def PLBmp.setLine (bmp : PLBmp) (i : Nat) (line : Buf) : PLBmp :=
  { bmp with lines := fun r => if r = i then line else bmp.lines r }

/-- The row loop of the unpacked branch (`rowBytes < 8`) of `unpackbits`. -/
def unpackbitsRawRows (env : Env) (Width : Int) (rowBytes pixelSize : Nat) :
    Nat → Nat → M (PLBmp × PLDataSource) Unit
  | 0, _ => pure ()
  | n + 1, i => do
    let pSrcLine ← onSrc (ReadNBytes rowBytes)
    let s ← getState
    let line ← liftExcept
      (if pixelSize = 16 then expandBuf env (s.1.lines i) 0 pSrcLine 0 Width pixelSize
       else expandBuf8 (s.1.lines i) 0 pSrcLine 0 Width pixelSize)
    modifyState (fun s => (s.1.setLine i line, s.2))
    unpackbitsRawRows env Width rowBytes pixelSize n (i + 1)

/-- The row loop of the packed branch of `unpackbits`; the last argument is
the temporary line buffer `pLineBuf`, which keeps its contents from row to
row. -/
def unpackbitsPackedRows (env : Env) (Width : Int)
    (rowBytes pixelSize pkpixsize PixelPerRLEUnit : Nat) :
    Nat → Nat → Buf → M (PLBmp × PLDataSource) Unit
  | 0, _, _ => pure ()
  | n + 1, i, pLineBuf => do
    let linelen ← onSrc (if rowBytes > 250 then ReadMWord else ReadByte)
    let pSrcLine ← onSrc (ReadNBytes linelen)
    let st ← liftExcept (unpackRle env pixelSize pkpixsize PixelPerRLEUnit pSrcLine linelen
      linelen ⟨0, 0, pLineBuf⟩)
    modifyState (fun s => (s.1.setLine i
      (memcpy (s.1.lines i) 0 st.lineBuf 0
        (if pixelSize = 16 then (4 * Width).toNat else Width.toNat)), s.2))
    unpackbitsPackedRows env Width rowBytes pixelSize pkpixsize PixelPerRLEUnit n (i + 1)
      st.lineBuf

/-- Embeds `PLPictDecoder::unpackbits`.  The model has buffers without an end
and no allocator, so two things of the source have no counterpart here: the
size of the block behind `pLineBuf` (see `lineBufSize`), which the loops never
compare `pBuf` with, and the handler
`catch (PLTextException) { delete [] pLineBuf; throw; }` around the body. -/
def unpackbits (env : Env) (pBounds : MacRect) (rowBytes : Nat) (pixelSize : Nat) :
    M (PLBmp × PLDataSource) Unit :=
  let Height : Int := pBounds.bottom - pBounds.top
  let Width : Int := pBounds.right - pBounds.left
  let rowBytes1 := if pixelSize ≤ 8 then rowBytes &&& 0x7fff else rowBytes
  let pkpixsize := if pixelSize = 16 then 2 else 1
  let pixwidth := if pixelSize = 16 then (toWord Width * 2) % 65536 else toWord Width
  let rowBytes2 := if rowBytes1 = 0 then pixwidth else rowBytes1
  if pixelSize = 1 ∨ pixelSize = 2 ∨ pixelSize = 4 ∨ pixelSize = 8 ∨ pixelSize = 16 then
    let PixelPerRLEUnit :=
      if pixelSize = 1 then 8 else if pixelSize = 2 then 4 else if pixelSize = 4 then 2 else 1
    if rowBytes2 < 8 then
      unpackbitsRawRows env Width rowBytes2 pixelSize Height.toNat 0
    else
      unpackbitsPackedRows env Width rowBytes2 pixelSize pkpixsize PixelPerRLEUnit
        Height.toNat 0 env.heap
  else
    raiseError .PL_ERRFORMAT_UNKNOWN

/-- Modelled from the spec: one control byte of the shared RLE scheme with a
unit of 1 byte and no expansion step (the body of the row loop of
`unpackPictRow`, which is not part of the decoder sources). -/
def pictRowStep (pSrcLine : List PLBYTE) (st : RleState) : RleState :=
  let FlagCounter := peekByte pSrcLine st.j
  if FlagCounter &&& 0x80 ≠ 0 then
    if FlagCounter = 0x80 then
      { st with j := st.j + 1 }
    else
      let len := (255 - FlagCounter) + 2
      ⟨st.j + 2, st.pBuf + len,
        st.lineBuf.storeList st.pBuf (List.replicate len (peekByte pSrcLine (st.j + 1)))⟩
  else
    let len := FlagCounter + 1
    ⟨st.j + len + 1, st.pBuf + len, memcpy st.lineBuf st.pBuf (fileBuf pSrcLine) (st.j + 1) len⟩

/-- Modelled from the spec: the control-byte loop of `unpackPictRow` over a
source line of `SrcBytes` bytes; the first argument counts the passes that
remain. -/
def pictRowLoop (pSrcLine : List PLBYTE) (SrcBytes : Nat) : Nat → RleState → RleState
  | 0, st => st
  | fuel + 1, st =>
    if st.j < SrcBytes then pictRowLoop pSrcLine SrcBytes fuel (pictRowStep pSrcLine st)
    else st

/-- Modelled from the spec: `unpackPictRow (pLineBuf, pDataSrc, Width,
rowBytes, SrcBytes)`, which is not part of the decoder sources.  A row of
fewer than 8 bytes is read raw, any other row is `SrcBytes` bytes of RLE data
decoded into `pLineBuf`.  The result is the row it points to, with the new
contents of `pLineBuf`. -/
def unpackPictRow (pLineBuf : Buf) (_Width : Int) (rowBytes SrcBytes : Nat) :
    M PLDataSource (Buf × Buf) :=
  if rowBytes < 8 then do
    let p ← ReadNBytes rowBytes
    pure (fileBuf p, pLineBuf)
  else do
    let p ← ReadNBytes SrcBytes
    let st := pictRowLoop p SrcBytes SrcBytes ⟨0, 0, pLineBuf⟩
    pure (st.lineBuf, st.lineBuf)

/-- The pixel loop of `unpack32bits` for three planes. -/
def planesToPixels3 (env : Env) (pBuf : Buf) (Width : Nat) : Nat → Nat → Buf → Buf
  | 0, _, d => d
  | n + 1, j, d =>
    let d1 := d.store (4 * j + env.PL_RGBA_BLUE) (pBuf (j + Width * 2))
    let d2 := d1.store (4 * j + env.PL_RGBA_GREEN) (pBuf (j + Width))
    let d3 := d2.store (4 * j + env.PL_RGBA_RED) (pBuf j)
    let d4 := d3.store (4 * j + env.PL_RGBA_ALPHA) 0xFF
    planesToPixels3 env pBuf Width n (j + 1) d4

/-- The pixel loop of `unpack32bits` for any other number of planes. -/
def planesToPixels4 (env : Env) (pBuf : Buf) (Width : Nat) : Nat → Nat → Buf → Buf
  | 0, _, d => d
  | n + 1, j, d =>
    let d1 := d.store (4 * j + env.PL_RGBA_BLUE) (pBuf (j + Width * 3))
    let d2 := d1.store (4 * j + env.PL_RGBA_GREEN) (pBuf (j + Width * 2))
    let d3 := d2.store (4 * j + env.PL_RGBA_RED) (pBuf (j + Width))
    let d4 := d3.store (4 * j + env.PL_RGBA_ALPHA) (pBuf j)
    planesToPixels4 env pBuf Width n (j + 1) d4

/-- The row loop of `unpack32bits`. -/
def unpack32bitsRows (env : Env) (Width : Int) (rowBytes : Nat) (NumBitPlanes : Nat) :
    Nat → Nat → Buf → M (PLBmp × PLDataSource) Unit
  | 0, _, _ => pure ()
  | n + 1, i, pLinebuf => do
    let linelen ← onSrc (if rowBytes > 250 then ReadMWord else ReadByte)
    let r ← onSrc (unpackPictRow pLinebuf Width rowBytes linelen)
    modifyState (fun s => (s.1.setLine i
      (if NumBitPlanes = 3 then
        planesToPixels3 env r.1 Width.toNat Width.toNat 0 (s.1.lines i)
       else
        planesToPixels4 env r.1 Width.toNat Width.toNat 0 (s.1.lines i)), s.2))
    unpack32bitsRows env Width rowBytes NumBitPlanes n (i + 1) r.2

/-- Embeds `PLPictDecoder::unpack32bits`. -/
def unpack32bits (env : Env) (pBounds : MacRect) (rowBytes : Nat) (NumBitPlanes : Nat) :
    M (PLBmp × PLDataSource) Unit :=
  let Height : Int := pBounds.bottom - pBounds.top
  let Width : Int := pBounds.right - pBounds.left
  let rowBytes1 := if rowBytes = 0 then toWord (Width * 4) else rowBytes
  unpack32bitsRows env Width rowBytes1 NumBitPlanes Height.toNat 0 env.heap

/-- The row loop of `unpack8bits`. -/
def unpack8bitsRows (Width : Int) (rowBytes : Nat) :
    Nat → Nat → Buf → M (PLBmp × PLDataSource) Unit
  | 0, _, _ => pure ()
  | n + 1, i, pLineBuf => do
    let linelen ← onSrc (if rowBytes > 250 then ReadMWord else ReadByte)
    let r ← onSrc (unpackPictRow pLineBuf Width rowBytes linelen)
    modifyState (fun s => (s.1.setLine i (memcpy (s.1.lines i) 0 r.1 0 Width.toNat), s.2))
    unpack8bitsRows Width rowBytes n (i + 1) r.2

/-- Embeds `PLPictDecoder::unpack8bits`. -/
def unpack8bits (env : Env) (pBounds : MacRect) (rowBytes : Nat) :
    M (PLBmp × PLDataSource) Unit :=
  let Height : Int := pBounds.bottom - pBounds.top
  let Width : Int := pBounds.right - pBounds.left
  let rowBytes1 := rowBytes &&& 0x7fff
  let rowBytes2 := if rowBytes1 = 0 then toWord Width else rowBytes1
  unpack8bitsRows Width rowBytes2 Height.toNat 0 env.heap

/-! ## Raster phase -/

/-- An unpacker run on the bitmap and the session's data source. -/
def onBmpSrc {α : Type} (m : M (PLBmp × PLDataSource) α) : M (PLBmp × PLPictDecoder) α :=
  zoom (fun s => (s.1, s.2.m_pDataSrc)) (fun t s => (t.1, { s.2 with m_pDataSrc := t.2 })) m

/-- A data-source operation run on the session's data source, next to the
bitmap. -/
def onSessionSrc {α : Type} (m : M PLDataSource α) : M (PLBmp × PLPictDecoder) α :=
  zoom (fun s => s.2.m_pDataSrc) (fun d s => (s.1, { s.2 with m_pDataSrc := d })) m

/-- Modelled from the spec: the sink call `setPaletteEntry(index, r, g, b, a)`. -/
def PLBmp.SetPaletteEntry (bmp : PLBmp) (i r g b a : Nat) : PLBmp :=
  { bmp with palette := fun k => if k = i then ⟨r, g, b, a⟩ else bmp.palette k }

/-- Modelled from the spec: the sink call `setPalette(256 entries)`. -/
def PLBmp.SetPalette (bmp : PLBmp) (pal : Palette) : PLBmp :=
  { bmp with palette := fun k => if k < 256 then pal k else bmp.palette k }

/-- The `switch (m_PixMap.pixelSize)` shared by `DecodeOp9a` and
`DecodePixmap`. -/
def unpackByPixelSize (env : Env) (PixMap : MacpixMap) (rowBytes : Nat) :
    M (PLBmp × PLDataSource) Unit :=
  if PixMap.pixelSize = 32 then
    unpack32bits env PixMap.Bounds rowBytes PixMap.cmpCount
  else if PixMap.pixelSize = 8 then
    unpack8bits env PixMap.Bounds rowBytes
  else
    unpackbits env PixMap.Bounds rowBytes PixMap.pixelSize

/-- Embeds `PLPictDecoder::DecodeOp9a`. -/
def DecodeOp9a (env : Env) : M (PLBmp × PLPictDecoder) Unit := do
  let s ← getState
  onBmpSrc (unpackByPixelSize env s.2.m_PixMap 0)

/-- Embeds `PLPictDecoder::DecodeJPEG`.  A null `m_pJPEGDecoder` cannot be
dereferenced; the model ends that run abnormally. -/
def DecodeJPEG (env : Env) : M (PLBmp × PLPictDecoder) Unit :=
  if env.PL_SUPPORT_JPEG then
    match env.m_pJPEGDecoder with
    | some dec => onBmpSrc dec.GetImage
    | none => raiseError .PL_ASSERTION
  else
    raiseError .PL_ERRFORMAT_NOT_SUPPORTED

/-- Embeds `PLPictDecoder::DecodeBitmap`. -/
def DecodeBitmap (env : Env) : M (PLBmp × PLPictDecoder) Unit := do
  let _mode ← onSessionSrc ReadMWord
  let s ← getState
  if s.2.m_bIsRegion then onSessionSrc skipPolyOrRegion else pure ()
  modifyState (fun s => (s.1.SetPaletteEntry 0 0 0 0 255, s.2))
  modifyState (fun s => (s.1.SetPaletteEntry 1 255 255 255 255, s.2))
  onBmpSrc (unpackbits env s.2.m_Bounds s.2.m_rowBytes 1)

/-- Embeds `PLPictDecoder::DecodePixmap`.  The local array `Pal` starts out with
whatever the stack holds. -/
def DecodePixmap (env : Env) : M (PLBmp × PLPictDecoder) Unit := do
  let ct ← onSessionSrc (fun d =>
    match readColourTable (env.stackPal, d) with
    | .ok _ s => .ok s.1 s.2
    | .raise e s => .raise e s.2)
  let s ← getState
  if s.1.bitsPerPixel = 8 then modifyState (fun s => (s.1.SetPalette ct, s.2)) else pure ()
  let _TempRect ← onSessionSrc readRect
  let _TempRect ← onSessionSrc readRect
  let _mode ← onSessionSrc ReadMWord
  if s.2.m_bIsRegion then onSessionSrc skipPolyOrRegion else pure ()
  onBmpSrc (unpackByPixelSize env s.2.m_PixMap s.2.m_rowBytes)

/-- Embeds `PLPictDecoder::GetImage`.  `PLASSERT (false)` ends the run in a debug
build and does nothing in a release build. -/
def GetImage (env : Env) : M (PLBmp × PLPictDecoder) Unit := do
  let s ← getState
  match s.2.m_PictType with
    | .op9a => DecodeOp9a env
    | .jpeg => DecodeJPEG env
    | .pixmap => DecodePixmap env
    | .bitmap => DecodeBitmap env
    | .none => if env.debugBuild then raiseError .PL_ASSERTION else pure ()
  modifyState (fun s => (s.1, { s.2 with m_PictType := .none }))

/-! ## Vocabulary for the statements -/

/-- A computation leaves the observation `f` of the state as it was, whether
it returns or raises. -/
def Keeps {σ α β : Type} (f : σ → β) (m : M σ α) : Prop :=
  ∀ s, f (m s).state = f s

/-- A JPEG decoder that accepts everything and reports a 1 x 1 image. -/
def demoJPEGDecoder : PLJPEGDecoder :=
  { Open := pure ⟨⟨1, 1⟩, ⟨0, 0⟩, .X8R8G8B8⟩
    GetImage := pure () }

/-- A concrete environment for examples: every table opcode has no payload,
channels are stored in the order R, G, B, A, release build with JPEG support,
fresh memory reads as zero. -/
def demoEnv : Env :=
  { optable := fun _ => ⟨"NOP", 0⟩
    WORD_LEN := -1
    PL_SUPPORT_JPEG := true
    m_pJPEGDecoder := some demoJPEGDecoder
    PL_RGBA_BLUE := 2
    PL_RGBA_GREEN := 1
    PL_RGBA_RED := 0
    PL_RGBA_ALPHA := 3
    debugBuild := false
    heap := fun _ => 0
    stackPal := fun _ => ⟨0, 0, 0, 0⟩
    stackPixMap := ⟨⟨0, 0, 0, 0⟩, 0, 0, 0, 0, 0, 0, 0, 0, 0, 0, 0, 0⟩ }

/-- A fresh session on the given file data. -/
def newSession (data : List PLBYTE) : PLPictDecoder :=
  { m_pDataSrc := ⟨[], data⟩
    m_PictType := .none
    m_PixMap := ⟨⟨0, 0, 0, 0⟩, 0, 0, 0, 0, 0, 0, 0, 0, 0, 0, 0, 0⟩
    m_Bounds := ⟨0, 0, 0, 0⟩
    m_rowBytes := 0
    m_bIsRegion := false
    m_Resolution := ⟨0, 0⟩
    bmpInfo := ⟨⟨0, 0⟩, ⟨0, 0⟩, .I8⟩ }

/-- Postcondition of a computation: whenever it returns, `Q` holds of the
returned value and the state reached. -/
def Post {σ α : Type} (Q : α → σ → Prop) (m : M σ α) : Prop :=
  ∀ s a s1, m s = .ok a s1 → Q a s1

/-- A minimal version-2 file: 512-byte pad, size word, bounding rectangle,
`0x0011 0x02FF`, a no-op, then opcode `0x98` with a `rowBytes` word that has the
top bit set, the bounds and a 36-byte pixmap header. -/
def demoPixmapFile : List PLBYTE :=
  List.replicate 512 0 ++
    [0, 0, 0, 0, 0, 0, 0, 4, 0, 4, 0x00, 0x11, 0x02, 0xFF,
     0x00, 0x00, 0x00, 0x98, 0x80, 0x04, 0, 0, 0, 0, 0, 4, 0, 4,
     0, 0, 0, 0, 0, 0, 0, 0, 0, 0x48, 0, 0, 0, 0x48, 0, 0, 0, 0, 0, 8, 0, 1, 0, 8,
     0, 0, 0, 0, 0, 0, 0, 0, 0, 0, 0, 0]

/-- A blank 8-bit bitmap. -/
def demoBmp : PLBmp :=
  { palette := fun _ => ⟨0, 0, 0, 0⟩
    lines := fun _ _ => 0
    bitsPerPixel := 8 }

/-- The stored index word of colour-table entry number `k` in the bytes that
follow the table header, if both of its bytes are there. -/
def ctIndexWord (body : List PLBYTE) (k : Nat) : Option Nat :=
  match body.drop (8 * k) with
  | i0 :: i1 :: _ => some (i0.val * 256 + i1.val)
  | _ => none

/-- Two colour-table entries, with index words 5 and 0. -/
def demoTableBody : List PLBYTE :=
  [0, 5, 0xFF, 0xFF, 0x80, 0x00, 0, 0,
   0, 0, 0x12, 0x34, 0x56, 0x78, 0x9a, 0xbc]

/-- Two colour-table entries, with index words 1 and 2. -/
def demoBadTableBody : List PLBYTE :=
  [0, 1, 0xFF, 0xFF, 0x80, 0x00, 0, 0,
   0, 2, 0x12, 0x34, 0x56, 0x78, 0x9a, 0xbc]

/-! ## Spec-side description of the RLE row format -/

/-- Spec side: the pixel values packed in one source byte at `bpp` bits per
pixel, most significant bits first. -/
def expandUnit8 (bpp b : Nat) : List Nat :=
  (List.range (8 / bpp)).map (fun t => (b >>> (8 - bpp * (t + 1))) &&& (2 ^ bpp - 1))

/-- Spec side: the four bytes of the 32-bit pixel made from the 5-5-5 unit
with bytes `hi`, `lo`: each colour channel is its 5 bits scaled by 8, alpha is
255 (the top bit of the unit is not used). -/
def expandUnit16 (env : Env) (hi lo : Nat) : List Nat :=
  (List.range 4).map (fun c =>
    if c = env.PL_RGBA_ALPHA then 255
    else if c = env.PL_RGBA_RED then ((hi * 256 + lo) / 1024 % 32) * 8
    else if c = env.PL_RGBA_GREEN then ((hi * 256 + lo) / 32 % 32) * 8
    else ((hi * 256 + lo) % 32) * 8)

/-- Spec side: the output of the RLE unit that starts at position `pos` of the
source line (2 bytes at 16 bpp, 1 byte otherwise). -/
def unitOut (env : Env) (pixelSize : Nat) (pSrcLine : List PLBYTE) (pos : Nat) : List Nat :=
  if pixelSize = 16 then
    expandUnit16 env (peekByte pSrcLine pos) (peekByte pSrcLine (pos + 1))
  else
    expandUnit8 pixelSize (peekByte pSrcLine pos)

/-- Spec side: the output of the run whose control byte is at position `j`:
a control byte below `0x80` starts a literal run of that many units plus one,
`0x80` gives nothing, any other one repeats the single following unit
`(255 - byte) + 2` times. -/
def specRun (env : Env) (pixelSize unitSize : Nat) (pSrcLine : List PLBYTE) (j : Nat) :
    List Nat :=
  let c := peekByte pSrcLine j
  if c < 0x80 then
    ((List.range (c + 1)).map (fun u => unitOut env pixelSize pSrcLine (j + 1 + u * unitSize))).flatten
  else if c = 0x80 then []
  else (List.replicate ((255 - c) + 2) (unitOut env pixelSize pSrcLine (j + 1))).flatten

/-- Spec side: the read position after the run whose control byte is at `j`. -/
def specAdvance (unitSize : Nat) (pSrcLine : List PLBYTE) (j : Nat) : Nat :=
  let c := peekByte pSrcLine j
  if c < 0x80 then j + 1 + (c + 1) * unitSize
  else if c = 0x80 then j + 1
  else j + 1 + unitSize

/-- Spec side: the decoded row, the outputs of the runs of a source line of
`linelen` bytes one after the other, starting at position `j`.  The first
argument bounds the number of runs. -/
def specRow (env : Env) (pixelSize unitSize : Nat) (pSrcLine : List PLBYTE) (linelen : Nat) :
    Nat → Nat → List Nat
  | 0, _ => []
  | fuel + 1, j =>
    if j < linelen then
      specRun env pixelSize unitSize pSrcLine j ++
        specRow env pixelSize unitSize pSrcLine linelen fuel (specAdvance unitSize pSrcLine j)
    else []

/-- The first `n` bytes of a buffer. -/
def bufPrefix (d : Buf) (n : Nat) : List Nat := (List.range n).map d

/-- The `n` bytes of a buffer from offset `p` on. -/
def bufSeg (d : Buf) (p n : Nat) : List Nat := (List.range n).map (fun k => d (p + k))

/-- The four channel offsets are the four byte positions of a pixel. -/
def Env.channelsOK (env : Env) : Bool :=
  decide (env.PL_RGBA_BLUE < 4 ∧ env.PL_RGBA_GREEN < 4 ∧ env.PL_RGBA_RED < 4 ∧
    env.PL_RGBA_ALPHA < 4 ∧ env.PL_RGBA_BLUE ≠ env.PL_RGBA_GREEN ∧
    env.PL_RGBA_BLUE ≠ env.PL_RGBA_RED ∧ env.PL_RGBA_BLUE ≠ env.PL_RGBA_ALPHA ∧
    env.PL_RGBA_GREEN ≠ env.PL_RGBA_RED ∧ env.PL_RGBA_GREEN ≠ env.PL_RGBA_ALPHA ∧
    env.PL_RGBA_RED ≠ env.PL_RGBA_ALPHA)

/-- A source-to-destination expansion loop with `w` output bytes per source
byte; the three main loops of `expandBuf8` are instances of it. -/
def expandGen (f : Nat → List Nat) (w : Nat) (pSrcLine : List PLBYTE) :
    Nat → Nat → Nat → Buf → Buf
  | 0, _, _, d => d
  | n + 1, pSrc, pDest, d =>
    expandGen f w pSrcLine n (pSrc + 1) (pDest + w) (d.storeList pDest (f (peekByte pSrcLine pSrc)))

/-! ## Spec-side description of the row framing -/

/-- Spec side: the cursor over the data `t` after `o` of its bytes have been
read; `c` holds what was read before `t`, most recent first. -/
def cursorAt (c t : List PLBYTE) (o : Nat) : PLDataSource :=
  ⟨(t.take o).reverse ++ c, t.drop o⟩

/-- Spec side: the value of a big-endian length prefix of `k` bytes at the
head of `t`. -/
def prefixValue (k : Nat) (t : List PLBYTE) : Nat :=
  (List.range k).foldl (fun a j => a * 256 + peekByte t j) 0

/-- Spec side: the number of bytes that `n` rows occupy in `t` when every row
is a length prefix of `k` bytes followed by that many bytes of row data. -/
def framedLength (k : Nat) : Nat → List PLBYTE → Nat
  | 0, _ => 0
  | n + 1, t =>
    (k + prefixValue k t) + framedLength k n (t.drop (k + prefixValue k t))

/-! ## Spec-side description of the JPEG marker search -/

/-- Spec side: the marker `FF D8 FF` starts at offset `i` of the data `t`. -/
def markerAt (t : List PLBYTE) (i : Nat) : Prop :=
  peekByte t i = 0xFF ∧ peekByte t (i + 1) = 0xD8 ∧ peekByte t (i + 2) = 0xFF

instance (t : List PLBYTE) (i : Nat) : Decidable (markerAt t i) := by
  unfold markerAt
  infer_instance

/-! ## The opcode dispatch with its last branch left open -/

/-- The body of the `while (!bDone)` loop of `interpretOpcodes` as in
`interpretOpcode`, with what the final `else` does given as `last` (in the
source it raises `PL_ERRFORMAT_UNKNOWN`, "Can't handle Opcode"). -/
def interpretOpcodeElse (env : Env) (Version : Nat) (last : M PLPictDecoder (Nat × Bool)) :
    M PLPictDecoder (Nat × Bool) := do
  let Opcode ← onDataSrc (readOpcode Version)
  if Opcode = 0xFF ∨ Opcode = 0xFFFF then
    raiseError .PL_ERRFORMAT_NOT_SUPPORTED
  else if Opcode < 0xa2 then
    if Opcode = 0x01 then do
      onDataSrc clip
      pure (Opcode, false)
    else if Opcode = 0x12 ∨ Opcode = 0x13 ∨ Opcode = 0x14 then do
      onDataSrc (pixPat env)
      pure (Opcode, false)
    else if 0x70 ≤ Opcode ∧ Opcode ≤ 0x77 then do
      onDataSrc skipPolyOrRegion
      pure (Opcode, false)
    else if Opcode = 0x90 ∨ Opcode = 0x98 then do
      bitsRect
      pure (Opcode, true)
    else if Opcode = 0x91 ∨ Opcode = 0x99 then do
      bitsRegion
      pure (Opcode, true)
    else if Opcode = 0x9a then do
      opcode9a
      pure (Opcode, true)
    else if Opcode = 0xa1 then do
      onDataSrc longComment
      pure (Opcode, false)
    else if (env.optable Opcode).len = env.WORD_LEN then do
      let n ← onDataSrc ReadMWord
      onDataSrc (Skip n)
      pure (Opcode, false)
    else do
      onDataSrc (Skip (env.optable Opcode).len)
      pure (Opcode, false)
  else if Opcode = 0xc00 then do
    headerOp
    pure (Opcode, false)
  else if Opcode = 0x8200 then do
    jpegOp env
    pure (Opcode, true)
  else if Opcode ≥ 0xa2 ∧ Opcode ≤ 0xaf then do
    let n ← onDataSrc ReadMWord
    onDataSrc (Skip n)
    pure (Opcode, false)
  else if (Opcode ≥ 0xb0 ∧ Opcode ≤ 0xcf) ∨ (Opcode ≥ 0x8000 ∧ Opcode ≤ 0x80ff) then
    pure (Opcode, false)
  else if (Opcode ≥ 0xd0 ∧ Opcode ≤ 0xfe) ∨ Opcode ≥ 8100 then do
    let n ← onDataSrc ReadMLong
    onDataSrc (Skip n)
    pure (Opcode, false)
  else if Opcode ≥ 0x100 ∧ Opcode ≤ 0x7fff then do
    onDataSrc (Skip (((Opcode >>> 7) &&& 255 : Nat) : Int))
    pure (Opcode, false)
  else
    last


/-! ## inv_cmap.c: the inverse colour map

`long` and `int` values are integers (every value of the computation is far
from the limits of the types); pointers into `dist_buf` and `rgbmap` are
offsets from the start of the array; `unsigned long` values are reduced modulo
`maxv + 1`, where `maxv` is the value of `~0L` as an `unsigned long`, and
`unsigned char` values modulo 256. -/

/-- The variables of `inv_cmap.c` that outlive a call: the file-level statics,
the function-level statics of `redloop` (`rxx`), `greenloop` (`greenHere` ..
`gcrgbp`) and `blueloop` (`blueHere` .. `binc`), and the two arrays. -/
structure InvCmapState where
  bcenter : Int
  gcenter : Int
  rcenter : Int
  gdist : Int
  rdist : Int
  cdist : Int
  cbinc : Int
  cginc : Int
  crinc : Int
  gdp : Int
  rdp : Int
  cdp : Int
  grgbp : Int
  rrgbp : Int
  crgbp : Int
  gstride : Int
  rstride : Int
  x : Int
  xsqr : Int
  colormax : Int
  cindex : Int
  rxx : Int
  greenHere : Int
  greenMin : Int
  greenMax : Int
  ginc : Int
  gxx : Int
  gcdist : Int
  gcdp : Int
  gcrgbp : Int
  blueHere : Int
  blueMin : Int
  blueMax : Int
  binc : Int
  dist_buf : Int → Nat
  rgbmap : Int → Nat

/-- Conversion of a `long` to `unsigned long`. -/
def toULong (maxv : Nat) (z : Int) : Nat := (z % ((maxv : Int) + 1)).toNat

/-- The assignment `*p = v` on an array given by offsets. -/
def storeAt (buf : Int → Nat) (p : Int) (v : Nat) : Int → Nat :=
  fun k => if k = p then v else buf k

/-- The loop of `maxfill`: `n` entries left to fill, `bp` the next one. -/
def maxfillLoop (maxv : Nat) : Nat → Int → (Int → Nat) → (Int → Nat)
  | 0, _, buffer => buffer
  | n + 1, bp, buffer => maxfillLoop maxv n (bp + 1) (storeAt buffer bp maxv)

/-- Embeds `maxfill`. -/
def maxfill (maxv : Nat) (buffer : Int → Nat) (side : Int) : Int → Nat :=
  maxfillLoop maxv (side * side * side).toNat 0 buffer

/-- The registers `b`, `bdist`, `bxx`, `dp`, `rgbp` of `blueloop`. -/
structure BlueRegs where
  b : Int
  bdist : Int
  bxx : Int
  dp : Int
  rgbp : Int

/-- The step `b++, dp++, rgbp++, bdist += bxx, bxx += txsqr`. -/
def BlueRegs.up (txsqr : Int) (l : BlueRegs) : BlueRegs :=
  ⟨l.b + 1, l.bdist + l.bxx, l.bxx + txsqr, l.dp + 1, l.rgbp + 1⟩

/-- The step `b--, dp--, rgbp--, bxx -= txsqr, bdist -= bxx`. -/
def BlueRegs.down (txsqr : Int) (l : BlueRegs) : BlueRegs :=
  ⟨l.b - 1, l.bdist - (l.bxx - txsqr), l.bxx - txsqr, l.dp - 1, l.rgbp - 1⟩

/-- The statements under "Remember new 'here' and associated data". -/
def blueRemember (l : BlueRegs) (s : InvCmapState) : InvCmapState :=
  { s with blueHere := l.b, gdp := l.dp, grgbp := l.rgbp, gdist := l.bdist, binc := l.bxx }

/-- The first loop of `blueloop` ("just finds first applicable cell"), with
`n` the number of iterations that `b <= lim` still allows; the result says
whether the loop was left by `break`. -/
def blueFindUp (maxv : Nat) (txsqr : Int) : Nat → BlueRegs → InvCmapState →
    Bool × BlueRegs × InvCmapState
  | 0, l, s => (false, l, s)
  | n + 1, l, s =>
    if s.dist_buf l.dp > toULong maxv l.bdist then
      (true, l, if l.b > s.blueHere then blueRemember l s else s)
    else
      blueFindUp maxv txsqr n (l.up txsqr) s

/-- The second loop of `blueloop` ("fills in a run of closer cells") for the
step `step` (up or down); the "update" loop downwards has the same body. -/
def blueFill (maxv : Nat) (i : Int) (step : BlueRegs → BlueRegs) : Nat → BlueRegs →
    InvCmapState → BlueRegs × InvCmapState
  | 0, l, s => (l, s)
  | n + 1, l, s =>
    if s.dist_buf l.dp > toULong maxv l.bdist then
      blueFill maxv i step n (step l)
        { s with
          dist_buf := storeAt s.dist_buf l.dp (toULong maxv l.bdist)
          rgbmap := storeAt s.rgbmap l.rgbp (i % 256).toNat }
    else
      (l, s)

/-- The "find" loop downwards of `blueloop`. -/
def blueFindDown (maxv : Nat) (txsqr : Int) : Nat → BlueRegs → InvCmapState →
    Bool × BlueRegs × InvCmapState
  | 0, l, s => (false, l, s)
  | n + 1, l, s =>
    if s.dist_buf l.dp > toULong maxv l.bdist then
      (true, l, blueRemember l s)
    else
      blueFindDown maxv txsqr n (l.down txsqr) s

/-- Embeds `blueloop`; the result is `detect`. -/
def blueloop (maxv : Nat) (restart : Bool) (s0 : InvCmapState) : Bool × InvCmapState :=
  let i := s0.cindex
  let txsqr := s0.xsqr + s0.xsqr
  let s1 := if restart then
      { s0 with blueHere := s0.bcenter, blueMin := 0, blueMax := s0.colormax - 1,
                binc := s0.cbinc }
    else s0
  let lim := s1.blueMax
  let l0 : BlueRegs := ⟨s1.blueHere, s1.gdist, s1.binc, s1.gdp, s1.grgbp⟩
  let (detect1, l1, s2) := blueFindUp maxv txsqr (lim - l0.b + 1).toNat l0 s1
  let (_, s3) := blueFill maxv i (BlueRegs.up txsqr) (lim - l1.b + 1).toNat l1 s2
  let lim := s3.blueMin
  let l3 : BlueRegs :=
    ⟨s3.blueHere - 1, s3.gdist - (s3.binc - txsqr), s3.binc - txsqr, s3.gdp - 1, s3.grgbp - 1⟩
  let (detect2, l4, s4) :=
    if !detect1 then blueFindDown maxv txsqr (l3.b - lim + 1).toNat l3 s3
    else (detect1, l3, s3)
  let (_, s5) := blueFill maxv i (BlueRegs.down txsqr) (l4.b - lim + 1).toNat l4 s4
  (detect1 || detect2, s5)

/-- The step of the upward loop of `greenloop`. -/
def greenStepUp (txsqr : Int) (s : InvCmapState) : InvCmapState :=
  { s with gdp := s.gdp + s.gstride, gcdp := s.gcdp + s.gstride,
           grgbp := s.grgbp + s.gstride, gcrgbp := s.gcrgbp + s.gstride,
           gdist := s.gdist + s.gxx, gcdist := s.gcdist + s.gxx, gxx := s.gxx + txsqr }

/-- The step of the downward loop of `greenloop`. -/
def greenStepDown (txsqr : Int) (s : InvCmapState) : InvCmapState :=
  { s with gdp := s.gdp - s.gstride, gcdp := s.gcdp - s.gstride,
           grgbp := s.grgbp - s.gstride, gcrgbp := s.gcrgbp - s.gstride,
           gxx := s.gxx - txsqr, gdist := s.gdist - (s.gxx - txsqr),
           gcdist := s.gcdist - (s.gxx - txsqr) }

/-- The statements under "Remember here and associated data" of `greenloop`. -/
def greenRemember (g : Int) (s : InvCmapState) : InvCmapState :=
  { s with greenHere := g, rdp := s.gcdp, rrgbp := s.gcrgbp, rdist := s.gcdist, ginc := s.gxx }

/-- The upward loop of `greenloop`: `n` iterations left, locals `g`, `first`
and `detect`; the result is `detect`. -/
def greenUp (maxv : Nat) (txsqr : Int) : Nat → Int → Bool → Bool → InvCmapState →
    Bool × InvCmapState
  | 0, _, _, detect, s => (detect, s)
  | n + 1, g, first, detect, s =>
    let r := blueloop maxv first s
    if r.1 then
      let s2 := if !detect then (if g > r.2.greenHere then greenRemember g r.2 else r.2) else r.2
      greenUp maxv txsqr n (g + 1) false true (greenStepUp txsqr s2)
    else if detect then
      (detect, r.2)
    else
      greenUp maxv txsqr n (g + 1) false detect (greenStepUp txsqr r.2)

/-- The downward loop of `greenloop`. -/
def greenDown (maxv : Nat) (txsqr : Int) : Nat → Int → Bool → Bool → InvCmapState →
    Bool × InvCmapState
  | 0, _, _, detect, s => (detect, s)
  | n + 1, g, first, detect, s =>
    let r := blueloop maxv first s
    if r.1 then
      let s2 := if !detect then greenRemember g r.2 else r.2
      greenDown maxv txsqr n (g - 1) false true (greenStepDown txsqr s2)
    else if detect then
      (detect, r.2)
    else
      greenDown maxv txsqr n (g - 1) false detect (greenStepDown txsqr r.2)

/-- Embeds `greenloop`; the result is `detect`. -/
def greenloop (maxv : Nat) (restart : Bool) (s0 : InvCmapState) : Bool × InvCmapState :=
  let txsqr := s0.xsqr + s0.xsqr
  let s1 := if restart then
      { s0 with greenHere := s0.gcenter, greenMin := 0, greenMax := s0.colormax - 1,
                ginc := s0.cginc }
    else s0
  let s2 := { s1 with gcdist := s1.rdist, gdist := s1.rdist, gxx := s1.ginc,
                      gcdp := s1.rdp, gdp := s1.rdp, gcrgbp := s1.rrgbp, grgbp := s1.rrgbp }
  let r1 := greenUp maxv txsqr (s2.greenMax - s2.greenHere + 1).toNat s2.greenHere true false s2
  let s3 := r1.2
  let s4 := { s3 with gxx := s3.ginc - txsqr, gcdist := s3.rdist - (s3.ginc - txsqr),
                      gdist := s3.rdist - (s3.ginc - txsqr),
                      gcdp := s3.rdp - s3.gstride, gdp := s3.rdp - s3.gstride,
                      gcrgbp := s3.rrgbp - s3.gstride, grgbp := s3.rrgbp - s3.gstride }
  greenDown maxv txsqr (s4.greenHere - 1 - s4.greenMin + 1).toNat (s4.greenHere - 1) true r1.1 s4

/-- The upward loop of `redloop` (`down = false`: step `r++, rdp += rstride,
rrgbp += rstride, rdist += rxx, rxx += txsqr`) and its downward loop
(`down = true`: step `r--, rdp -= rstride, rrgbp -= rstride, rxx -= txsqr,
rdist -= rxx`): `n` iterations left, locals `first` and `detect`. -/
def redLoop (maxv : Nat) (txsqr : Int) (down : Bool) : Nat → Bool → Bool → InvCmapState →
    Bool × InvCmapState
  | 0, _, detect, s => (detect, s)
  | n + 1, first, detect, s =>
    let r := greenloop maxv first s
    let next : InvCmapState :=
      if down then
        { r.2 with rdp := r.2.rdp - r.2.rstride, rrgbp := r.2.rrgbp - r.2.rstride,
                   rxx := r.2.rxx - txsqr, rdist := r.2.rdist - (r.2.rxx - txsqr) }
      else
        { r.2 with rdp := r.2.rdp + r.2.rstride, rrgbp := r.2.rrgbp + r.2.rstride,
                   rdist := r.2.rdist + r.2.rxx, rxx := r.2.rxx + txsqr }
    if r.1 then
      redLoop maxv txsqr down n false true next
    else if detect then
      (detect, r.2)
    else
      redLoop maxv txsqr down n false detect next

/-- Embeds `redloop`; the result is `detect`. -/
def redloop (maxv : Nat) (s0 : InvCmapState) : Bool × InvCmapState :=
  let txsqr := s0.xsqr + s0.xsqr
  let s1 := { s0 with rdist := s0.cdist, rxx := s0.crinc, rdp := s0.cdp, rrgbp := s0.crgbp }
  let r1 := redLoop maxv txsqr false (s1.colormax - s1.rcenter).toNat true false s1
  let s2 := r1.2
  let s3 := { s2 with rxx := s2.crinc - txsqr, rdist := s2.cdist - (s2.crinc - txsqr),
                      rdp := s2.cdp - s2.rstride, rrgbp := s2.crgbp - s2.rstride }
  redLoop maxv txsqr true (s3.rcenter - 1 + 1).toNat true r1.1 s3

/-- The body of the loop over `cindex` in `inv_cmap`, `nbits` being
`8 - bits`. -/
def invCmapColour (maxv : Nat) (colormap : Fin 3 → Nat → Fin 256) (nbits : Nat)
    (s : InvCmapState) : InvCmapState :=
  let c0 : Int := ((colormap 0 s.cindex.toNat).val : Int)
  let c1 : Int := ((colormap 1 s.cindex.toNat).val : Int)
  let c2 : Int := ((colormap 2 s.cindex.toNat).val : Int)
  let rcenter : Int := (((colormap 0 s.cindex.toNat).val >>> nbits : Nat) : Int)
  let gcenter : Int := (((colormap 1 s.cindex.toNat).val >>> nbits : Nat) : Int)
  let bcenter : Int := (((colormap 2 s.cindex.toNat).val >>> nbits : Nat) : Int)
  let rdist := c0 - (rcenter * s.x + s.x / 2)
  let gdist := c1 - (gcenter * s.x + s.x / 2)
  let cdist := c2 - (bcenter * s.x + s.x / 2)
  let cdist := rdist * rdist + gdist * gdist + cdist * cdist
  let s1 := { s with
    rcenter := rcenter, gcenter := gcenter, bcenter := bcenter,
    rdist := rdist, gdist := gdist, cdist := cdist,
    crinc := 2 * ((rcenter + 1) * s.xsqr - c0 * s.x),
    cginc := 2 * ((gcenter + 1) * s.xsqr - c1 * s.x),
    cbinc := 2 * ((bcenter + 1) * s.xsqr - c2 * s.x),
    cdp := rcenter * s.rstride + gcenter * s.gstride + bcenter,
    crgbp := rcenter * s.rstride + gcenter * s.gstride + bcenter }
  (redloop maxv s1).2

/-- The loop `for ( cindex = 0; cindex < colors; cindex++ )` of `inv_cmap`,
`n` colours left. -/
def invCmapLoop (maxv : Nat) (colormap : Fin 3 → Nat → Fin 256) (nbits : Nat) :
    Nat → InvCmapState → InvCmapState
  | 0, s => s
  | n + 1, s =>
    let s1 := invCmapColour maxv colormap nbits s
    invCmapLoop maxv colormap nbits n { s1 with cindex := s1.cindex + 1 }

/-- Embeds `inv_cmap` for `0 <= bits <= 8` (a larger `bits` makes the shift
count `8 - bits` negative); `s` holds the statics and the two arrays as the
call finds them. -/
def inv_cmap (maxv : Nat) (colors : Int) (colormap : Fin 3 → Nat → Fin 256) (bits : Nat)
    (s : InvCmapState) : InvCmapState :=
  let nbits := 8 - bits
  let colormax : Int := ((1 <<< bits : Nat) : Int)
  let s1 := { s with
    colormax := colormax,
    x := ((1 <<< nbits : Nat) : Int),
    xsqr := ((1 <<< (2 * nbits) : Nat) : Int),
    gstride := colormax,
    rstride := colormax * colormax }
  let s2 := { s1 with dist_buf := maxfill maxv s1.dist_buf s1.colormax, cindex := 0 }
  invCmapLoop maxv colormap nbits colors.toNat s2

/-- The statics and arrays before the first call: the statics are zero, the
arrays hold `d` and `m` everywhere. -/
def invCmapInit (d m : Nat) : InvCmapState :=
  ⟨0, 0, 0, 0, 0, 0, 0, 0, 0, 0, 0, 0, 0, 0, 0, 0, 0, 0, 0, 0, 0, 0, 0, 0, 0, 0, 0, 0, 0, 0,
    0, 0, 0, 0, fun _ => d, fun _ => m⟩

/-- Squared Euclidean distance from colormap entry `i` to the centre
`(r*x + x/2, g*x + x/2, b*x + x/2)` of the cell `(r, g, b)`, `x = 2^(8-bits)`. -/
def cellDist (colormap : Fin 3 → Nat → Fin 256) (bits : Nat) (r g b : Nat) (i : Nat) : Int :=
  let x : Int := ((2 ^ (8 - bits) : Nat) : Int)
  (((colormap 0 i).val : Int) - ((r : Int) * x + x / 2)) ^ 2 +
  (((colormap 1 i).val : Int) - ((g : Int) * x + x / 2)) ^ 2 +
  (((colormap 2 i).val : Int) - ((b : Int) * x + x / 2)) ^ 2

/-- A colormap given by three lists (entries past the end read as 0). -/
def colormapOf (R G B : List (Fin 256)) : Fin 3 → Nat → Fin 256 :=
  fun k i => if k = 0 then R.getD i 0 else if k = 1 then G.getD i 0 else B.getD i 0

/-! ## Proof vocabulary for `inv_cmap.c` -/

/-- The state `s1` is reached from `s` by a part of the scan of one colour:
the colour index is the same, no distance has grown, and every `rgbmap` entry
is the old one or the colour index of the scan. -/
def Descends (s s1 : InvCmapState) : Prop :=
  s1.cindex = s.cindex ∧ (∀ p, s1.dist_buf p ≤ s.dist_buf p) ∧
  (∀ p, s1.rgbmap p = s.rgbmap p ∨ s1.rgbmap p = (s.cindex % 256).toNat)

/-- The state of `inv_cmap` before its loop over the colours (the `s2` of
`inv_cmap`). -/
def invCmapStart (maxv : Nat) (bits : Nat) (s : InvCmapState) : InvCmapState :=
  { s with
    colormax := ((1 <<< bits : Nat) : Int),
    x := ((1 <<< (8 - bits) : Nat) : Int),
    xsqr := ((1 <<< (2 * (8 - bits)) : Nat) : Int),
    gstride := ((1 <<< bits : Nat) : Int),
    rstride := ((1 <<< bits : Nat) : Int) * ((1 <<< bits : Nat) : Int),
    dist_buf := maxfill maxv s.dist_buf ((1 <<< bits : Nat) : Int),
    cindex := 0 }

/-- The state in which `inv_cmap` calls `redloop` for the colour `s.cindex`
(the `s1` of `invCmapColour`). -/
def invCmapCentre (colormap : Fin 3 → Nat → Fin 256) (nbits : Nat) (s : InvCmapState) :
    InvCmapState :=
  let c0 : Int := ((colormap 0 s.cindex.toNat).val : Int)
  let c1 : Int := ((colormap 1 s.cindex.toNat).val : Int)
  let c2 : Int := ((colormap 2 s.cindex.toNat).val : Int)
  let rcenter : Int := (((colormap 0 s.cindex.toNat).val >>> nbits : Nat) : Int)
  let gcenter : Int := (((colormap 1 s.cindex.toNat).val >>> nbits : Nat) : Int)
  let bcenter : Int := (((colormap 2 s.cindex.toNat).val >>> nbits : Nat) : Int)
  let rdist := c0 - (rcenter * s.x + s.x / 2)
  let gdist := c1 - (gcenter * s.x + s.x / 2)
  let cdist := c2 - (bcenter * s.x + s.x / 2)
  let cdist := rdist * rdist + gdist * gdist + cdist * cdist
  { s with
    rcenter := rcenter, gcenter := gcenter, bcenter := bcenter,
    rdist := rdist, gdist := gdist, cdist := cdist,
    crinc := 2 * ((rcenter + 1) * s.xsqr - c0 * s.x),
    cginc := 2 * ((gcenter + 1) * s.xsqr - c1 * s.x),
    cbinc := 2 * ((bcenter + 1) * s.xsqr - c2 * s.x),
    cdp := rcenter * s.rstride + gcenter * s.gstride + bcenter,
    crgbp := rcenter * s.rstride + gcenter * s.gstride + bcenter }

/-- The state in which the upward loop of `redloop` starts. -/
def redloopStart (s : InvCmapState) : InvCmapState :=
  { s with rdist := s.cdist, rxx := s.crinc, rdp := s.cdp, rrgbp := s.crgbp }

/-- The state in which the upward loop of `greenloop` starts after a
restart. -/
def greenloopStart (s : InvCmapState) : InvCmapState :=
  { s with greenHere := s.gcenter, greenMin := 0, greenMax := s.colormax - 1,
           ginc := s.cginc,
           gcdist := s.rdist, gdist := s.rdist, gxx := s.cginc,
           gcdp := s.rdp, gdp := s.rdp, gcrgbp := s.rrgbp, grgbp := s.rrgbp }

/-- The state `invCmapStart` with what `maxfill` does written in closed form:
the first `(2^bits)^3` entries of `dist_buf` hold `maxv`. -/
def invCmapFilled (maxv : Nat) (bits : Nat) (s : InvCmapState) : InvCmapState :=
  { invCmapStart maxv bits s with
    dist_buf := fun k => if 0 ≤ k ∧ k < ((2 ^ (3 * bits) : Nat) : Int) then maxv else s.dist_buf k }

/-! ## The temporary line buffer of `unpackbits` -/

/-- The number of bytes of the block that the `switch (pixelSize)` of
`unpackbits` assigns to `pLineBuf` (`new PLBYTE [(rowBytes+1) * 32]` and so on,
`rowBytes` being the row byte count after the mask and the fallback to the
pixel width); `none` when the switch leaves `pLineBuf` unassigned, which is the
`default` branch: it raises before any `new`.  The loops of `unpackbits` never
compare `pBuf` with the end of this block, and the handler
`catch (PLTextException) { delete [] pLineBuf; throw; }` deletes `pLineBuf`
whatever the switch did. -/
def lineBufSize (rowBytes pixelSize : Nat) : Option Nat :=
  if pixelSize = 1 then some ((rowBytes + 1) * 32)
  else if pixelSize = 2 then some ((rowBytes + 1) * 16)
  else if pixelSize = 4 then some ((rowBytes + 1) * 8)
  else if pixelSize = 8 then some (rowBytes * 4)
  else if pixelSize = 16 then some (rowBytes * 2 + 4)
  else none
/-! ## Theorems -/

@[simp] theorem bind_apply {σ α β : Type} (m : M σ α) (f : α → M σ β) (s : σ) :
    (m >>= f) s = match m s with
      | .ok a s1 => f a s1
      | .raise e s1 => .raise e s1 := rfl

@[simp] theorem pure_apply {σ α : Type} (a : α) (s : σ) :
    (pure a : M σ α) s = .ok a s := rfl

@[simp] theorem raiseError_apply {σ α : Type} (e : PLError) (s : σ) :
    (raiseError e : M σ α) s = .raise e s := rfl

theorem readNonZeroByte_eq (t c : List PLBYTE) :
    ∃ c1, readNonZeroByte c t =
      match t.dropWhile (fun b => decide (b.val = 0)) with
      | [] => .raise .PL_ERREND_OF_FILE ⟨c1, []⟩
      | b :: r => .ok b.val ⟨c1, r⟩ := by
  induction t generalizing c with
  | nil => exact ⟨c, rfl⟩
  | cons b r ih =>
    by_cases hb : b.val = 0
    · obtain ⟨c1, h1⟩ := ih (b :: c)
      refine ⟨c1, ?_⟩
      simp [readNonZeroByte, hb, List.dropWhile_cons, h1]
    · refine ⟨b :: c, ?_⟩
      simp [readNonZeroByte, hb, List.dropWhile_cons]

theorem list_length_ten {α : Type} (l : List α) (h : l.length = 10) :
    ∃ a0 a1 a2 a3 a4 a5 a6 a7 a8 a9, l = [a0, a1, a2, a3, a4, a5, a6, a7, a8, a9] := by
  match l, h with
  | [a0, a1, a2, a3, a4, a5, a6, a7, a8, a9], _ => exact ⟨a0, a1, a2, a3, a4, a5, a6, a7, a8, a9, rfl⟩

theorem readHeader_after_frame (c hd t : List PLBYTE) (hlen : hd.length = 10) :
    ∃ c1, readHeader ⟨c, hd ++ t⟩ =
      match t.dropWhile (fun b => decide (b.val = 0)) with
      | [] => .raise .PL_ERREND_OF_FILE ⟨c1, []⟩
      | b :: r =>
        if b.val ≠ 0x11 then .raise .PL_ERRWRONG_SIGNATURE ⟨c1, r⟩
        else match r with
          | [] => .raise .PL_ERREND_OF_FILE ⟨c1, []⟩
          | v :: r2 =>
            if v.val = 1 then .ok 1 ⟨v :: c1, r2⟩
            else if v.val = 2 then
              match r2 with
              | [] => .raise .PL_ERREND_OF_FILE ⟨v :: c1, []⟩
              | x :: r3 =>
                if x.val ≠ 0xff then .raise .PL_ERRWRONG_SIGNATURE ⟨x :: v :: c1, r3⟩
                else .ok 2 ⟨x :: v :: c1, r3⟩
            else .raise .PL_ERRWRONG_SIGNATURE ⟨v :: c1, r2⟩ := by
  obtain ⟨a0, a1, a2, a3, a4, a5, a6, a7, a8, a9, rfl⟩ := list_length_ten hd hlen
  obtain ⟨c1, h1⟩ := readNonZeroByte_eq t (a9 :: a8 :: a7 :: a6 :: a5 :: a4 :: a3 :: a2 :: a1 :: a0 :: c)
  refine ⟨c1, ?_⟩
  simp only [readHeader, readRect, bind_apply, ReadMWord, List.cons_append, List.nil_append, pure_apply, h1]
  cases hz : t.dropWhile (fun b => decide (b.val = 0)) with
  | nil => simp
  | cons b r =>
    simp only []
    by_cases hb : b.val = 0x11
    · simp only [hb, ne_eq, not_true_eq_false, ↓reduceIte, bind_apply, ReadByte]
      cases r with
      | nil => simp
      | cons v r2 =>
        simp only []
        by_cases hv1 : v.val = 1
        · simp [hv1]
        · by_cases hv2 : v.val = 2
          · simp only [hv2, OfNat.ofNat_ne_one, ↓reduceIte, bind_apply]
            cases r2 with
            | nil => simp [ReadByte]
            | cons x r3 =>
              by_cases hx : x.val = 0xff <;> simp [hx, ReadByte]
          · simp [hv1, hv2]
    · simp [hb]


/-- C1: after the picture-size word and the bounding rectangle (`hd`, 10
bytes) and after the zero bytes that follow, `readHeader` returns version 1
exactly when the remaining bytes start `0x11, 1`, version 2 exactly when they
start `0x11, 2, 0xFF`, returns nothing else, and raises
`PL_ERRWRONG_SIGNATURE` on every other sequence of at least three bytes; the
only other outcome is the end-of-file error of the data source, raised exactly
when the remaining bytes are nothing, `0x11` alone, or `0x11, 2` alone. -/
theorem readHeader_accepts_exactly_two_signatures (c hd t : List PLBYTE)
    (hlen : hd.length = 10) :
    ((readHeader ⟨c, hd ++ t⟩).value = some 1 ↔
      ∃ r, t.dropWhile (fun b => decide (b.val = 0)) = 0x11 :: 1 :: r) ∧
    ((readHeader ⟨c, hd ++ t⟩).value = some 2 ↔
      ∃ r, t.dropWhile (fun b => decide (b.val = 0)) = 0x11 :: 2 :: 0xff :: r) ∧
    (∀ n, (readHeader ⟨c, hd ++ t⟩).value = some n → n = 1 ∨ n = 2) ∧
    (3 ≤ (t.dropWhile (fun b => decide (b.val = 0))).length →
      (¬ ∃ r, t.dropWhile (fun b => decide (b.val = 0)) = 0x11 :: 1 :: r) →
      (¬ ∃ r, t.dropWhile (fun b => decide (b.val = 0)) = 0x11 :: 2 :: 0xff :: r) →
      (readHeader ⟨c, hd ++ t⟩).error = some .PL_ERRWRONG_SIGNATURE) ∧
    ((readHeader ⟨c, hd ++ t⟩).error = some .PL_ERREND_OF_FILE ↔
      t.dropWhile (fun b => decide (b.val = 0)) = [] ∨
      t.dropWhile (fun b => decide (b.val = 0)) = [0x11] ∨
      t.dropWhile (fun b => decide (b.val = 0)) = [0x11, 2]) ∧
    (∀ e, (readHeader ⟨c, hd ++ t⟩).error = some e →
      e = .PL_ERRWRONG_SIGNATURE ∨ e = .PL_ERREND_OF_FILE) := by
  obtain ⟨c1, h⟩ := readHeader_after_frame c hd t hlen
  rw [h]
  have e11 : ∀ b : PLBYTE, b.val = 0x11 ↔ b = 0x11 := fun b => by
    rw [Fin.ext_iff]; rfl
  have e1 : ∀ b : PLBYTE, b.val = 1 ↔ b = 1 := fun b => by
    rw [Fin.ext_iff]; rfl
  have e2 : ∀ b : PLBYTE, b.val = 2 ↔ b = 2 := fun b => by
    rw [Fin.ext_iff]; rfl
  have eff : ∀ b : PLBYTE, b.val = 0xff ↔ b = 0xff := fun b => by
    rw [Fin.ext_iff]; rfl
  have n12 : (1 : PLBYTE) ≠ 2 := by decide
  have v17 : ((17 : PLBYTE) : Nat) = 17 := rfl
  have v1 : ((1 : PLBYTE) : Nat) = 1 := rfl
  have v2 : ((2 : PLBYTE) : Nat) = 2 := rfl
  have v255 : ((255 : PLBYTE) : Nat) = 255 := rfl
  cases t.dropWhile (fun b => decide (b.val = 0)) with
  | nil => simp [Res.value, Res.error]
  | cons b r =>
    by_cases hb : b.val = 0x11
    · have hb2 := (e11 b).1 hb
      cases r with
      | nil => simp [v17, v1, v2, v255, Res.value, Res.error, hb, hb2]
      | cons v r2 =>
        by_cases hv1 : v.val = 1
        · have hv1b := (e1 v).1 hv1
          simp [v17, v1, v2, v255, Res.value, Res.error, n12, hb, hb2, hv1, hv1b]
        · have hv1b : ¬ v = 1 := fun hh => hv1 ((e1 v).2 hh)
          by_cases hv2 : v.val = 2
          · have hv2b := (e2 v).1 hv2
            cases r2 with
            | nil => simp [v17, v1, v2, v255, Res.value, Res.error, hb, hb2, hv1, hv1b, hv2, hv2b]
            | cons x r3 =>
              by_cases hx : x.val = 0xff
              · have hx2 := (eff x).1 hx
                simp [v17, v1, v2, v255, Res.value, Res.error, hb, hb2, hv1, hv1b, hv2, hv2b, hx, hx2]
              · have hx2 : ¬ x = 255 := fun hh => hx ((eff x).2 hh)
                simp [v17, v1, v2, v255, Res.value, Res.error, hb, hb2, hv1, hv1b, hv2, hv2b, hx, hx2]
          · have hv2b : ¬ v = 2 := fun hh => hv2 ((e2 v).2 hh)
            simp [v17, v1, v2, v255, Res.value, Res.error, hb, hb2, hv1, hv2, hv1b, hv2b]
    · have hb2 : ¬ b = 17 := fun hh => hb ((e11 b).2 hh)
      simp [v17, v1, v2, v255, Res.value, Res.error, hb, hb2]

theorem readHeader_accepts_exactly_two_signatures_witness :
    (List.replicate 10 (0 : PLBYTE)).length = 10 ∧
    (readHeader ⟨[], List.replicate 10 0 ++ [0, 0, 0x11, 2, 0xff, 0xa0]⟩).value = some 2 ∧
    (readHeader ⟨[], List.replicate 10 0 ++ [0, 0, 0x11, 1, 0xff]⟩).value = some 1 ∧
    (readHeader ⟨[], List.replicate 10 0 ++ [0, 0x11, 2, 0xfe]⟩).error
      = some .PL_ERRWRONG_SIGNATURE :=
  ⟨by decide,
   ((readHeader_accepts_exactly_two_signatures [] (List.replicate 10 0)
      [0, 0, 0x11, 2, 0xff, 0xa0] (by decide)).2.1).2 ⟨[0xa0], by decide⟩,
   ((readHeader_accepts_exactly_two_signatures [] (List.replicate 10 0)
      [0, 0, 0x11, 1, 0xff] (by decide)).1).2 ⟨[0xff], by decide⟩,
   (readHeader_accepts_exactly_two_signatures [] (List.replicate 10 0)
      [0, 0x11, 2, 0xfe] (by decide)).2.2.2.1 (by decide)
      (fun ⟨r, h⟩ => absurd (List.cons.inj (List.cons.inj
        (show ([0x11, 2, 0xfe] : List PLBYTE) = 0x11 :: 1 :: r from h)).2).1 (by decide))
      (fun ⟨r, h⟩ => absurd (List.cons.inj (List.cons.inj (List.cons.inj
        (show ([0x11, 2, 0xfe] : List PLBYTE) = 0x11 :: 2 :: 0xff :: r from h)).2).2).1
        (by decide))⟩

/-! ### Frame lemmas for the opcode loop -/

theorem keeps_pure {σ α β : Type} (f : σ → β) (a : α) : Keeps f (pure a : M σ α) :=
  fun _ => rfl

theorem keeps_raise {σ α β : Type} (f : σ → β) (e : PLError) :
    Keeps f (raiseError e : M σ α) :=
  fun _ => rfl

theorem keeps_bind {σ α γ β : Type} (f : σ → β) (m : M σ α) (k : α → M σ γ)
    (hm : Keeps f m) (hk : ∀ a, Keeps f (k a)) : Keeps f (m >>= k) := by
  intro s
  have h1 := hm s
  simp only [bind_apply]
  cases hms : m s with
  | ok a s1 =>
    rw [hms] at h1
    simp only [Res.state] at h1
    simp only []
    rw [hk a s1, h1]
  | raise e s1 =>
    rw [hms] at h1
    simpa [Res.state] using h1

theorem keeps_onDataSrc {α β : Type} (f : PLPictDecoder → β)
    (hsrc : ∀ s d, f { s with m_pDataSrc := d } = f s) (m : M PLDataSource α) :
    Keeps f (onDataSrc m) := by
  intro s
  simp only [onDataSrc, zoom]
  cases m s.m_pDataSrc <;> simp [Res.state, hsrc]

theorem keeps_headerOp {β : Type} (f : PLPictDecoder → β)
    (hsrc : ∀ s d, f { s with m_pDataSrc := d } = f s)
    (hres : ∀ s r, f { s with m_Resolution := r } = f s) : Keeps f headerOp := by
  unfold headerOp
  refine keeps_bind f _ _ (keeps_onDataSrc f hsrc _) (fun _ => ?_)
  refine keeps_bind f _ _ (keeps_onDataSrc f hsrc _) (fun _ => ?_)
  refine keeps_bind f _ _ (fun s => hres s _) (fun _ => ?_)
  refine keeps_bind f _ _ (keeps_onDataSrc f hsrc _) (fun _ => ?_)
  refine keeps_bind f _ _ (fun s => hres s _) (fun _ => ?_)
  refine keeps_bind f _ _ (keeps_onDataSrc f hsrc _) (fun _ => ?_)
  refine keeps_bind f _ _ (keeps_onDataSrc f hsrc _) (fun _ => ?_)
  exact keeps_pure f _

theorem then_pure_value {σ α γ : Type} (m : M σ α) (c r : γ) (s s1 : σ)
    (h : (m >>= fun _ => (pure c : M σ γ)) s = .ok r s1) : r = c ∧ ∃ a, m s = .ok a s1 := by
  simp only [bind_apply] at h
  cases hms : m s with
  | ok a s2 =>
    rw [hms] at h
    simp only [pure_apply, Res.ok.injEq] at h
    exact ⟨h.1.symm, a, by rw [h.2]⟩
  | raise e s2 => rw [hms] at h; cases h

theorem post_bind {σ α γ : Type} (Q : γ → σ → Prop) (m : M σ α) (k : α → M σ γ)
    (hk : ∀ a, Post Q (k a)) : Post Q (m >>= k) := by
  intro s c s1 h
  rw [bind_apply] at h
  cases hms : m s with
  | ok a s2 => rw [hms] at h; exact hk a s2 c s1 h
  | raise e s2 => rw [hms] at h; cases h

theorem post_raise {σ α : Type} (Q : α → σ → Prop) (e : PLError) :
    Post Q (raiseError e : M σ α) := by
  intro s a s1 h
  cases h

theorem post_modify {σ : Type} (Q : Unit → σ → Prop) (g : σ → σ) (hg : ∀ s, Q () (g s)) :
    Post Q (modifyState g) := by
  intro s a s1 h
  cases h
  exact hg s

theorem post_pure {σ α : Type} (Q : α → σ → Prop) (a : α) (ha : ∀ s, Q a s) :
    Post Q (pure a : M σ α) := by
  intro s b s1 h
  cases h
  exact ha s

theorem keeps_doPixmap : Keeps (fun s => (s.m_rowBytes, s.m_bIsRegion)) doPixmap := by
  unfold doPixmap
  refine keeps_bind (fun s : PLPictDecoder => (s.m_rowBytes, s.m_bIsRegion)) _ _ (keeps_onDataSrc (fun s : PLPictDecoder => (s.m_rowBytes, s.m_bIsRegion)) (fun _ _ => rfl) _) (fun _ => ?_)
  refine keeps_bind (fun s : PLPictDecoder => (s.m_rowBytes, s.m_bIsRegion)) _ _ (fun _ => rfl) (fun _ => ?_)
  refine keeps_bind (fun s : PLPictDecoder => (s.m_rowBytes, s.m_bIsRegion)) _ _ (fun _ => rfl) (fun _ => ?_)
  refine keeps_bind (fun s : PLPictDecoder => (s.m_rowBytes, s.m_bIsRegion)) _ _ (keeps_onDataSrc (fun s : PLPictDecoder => (s.m_rowBytes, s.m_bIsRegion)) (fun _ _ => rfl) _) (fun _ => ?_)
  refine keeps_bind (fun s : PLPictDecoder => (s.m_rowBytes, s.m_bIsRegion)) _ _ (fun _ => rfl) (fun _ => ?_)
  refine keeps_bind (fun s : PLPictDecoder => (s.m_rowBytes, s.m_bIsRegion)) _ _ (fun _ => rfl) (fun _ => ?_)
  exact fun _ => rfl

theorem keeps_doBitmap : Keeps (fun s => (s.m_rowBytes, s.m_bIsRegion)) doBitmap := by
  unfold doBitmap
  refine keeps_bind (fun s : PLPictDecoder => (s.m_rowBytes, s.m_bIsRegion)) _ _ (keeps_onDataSrc (fun s : PLPictDecoder => (s.m_rowBytes, s.m_bIsRegion)) (fun _ _ => rfl) _) (fun _ => ?_)
  refine keeps_bind (fun s : PLPictDecoder => (s.m_rowBytes, s.m_bIsRegion)) _ _ (fun _ => rfl) (fun _ => ?_)
  refine keeps_bind (fun s : PLPictDecoder => (s.m_rowBytes, s.m_bIsRegion)) _ _ (keeps_onDataSrc (fun s : PLPictDecoder => (s.m_rowBytes, s.m_bIsRegion)) (fun _ _ => rfl) _) (fun _ => ?_)
  refine keeps_bind (fun s : PLPictDecoder => (s.m_rowBytes, s.m_bIsRegion)) _ _ (keeps_onDataSrc (fun s : PLPictDecoder => (s.m_rowBytes, s.m_bIsRegion)) (fun _ _ => rfl) _) (fun _ => ?_)
  refine keeps_bind (fun s : PLPictDecoder => (s.m_rowBytes, s.m_bIsRegion)) _ _ (fun _ => rfl) (fun _ => ?_)
  exact fun _ => rfl

theorem post_doPixmap : Post (fun _ s => s.m_PictType = .pixmap) doPixmap := by
  unfold doPixmap
  refine post_bind _ _ _ (fun _ => ?_)
  refine post_bind _ _ _ (fun _ => ?_)
  refine post_bind _ _ _ (fun _ => ?_)
  refine post_bind _ _ _ (fun _ => ?_)
  refine post_bind _ _ _ (fun _ => ?_)
  refine post_bind _ _ _ (fun _ => ?_)
  exact post_modify _ _ (fun _ => rfl)

theorem post_doBitmap : Post (fun _ s => s.m_PictType = .bitmap) doBitmap := by
  unfold doBitmap
  refine post_bind _ _ _ (fun _ => ?_)
  refine post_bind _ _ _ (fun _ => ?_)
  refine post_bind _ _ _ (fun _ => ?_)
  refine post_bind _ _ _ (fun _ => ?_)
  refine post_bind _ _ _ (fun _ => ?_)
  exact post_modify _ _ (fun _ => rfl)

theorem post_opcode9a : Post (fun _ s => s.m_PictType = .op9a) opcode9a := by
  unfold opcode9a
  refine post_bind _ _ _ (fun _ => ?_)
  refine post_bind _ _ _ (fun _ => ?_)
  refine post_bind _ _ _ (fun _ => ?_)
  refine post_bind _ _ _ (fun _ => ?_)
  refine post_bind _ _ _ (fun _ => ?_)
  refine post_bind _ _ _ (fun _ => ?_)
  refine post_bind _ _ _ (fun _ => ?_)
  refine post_bind _ _ _ (fun _ => ?_)
  refine post_bind _ _ _ (fun _ => ?_)
  refine post_bind _ _ _ (fun _ => ?_)
  refine post_bind _ _ _ (fun _ => ?_)
  exact post_modify _ _ (fun _ => rfl)

theorem post_jpegOp (env : Env) : Post (fun _ s => s.m_PictType = .jpeg) (jpegOp env) := by
  unfold jpegOp
  refine post_bind _ _ _ (fun _ => ?_)
  refine post_bind _ _ _ (fun bFound => ?_)
  cases bFound with
  | false => exact post_raise _ _
  | true =>
    simp only [if_true]
    cases env.m_pJPEGDecoder with
    | none => exact post_raise _ _
    | some dec =>
      simp only []
      cases env.PL_SUPPORT_JPEG with
      | false => exact post_raise _ _
      | true =>
        simp only [if_true]
        refine post_bind _ _ _ (fun _ => ?_)
        refine post_bind _ _ _ (fun _ => ?_)
        exact post_modify _ _ (fun _ => rfl)

/-- What `bitsRect` and `bitsRegion` leave behind when they return: the tag
follows the top bit of the stored `rowBytes` word. -/
theorem post_bitsRect_bitsRegion (region : Bool) :
    Post (fun _ s => s.m_bIsRegion = region ∧
        ((s.m_rowBytes &&& 0x8000 ≠ 0 ∧ s.m_PictType = .pixmap) ∨
         (s.m_rowBytes &&& 0x8000 = 0 ∧ s.m_PictType = .bitmap)))
      (if region then bitsRegion else bitsRect) := by
  intro s a s1 h
  have key : ∀ (s0 : PLPictDecoder) (rb : Nat),
      (if rb &&& 0x8000 ≠ 0 then doPixmap else doBitmap)
          { s0 with m_rowBytes := rb, m_bIsRegion := region } = .ok a s1 →
      s1.m_bIsRegion = region ∧
        ((s1.m_rowBytes &&& 0x8000 ≠ 0 ∧ s1.m_PictType = .pixmap) ∨
         (s1.m_rowBytes &&& 0x8000 = 0 ∧ s1.m_PictType = .bitmap)) := by
    intro s0 rb h1
    by_cases hb : rb &&& 0x8000 ≠ 0
    · rw [if_pos hb] at h1
      have hk := keeps_doPixmap { s0 with m_rowBytes := rb, m_bIsRegion := region }
      rw [h1] at hk
      simp only [Res.state, Prod.mk.injEq] at hk
      have hp := post_doPixmap _ _ _ h1
      rw [hk.1, hk.2]
      exact ⟨rfl, Or.inl ⟨hb, hp⟩⟩
    · rw [if_neg hb] at h1
      have hk := keeps_doBitmap { s0 with m_rowBytes := rb, m_bIsRegion := region }
      rw [h1] at hk
      simp only [Res.state, Prod.mk.injEq] at hk
      have hp := post_doBitmap _ _ _ h1
      rw [hk.1, hk.2]
      exact ⟨rfl, Or.inr ⟨not_not.mp hb, hp⟩⟩
  cases region with
  | false =>
    simp only [Bool.false_eq_true, if_false, bitsRect, bind_apply] at h
    cases hr : onDataSrc ReadMWord s with
    | raise e s0 => rw [hr] at h; cases h
    | ok rb s0 =>
      rw [hr] at h
      exact key s0 rb h
  | true =>
    simp only [if_true, bitsRegion, bind_apply] at h
    cases hr : onDataSrc ReadMWord s with
    | raise e s0 => rw [hr] at h; cases h
    | ok rb s0 =>
      rw [hr] at h
      exact key s0 rb h

/-- A pass of the opcode loop that ends the loop without raising dispatched
one of the raster opcodes and recorded the matching picture kind. -/
theorem interpretOpcode_terminal (env : Env) (Version : Nat) (s s1 : PLPictDecoder) (op : Nat)
    (h : interpretOpcode env Version s = .ok (op, true) s1) :
    ((op = 0x90 ∨ op = 0x98 ∨ op = 0x91 ∨ op = 0x99) ∧
      ((s1.m_rowBytes &&& 0x8000 ≠ 0 ∧ s1.m_PictType = .pixmap) ∨
       (s1.m_rowBytes &&& 0x8000 = 0 ∧ s1.m_PictType = .bitmap))) ∨
    (op = 0x9a ∧ s1.m_PictType = .op9a) ∨
    (op = 0x8200 ∧ s1.m_PictType = .jpeg) := by
  unfold interpretOpcode at h
  rw [bind_apply] at h
  cases hr : onDataSrc (readOpcode Version) s with
  | raise e s0 => rw [hr] at h; cases h
  | ok Opcode s0 =>
    rw [hr] at h
    simp only [] at h
    have hNT : ∀ (m : M PLPictDecoder (Nat × Bool)), Post (fun r _ => r.2 = false) m →
        m s0 = .ok (op, true) s1 → False := by
      intro m hm hms
      have := hm s0 (op, true) s1 hms
      cases this
    have hP : ∀ {α : Type} (m : M PLPictDecoder α),
        Post (fun r _ => r.2 = false) (m >>= fun _ => (pure (Opcode, false) : M _ (Nat × Bool))) :=
      fun m => post_bind _ _ _ (fun _ => post_pure _ _ (fun _ => rfl))
    have hP2 : ∀ {α γ : Type} (m : M PLPictDecoder α) (k : α → M PLPictDecoder γ),
        Post (fun r _ => r.2 = false)
          (m >>= fun a => k a >>= fun _ => (pure (Opcode, false) : M _ (Nat × Bool))) :=
      fun m k => post_bind _ _ _ (fun _ => post_bind _ _ _ (fun _ => post_pure _ _ (fun _ => rfl)))
    by_cases c1 : Opcode = 0xFF ∨ Opcode = 0xFFFF
    · rw [if_pos c1] at h; cases h
    rw [if_neg c1] at h
    by_cases c2 : Opcode < 0xa2
    · rw [if_pos c2] at h
      by_cases c3 : Opcode = 0x01
      · rw [if_pos c3] at h
        exact (hNT _ (hP _) h).elim
      rw [if_neg c3] at h
      by_cases c4 : Opcode = 0x12 ∨ Opcode = 0x13 ∨ Opcode = 0x14
      · rw [if_pos c4] at h
        exact (hNT _ (hP _) h).elim
      rw [if_neg c4] at h
      by_cases c5 : 0x70 ≤ Opcode ∧ Opcode ≤ 0x77
      · rw [if_pos c5] at h
        exact (hNT _ (hP _) h).elim
      rw [if_neg c5] at h
      by_cases c6 : Opcode = 0x90 ∨ Opcode = 0x98
      · rw [if_pos c6] at h
        obtain ⟨hv, a, ha⟩ := then_pure_value _ _ _ _ _ h
        injection hv with hv1 _
        subst hv1
        refine Or.inl ⟨?_, (post_bitsRect_bitsRegion false _ _ _ ha).2⟩
        rcases c6 with c | c
        · exact Or.inl c
        · exact Or.inr (Or.inl c)
      rw [if_neg c6] at h
      by_cases c7 : Opcode = 0x91 ∨ Opcode = 0x99
      · rw [if_pos c7] at h
        obtain ⟨hv, a, ha⟩ := then_pure_value _ _ _ _ _ h
        injection hv with hv1 _
        subst hv1
        refine Or.inl ⟨?_, (post_bitsRect_bitsRegion true _ _ _ ha).2⟩
        rcases c7 with c | c
        · exact Or.inr (Or.inr (Or.inl c))
        · exact Or.inr (Or.inr (Or.inr c))
      rw [if_neg c7] at h
      by_cases c8 : Opcode = 0x9a
      · rw [if_pos c8] at h
        obtain ⟨hv, a, ha⟩ := then_pure_value _ _ _ _ _ h
        injection hv with hv1 _
        subst hv1
        exact Or.inr (Or.inl ⟨c8, post_opcode9a _ _ _ ha⟩)
      rw [if_neg c8] at h
      by_cases c9 : Opcode = 0xa1
      · rw [if_pos c9] at h
        exact (hNT _ (hP _) h).elim
      rw [if_neg c9] at h
      by_cases c10 : (env.optable Opcode).len = env.WORD_LEN
      · rw [if_pos c10] at h
        exact (hNT _ (hP2 _ _) h).elim
      rw [if_neg c10] at h
      exact (hNT _ (hP _) h).elim
    rw [if_neg c2] at h
    by_cases d1 : Opcode = 0xc00
    · rw [if_pos d1] at h
      exact (hNT _ (hP _) h).elim
    rw [if_neg d1] at h
    by_cases d2 : Opcode = 0x8200
    · rw [if_pos d2] at h
      obtain ⟨hv, a, ha⟩ := then_pure_value _ _ _ _ _ h
      injection hv with hv1 _
      subst hv1
      exact Or.inr (Or.inr ⟨d2, post_jpegOp env _ _ _ ha⟩)
    rw [if_neg d2] at h
    by_cases d3 : Opcode ≥ 0xa2 ∧ Opcode ≤ 0xaf
    · rw [if_pos d3] at h
      exact (hNT _ (hP2 _ _) h).elim
    rw [if_neg d3] at h
    by_cases d4 : (Opcode ≥ 0xb0 ∧ Opcode ≤ 0xcf) ∨ (Opcode ≥ 0x8000 ∧ Opcode ≤ 0x80ff)
    · rw [if_pos d4] at h
      cases h
    rw [if_neg d4] at h
    by_cases d5 : (Opcode ≥ 0xd0 ∧ Opcode ≤ 0xfe) ∨ Opcode ≥ 8100
    · rw [if_pos d5] at h
      exact (hNT _ (hP2 _ _) h).elim
    rw [if_neg d5] at h
    by_cases d6 : Opcode ≥ 0x100 ∧ Opcode ≤ 0x7fff
    · rw [if_pos d6] at h
      exact (hNT _ (hP _) h).elim
    rw [if_neg d6] at h
    cases h

theorem interpretOpcodes_returns_terminal (env : Env) (Version fuel : Nat)
    (s s1 : PLPictDecoder) (op : Nat)
    (h : interpretOpcodes env Version fuel s = .ok (some op) s1) :
    ((op = 0x90 ∨ op = 0x98 ∨ op = 0x91 ∨ op = 0x99) ∧
      ((s1.m_rowBytes &&& 0x8000 ≠ 0 ∧ s1.m_PictType = .pixmap) ∨
       (s1.m_rowBytes &&& 0x8000 = 0 ∧ s1.m_PictType = .bitmap))) ∨
    (op = 0x9a ∧ s1.m_PictType = .op9a) ∨
    (op = 0x8200 ∧ s1.m_PictType = .jpeg) := by
  induction fuel generalizing s with
  | zero => cases h
  | succ f ih =>
    simp only [interpretOpcodes, bind_apply] at h
    cases hr : interpretOpcode env Version s with
    | raise e s0 => rw [hr] at h; cases h
    | ok r s0 =>
      obtain ⟨op1, b⟩ := r
      rw [hr] at h
      cases b with
      | true =>
        simp only [if_true, pure_apply, Res.ok.injEq, Option.some.injEq] at h
        obtain ⟨h1, h2⟩ := h
        subst h1 h2
        exact interpretOpcode_terminal env Version s s0 op1 hr
      | false =>
        simp only [Bool.false_eq_true, if_false] at h
        exact ih s0 h

/-- C3: whenever the header phase `Open` returns without raising, the last
opcode dispatched was a raster opcode and the picture-kind tag is set
accordingly: `pixmap` or `bitmap` after `0x90/0x98/0x91/0x99` (by the top bit
of the stored `rowBytes`), `op9a` after `0x9a`, `jpeg` after `0x8200`; in
particular the tag is not `none`. -/
theorem Open_returns_after_terminal_opcode (env : Env) (fuel : Nat)
    (s s1 : PLPictDecoder) (op : Nat)
    (h : Open env fuel s = .ok (some op) s1) :
    (((op = 0x90 ∨ op = 0x98 ∨ op = 0x91 ∨ op = 0x99) ∧
      ((s1.m_rowBytes &&& 0x8000 ≠ 0 ∧ s1.m_PictType = .pixmap) ∨
       (s1.m_rowBytes &&& 0x8000 = 0 ∧ s1.m_PictType = .bitmap))) ∨
    (op = 0x9a ∧ s1.m_PictType = .op9a) ∨
    (op = 0x8200 ∧ s1.m_PictType = .jpeg)) ∧
    s1.m_PictType ≠ .none := by
  have key : ((op = 0x90 ∨ op = 0x98 ∨ op = 0x91 ∨ op = 0x99) ∧
      ((s1.m_rowBytes &&& 0x8000 ≠ 0 ∧ s1.m_PictType = .pixmap) ∨
       (s1.m_rowBytes &&& 0x8000 = 0 ∧ s1.m_PictType = .bitmap))) ∨
    (op = 0x9a ∧ s1.m_PictType = .op9a) ∨
    (op = 0x8200 ∧ s1.m_PictType = .jpeg) := by
    simp only [Open, bind_apply] at h
    cases h1 : onDataSrc (Skip 512) s with
    | raise e s0 => rw [h1] at h; cases h
    | ok u s0 =>
      rw [h1] at h
      simp only [] at h
      cases h2 : onDataSrc readHeader s0 with
      | raise e s2 => rw [h2] at h; cases h
      | ok Version s2 =>
        rw [h2] at h
        exact interpretOpcodes_returns_terminal env Version fuel s2 s1 op h
  refine ⟨key, ?_⟩
  rcases key with ⟨_, ⟨_, h1⟩ | ⟨_, h1⟩⟩ | ⟨_, h1⟩ | ⟨_, h1⟩ <;> rw [h1] <;> decide

set_option maxRecDepth 100000 in
theorem Open_returns_after_terminal_opcode_witness :
    Open demoEnv 4 (newSession demoPixmapFile) =
      .ok (some 0x98) (Open demoEnv 4 (newSession demoPixmapFile)).state ∧
    (Open demoEnv 4 (newSession demoPixmapFile)).state.m_PictType = .pixmap ∧
    (Open demoEnv 4 (newSession demoPixmapFile)).state.m_PictType ≠ .none :=
  ⟨by decide, by decide,
   (Open_returns_after_terminal_opcode demoEnv 4 (newSession demoPixmapFile)
      (Open demoEnv 4 (newSession demoPixmapFile)).state 0x98 (by decide)).2⟩

/-! ### Raster phase dispatch -/

theorem GetImage_eq (env : Env) (st : PLBmp × PLPictDecoder) :
    GetImage env st =
      ((match st.2.m_PictType with
        | .op9a => DecodeOp9a env
        | .jpeg => DecodeJPEG env
        | .pixmap => DecodePixmap env
        | .bitmap => DecodeBitmap env
        | .none => if env.debugBuild then raiseError .PL_ASSERTION else pure ()) >>=
        fun _ => modifyState (fun s => (s.1, { s.2 with m_PictType := .none }))) st := by
  simp only [GetImage, bind_apply, getState]
  cases st.2.m_PictType
  · cases env.debugBuild <;> rfl
  all_goals rfl

theorem GetImage_resets (env : Env) (st st1 : PLBmp × PLPictDecoder) (a : Unit)
    (h : GetImage env st = .ok a st1) : st1.2.m_PictType = .none := by
  rw [GetImage_eq] at h
  exact post_bind (fun _ s => s.2.m_PictType = PictType.none) _ _
    (fun _ => post_modify _ _ (fun _ => rfl)) st a st1 h

theorem GetImage_of_none (env : Env) (st : PLBmp × PLPictDecoder)
    (h : st.2.m_PictType = .none) :
    GetImage env st = if env.debugBuild then .raise .PL_ASSERTION st else .ok () st := by
  rw [GetImage_eq, h]
  obtain ⟨bmp, s⟩ := st
  cases s
  simp only at h
  subst h
  cases env.debugBuild <;> rfl

/-- C4: `GetImage` runs the unpacker selected by the picture-kind tag alone
(`op9a` -> `DecodeOp9a`, `jpeg` -> `DecodeJPEG`, `pixmap` -> `DecodePixmap`,
`bitmap` -> `DecodeBitmap`) and then resets the tag; whenever it returns, the
tag is `none`; and a second call on the state it returned runs no unpacker: it
hands back that very state, bitmap and data source untouched (or stops at the
failed assertion in a debug build). -/
theorem GetImage_dispatches_on_tag_and_resets (env : Env) (st : PLBmp × PLPictDecoder) :
    (st.2.m_PictType = .op9a → GetImage env st =
      (DecodeOp9a env >>= fun _ =>
        modifyState (fun s => (s.1, { s.2 with m_PictType := .none }))) st) ∧
    (st.2.m_PictType = .jpeg → GetImage env st =
      (DecodeJPEG env >>= fun _ =>
        modifyState (fun s => (s.1, { s.2 with m_PictType := .none }))) st) ∧
    (st.2.m_PictType = .pixmap → GetImage env st =
      (DecodePixmap env >>= fun _ =>
        modifyState (fun s => (s.1, { s.2 with m_PictType := .none }))) st) ∧
    (st.2.m_PictType = .bitmap → GetImage env st =
      (DecodeBitmap env >>= fun _ =>
        modifyState (fun s => (s.1, { s.2 with m_PictType := .none }))) st) ∧
    (∀ a st1, GetImage env st = .ok a st1 →
      st1.2.m_PictType = .none ∧
      GetImage env st1 = if env.debugBuild then .raise .PL_ASSERTION st1 else .ok () st1) := by
  refine ⟨fun h => ?_, fun h => ?_, fun h => ?_, fun h => ?_, fun a st1 h => ?_⟩
  · rw [GetImage_eq, h]
  · rw [GetImage_eq, h]
  · rw [GetImage_eq, h]
  · rw [GetImage_eq, h]
  · exact ⟨GetImage_resets env st st1 a h,
      GetImage_of_none env st1 (GetImage_resets env st st1 a h)⟩

theorem GetImage_dispatches_on_tag_and_resets_witness :
    GetImage demoEnv (demoBmp, { newSession [] with m_PictType := .jpeg }) =
      .ok () (demoBmp, newSession []) ∧
    (newSession []).m_PictType = .none ∧
    GetImage demoEnv (demoBmp, newSession []) = .ok () (demoBmp, newSession []) :=
  ⟨rfl,
   (GetImage_dispatches_on_tag_and_resets demoEnv
      (demoBmp, { newSession [] with m_PictType := .jpeg })).2.2.2.2 ()
      (demoBmp, newSession []) rfl⟩


/-! ### Rectangles and pixel format -/

theorem toInt16_mod (w : Nat) (hw : w < 65536) : toInt16 w % 65536 = (w : Int) := by
  unfold toInt16
  rw [Nat.mod_eq_of_lt hw]
  split <;> omega

theorem toInt16_small (w : Nat) (hw : w < 32768) : toInt16 w = (w : Int) := by
  unfold toInt16
  rw [Nat.mod_eq_of_lt (by omega)]
  simp [hw]

/-- C5: `readRect` stores the four big-endian words of the next eight bytes in
`top`, `left`, `bottom`, `right`, in that order (each field holds the word as a
16-bit pattern), and moves the cursor by exactly those eight bytes; the size
`setBmpInfo` declares for a rectangle is `(right - left, bottom - top)`; so the
words 1, 2, 3, 4 give width 2 and height 2. -/
theorem readRect_top_left_bottom_right (c r : List PLBYTE)
    (t0 t1 l0 l1 b0 b1 r0 r1 : PLBYTE) (PixMap : MacpixMap) (s : PLPictDecoder) :
    readRect ⟨c, t0 :: t1 :: l0 :: l1 :: b0 :: b1 :: r0 :: r1 :: r⟩ =
      .ok ⟨toInt16 (t0.val * 256 + t1.val), toInt16 (l0.val * 256 + l1.val),
           toInt16 (b0.val * 256 + b1.val), toInt16 (r0.val * 256 + r1.val)⟩
        ⟨r1 :: r0 :: b1 :: b0 :: l1 :: l0 :: t1 :: t0 :: c, r⟩ ∧
    toInt16 (t0.val * 256 + t1.val) % 65536 = ((t0.val * 256 + t1.val : Nat) : Int) ∧
    toInt16 (l0.val * 256 + l1.val) % 65536 = ((l0.val * 256 + l1.val : Nat) : Int) ∧
    toInt16 (b0.val * 256 + b1.val) % 65536 = ((b0.val * 256 + b1.val : Nat) : Int) ∧
    toInt16 (r0.val * 256 + r1.val) % 65536 = ((r0.val * 256 + r1.val : Nat) : Int) ∧
    (setBmpInfo PixMap s).state.bmpInfo.size =
      ⟨PixMap.Bounds.right - PixMap.Bounds.left, PixMap.Bounds.bottom - PixMap.Bounds.top⟩ ∧
    readRect ⟨c, 0 :: 1 :: 0 :: 2 :: 0 :: 3 :: 0 :: 4 :: r⟩ =
      .ok ⟨1, 2, 3, 4⟩ ⟨4 :: 0 :: 3 :: 0 :: 2 :: 0 :: 1 :: 0 :: c, r⟩ ∧
    (setBmpInfo { PixMap with Bounds := ⟨1, 2, 3, 4⟩ } s).state.bmpInfo.size = ⟨2, 2⟩ := by
  have hb : ∀ x y : PLBYTE, x.val * 256 + y.val < 65536 := fun x y => by
    have := x.isLt
    have := y.isLt
    omega
  exact ⟨rfl, toInt16_mod _ (hb _ _), toInt16_mod _ (hb _ _), toInt16_mod _ (hb _ _),
    toInt16_mod _ (hb _ _), rfl, rfl, rfl⟩

/-- C8: `setBmpInfo` picks the pixel format from the pixmap header alone:
more than 8 bits per pixel with 4 components gives 32-bit with alpha, with 3
components (or any count other than 4) 32-bit opaque, at most 8 bits per pixel
gives 8-bit indexed; the declared size is `(right - left, bottom - top)` of the
header bounds, and nothing else in the session changes. -/
theorem setBmpInfo_selects_format_from_header (PixMap : MacpixMap) (s : PLPictDecoder) :
    (∃ pf, setBmpInfo PixMap s = .ok () { s with bmpInfo :=
        ⟨⟨PixMap.Bounds.right - PixMap.Bounds.left, PixMap.Bounds.bottom - PixMap.Bounds.top⟩,
         ⟨PixMap.hRes, PixMap.vRes⟩, pf⟩ } ∧
      (8 < PixMap.pixelSize → PixMap.cmpCount = 4 → pf = .A8R8G8B8) ∧
      (8 < PixMap.pixelSize → PixMap.cmpCount = 3 → pf = .X8R8G8B8) ∧
      (8 < PixMap.pixelSize → PixMap.cmpCount ≠ 4 → pf = .X8R8G8B8) ∧
      (PixMap.pixelSize ≤ 8 → pf = .I8)) := by
  refine ⟨if PixMap.pixelSize > 8 then
      (if PixMap.cmpCount = 4 then PLPixelFormat.A8R8G8B8 else PLPixelFormat.X8R8G8B8)
    else PLPixelFormat.I8, rfl, ?_, ?_, ?_, ?_⟩
  · intro h1 h2
    simp [h1, h2]
  · intro h1 h2
    simp [h1, h2]
  · intro h1 h2
    simp [h1, h2]
  · intro h1
    have : ¬ PixMap.pixelSize > 8 := by omega
    simp [this]

theorem setBmpInfo_selects_format_from_header_witness :
    ∃ pf, setBmpInfo { demoEnv.stackPixMap with
          Bounds := ⟨0, 0, 4, 6⟩, pixelSize := 32, cmpCount := 4 } (newSession []) =
        .ok () { newSession [] with bmpInfo := ⟨⟨6, 4⟩, ⟨0, 0⟩, pf⟩ } ∧
      pf = .A8R8G8B8 :=
  (setBmpInfo_selects_format_from_header { demoEnv.stackPixMap with
      Bounds := ⟨0, 0, 4, 6⟩, pixelSize := 32, cmpCount := 4 } (newSession [])).elim
    (fun pf h => ⟨pf, h.1, h.2.1 (by decide) rfl⟩)


/-! ### Colour table -/

theorem and_0x8000_ne_zero_iff (w : Nat) : w &&& 0x8000 ≠ 0 ↔ w / 32768 % 2 = 1 := by
  have h := Nat.and_two_pow w 15
  have e : (2 : Nat) ^ 15 = 0x8000 := by norm_num
  rw [e] at h
  rw [h, Nat.testBit_to_div_mod]
  have e2 : (2 : Nat) ^ 15 = 32768 := by norm_num
  rw [e2]
  by_cases hb : w / 32768 % 2 = 1 <;> simp [hb]

theorem shiftRight8_and_0xFF (x : Nat) (hx : x < 65536) : (x >>> 8) &&& 0xFF = x / 256 := by
  rw [Nat.shiftRight_eq_div_pow]
  have h : x / 2 ^ 8 < 2 ^ 8 := by
    rw [Nat.div_lt_iff_lt_mul (by norm_num)]
    norm_num
    omega
  have := Nat.and_pow_two_sub_one_of_lt_two_pow h
  norm_num at this ⊢
  exact this

theorem readColourTableLoop_entry (ctFlags NumColors n i val : Nat) (pal : Palette)
    (c t : List PLBYTE) (i0 i1 r0 r1 g0 g1 b0 b1 : PLBYTE)
    (hval : val = if ctFlags &&& 0x8000 ≠ 0 then i % 65536 else i0.val * 256 + i1.val) :
    readColourTableLoop ctFlags NumColors (n + 1) i
        (pal, ⟨c, i0 :: i1 :: r0 :: r1 :: g0 :: g1 :: b0 :: b1 :: t⟩) =
      if val ≥ NumColors then
        .raise .PL_ERRFORMAT_UNKNOWN (pal, ⟨i1 :: i0 :: c, r0 :: r1 :: g0 :: g1 :: b0 :: b1 :: t⟩)
      else
        readColourTableLoop ctFlags NumColors n (i + 1)
          (((pal.SetR val (((r0.val * 256 + r1.val) >>> 8) &&& 0xFF)).SetG val
              (((g0.val * 256 + g1.val) >>> 8) &&& 0xFF)).SetB val
              (((b0.val * 256 + b1.val) >>> 8) &&& 0xFF),
            ⟨b1 :: b0 :: g1 :: g0 :: r1 :: r0 :: i1 :: i0 :: c, t⟩) := by
  simp only [readColourTableLoop, bind_apply, onSrc, zoom, ReadMWord, modifyState]
  rw [← hval]
  by_cases hv : val ≥ NumColors
  · rw [if_pos hv, if_pos hv]; rfl
  · rw [if_neg hv, if_neg hv]; rfl

theorem list_eight_or_short {α : Type} (l : List α) :
    l.length < 8 ∨ ∃ a0 a1 a2 a3 a4 a5 a6 a7 t, l = a0 :: a1 :: a2 :: a3 :: a4 :: a5 :: a6 :: a7 :: t := by
  match l with
  | [] | [_] | [_, _] | [_, _, _] | [_, _, _, _] | [_, _, _, _, _] | [_, _, _, _, _, _]
  | [_, _, _, _, _, _, _] => left; simp
  | a0 :: a1 :: a2 :: a3 :: a4 :: a5 :: a6 :: a7 :: t =>
    exact Or.inr ⟨a0, a1, a2, a3, a4, a5, a6, a7, t, rfl⟩

theorem readColourTableLoop_short (ctFlags NumColors n i : Nat) (pal : Palette)
    (c rest : List PLBYTE) (hlen : rest.length < 8) :
    (readColourTableLoop ctFlags NumColors (n + 1) i (pal, ⟨c, rest⟩)).error =
      some (match rest with
        | i0 :: i1 :: _ =>
          if (if ctFlags &&& 0x8000 ≠ 0 then i % 65536 else i0.val * 256 + i1.val) ≥ NumColors
          then PLError.PL_ERRFORMAT_UNKNOWN else PLError.PL_ERREND_OF_FILE
        | _ => PLError.PL_ERREND_OF_FILE) := by
  match rest, hlen with
  | [], _ => rfl
  | [_], _ => rfl
  | [i0, i1], _ | [i0, i1, _], _ | [i0, i1, _, _], _ | [i0, i1, _, _, _], _
  | [i0, i1, _, _, _, _], _ | [i0, i1, _, _, _, _, _], _ =>
    simp only [readColourTableLoop, bind_apply, onSrc, zoom, ReadMWord, modifyState]
    split_ifs <;> rfl
  | _ :: _ :: _ :: _ :: _ :: _ :: _ :: _ :: _, h => simp at h; omega

theorem palette_set_rgb (pal : Palette) (v x y z : Nat) :
    ((pal.SetR v x).SetG v y).SetB v z =
      fun k => if k = v then ⟨x, y, z, (pal k).a⟩ else pal k := by
  funext k
  by_cases hk : k = v <;> simp [Palette.SetR, Palette.SetG, Palette.SetB, hk]

theorem word_lt (x y : PLBYTE) : x.val * 256 + y.val < 65536 := by
  have := x.isLt
  have := y.isLt
  omega

theorem ctEntries_zero (rest : List PLBYTE) : ctEntries 0 rest = [] := by
  unfold ctEntries
  rfl

theorem ctEntries_cons (n : Nat) (i0 i1 r0 r1 g0 g1 b0 b1 : PLBYTE) (t : List PLBYTE) :
    ctEntries (n + 1) (i0 :: i1 :: r0 :: r1 :: g0 :: g1 :: b0 :: b1 :: t) =
      ⟨i0.val * 256 + i1.val, r0.val * 256 + r1.val, g0.val * 256 + g1.val,
        b0.val * 256 + b1.val⟩ :: ctEntries n t := by
  rw [ctEntries]

/-- What the loop of `readColourTable` has done when it returns. -/
theorem readColourTableLoop_ok (ctFlags NumColors : Nat) :
    ∀ (n i : Nat) (pal : Palette) (c rest : List PLBYTE) (u : Unit)
      (st1 : Palette × PLDataSource),
      i + n ≤ 65536 →
      readColourTableLoop ctFlags NumColors n i (pal, ⟨c, rest⟩) = .ok u st1 →
      (ctEntries n rest).length = n ∧
      st1.1 = specPalette (decide (ctFlags &&& 0x8000 ≠ 0)) i (ctEntries n rest) pal ∧
      (¬ ctFlags &&& 0x8000 ≠ 0 → ∀ e ∈ ctEntries n rest, e.index < NumColors) ∧
      st1.2.rest = rest.drop (8 * n) := by
  intro n
  induction n with
  | zero =>
    intro i pal c rest u st1 _ h
    simp only [readColourTableLoop, pure_apply, Res.ok.injEq] at h
    obtain ⟨_, rfl⟩ := h
    simp [ctEntries_zero, specPalette]
  | succ n ih =>
    intro i pal c rest u st1 hi h
    rcases list_eight_or_short rest with hs | ⟨i0, i1, r0, r1, g0, g1, b0, b1, t, rfl⟩
    · have := readColourTableLoop_short ctFlags NumColors n i pal c rest hs
      rw [h] at this
      simp [Res.error] at this
    · by_cases hdev : ctFlags &&& 0x8000 ≠ 0
      · rw [readColourTableLoop_entry ctFlags NumColors n i (i % 65536) pal c t i0 i1 r0 r1 g0 g1
          b0 b1 (by rw [if_pos hdev])] at h
        by_cases hge : i % 65536 ≥ NumColors
        · rw [if_pos hge] at h; cases h
        rw [if_neg hge] at h
        obtain ⟨h1, h2, _, h4⟩ := ih (i + 1) _ _ t u st1 (by omega) h
        refine ⟨by rw [ctEntries_cons]; simp [h1], ?_, fun hnd => absurd hdev hnd, ?_⟩
        · rw [h2, ctEntries_cons, specPalette, palette_set_rgb]
          have hd : decide (ctFlags &&& 0x8000 ≠ 0) = true := decide_eq_true hdev
          simp only [hd, if_true]
          rw [shiftRight8_and_0xFF _ (word_lt _ _), shiftRight8_and_0xFF _ (word_lt _ _),
            shiftRight8_and_0xFF _ (word_lt _ _), Nat.mod_eq_of_lt (by omega)]
        · rw [h4]
          simp [Nat.mul_succ]
      · rw [readColourTableLoop_entry ctFlags NumColors n i (i0.val * 256 + i1.val) pal c t
          i0 i1 r0 r1 g0 g1 b0 b1 (by rw [if_neg hdev])] at h
        by_cases hge : i0.val * 256 + i1.val ≥ NumColors
        · rw [if_pos hge] at h; cases h
        rw [if_neg hge] at h
        obtain ⟨h1, h2, h3, h4⟩ := ih (i + 1) _ _ t u st1 (by omega) h
        refine ⟨by rw [ctEntries_cons]; simp [h1], ?_, ?_, ?_⟩
        · rw [h2, ctEntries_cons, specPalette, palette_set_rgb]
          have hd : decide (ctFlags &&& 0x8000 ≠ 0) = false := decide_eq_false hdev
          simp only [hd, Bool.false_eq_true, if_false]
          rw [shiftRight8_and_0xFF _ (word_lt _ _), shiftRight8_and_0xFF _ (word_lt _ _),
            shiftRight8_and_0xFF _ (word_lt _ _)]
        · intro hnd e he
          rw [ctEntries_cons] at he
          rcases List.mem_cons.1 he with rfl | he
          · simpa using hge
          · exact h3 hnd e he
        · rw [h4]
          simp [Nat.mul_succ]

theorem specPalette_device_below (es : List CTEntry) :
    ∀ (i : Nat) (pal : Palette) (k : Nat), k < i → specPalette true i es pal k = pal k := by
  induction es with
  | nil => intro i pal k _; rfl
  | cons e es ih =>
    intro i pal k hk
    rw [specPalette, ih (i + 1) _ k (by omega)]
    simp only [if_true]
    rw [if_neg (by omega)]

theorem specPalette_device_above (es : List CTEntry) :
    ∀ (i : Nat) (pal : Palette) (k : Nat), i + es.length ≤ k →
      specPalette true i es pal k = pal k := by
  induction es with
  | nil => intro i pal k _; rfl
  | cons e es ih =>
    intro i pal k hk
    simp only [List.length_cons] at hk
    rw [specPalette, ih (i + 1) _ k (by omega)]
    simp only [if_true]
    rw [if_neg (by omega)]

theorem specPalette_alpha (device : Bool) (es : List CTEntry) :
    ∀ (i : Nat) (pal : Palette) (k : Nat), (specPalette device i es pal k).a = (pal k).a := by
  induction es with
  | nil => intro i pal k; rfl
  | cons e es ih =>
    intro i pal k
    rw [specPalette, ih, apply_ite PLPixel32.a]
    exact ite_self _

theorem specPalette_device_slot (es : List CTEntry) :
    ∀ (i : Nat) (pal : Palette) (j : Nat) (e : CTEntry), es[j]? = some e →
      specPalette true i es pal (i + j) =
        ⟨e.red / 256, e.green / 256, e.blue / 256, (pal (i + j)).a⟩ := by
  induction es with
  | nil => intro i pal j e h; simp at h
  | cons e0 es ih =>
    intro i pal j e h
    cases j with
    | zero =>
      simp only [List.getElem?_cons_zero, Option.some.injEq] at h
      subst h
      rw [specPalette, specPalette_device_below es (i + 1) _ (i + 0) (by omega)]
      simp
    | succ j =>
      simp only [List.getElem?_cons_succ] at h
      rw [specPalette]
      have := ih (i + 1) (fun k => if k = (if true = true then i else e0.index)
        then ⟨e0.red / 256, e0.green / 256, e0.blue / 256, (pal k).a⟩ else pal k) j e h
      rw [show i + (j + 1) = i + 1 + j by omega, this]
      simp only [if_true]
      rw [if_neg (by omega)]

theorem specPalette_indexed_none (es : List CTEntry) :
    ∀ (i : Nat) (pal : Palette) (k : Nat), (∀ e ∈ es, e.index ≠ k) →
      specPalette false i es pal k = pal k := by
  induction es with
  | nil => intro i pal k _; rfl
  | cons e es ih =>
    intro i pal k hk
    rw [specPalette, ih (i + 1) _ k (fun e' he' => hk e' (List.mem_cons_of_mem _ he'))]
    simp only [Bool.false_eq_true, if_false]
    rw [if_neg (fun hh => hk e (List.mem_cons_self _ _) hh.symm)]

theorem specPalette_indexed_last (es : List CTEntry) :
    ∀ (i : Nat) (pal : Palette) (j : Nat) (e : CTEntry), es[j]? = some e →
      (∀ j1 e1, j < j1 → es[j1]? = some e1 → e1.index ≠ e.index) →
      specPalette false i es pal e.index =
        ⟨e.red / 256, e.green / 256, e.blue / 256, (pal e.index).a⟩ := by
  induction es with
  | nil => intro i pal j e h; simp at h
  | cons e0 es ih =>
    intro i pal j e h hlast
    cases j with
    | zero =>
      simp only [List.getElem?_cons_zero, Option.some.injEq] at h
      subst h
      rw [specPalette, specPalette_indexed_none es (i + 1) _ e0.index]
      · simp
      · intro e1 he1
        obtain ⟨j1, hj1, hget⟩ := List.getElem_of_mem he1
        exact hlast (j1 + 1) e1 (by omega) (by simp [List.getElem?_eq_getElem hj1, hget])
    | succ j =>
      simp only [List.getElem?_cons_succ] at h
      rw [specPalette]
      rw [ih (i + 1) _ j e h (fun j1 e1 hj he => hlast (j1 + 1) e1 (by omega) (by simpa using he))]
      simp only [Bool.false_eq_true, if_false]
      split <;> rfl

/-- C6: for every colour table `readColourTable` accepts (`N` entries after
the 8-byte header): with the top bit of the flags word clear, every entry is
stored at the palette slot of its index word, the last entry with a given
index winning, and slots no entry names stay as they were; with the top bit
set, entry `i` is stored at slot `i` whatever its index word says, and slots
from `N` on stay as they were; in both cases the stored R, G, B are the high
bytes of the three 16-bit channels (alpha is not touched). -/
theorem readColourTable_palette_slots (pal : Palette) (c body : List PLBYTE)
    (s0 s1 s2 s3 f0 f1 n0 n1 : PLBYTE) (N : Nat) (st1 : Palette × PLDataSource)
    (h : readColourTable (pal, ⟨c, s0 :: s1 :: s2 :: s3 :: f0 :: f1 :: n0 :: n1 :: body⟩)
      = .ok N st1) :
    N = (n0.val * 256 + n1.val + 1) % 65536 ∧ (ctEntries N body).length = N ∧
    (f0.val * 256 + f1.val < 0x8000 →
      (∀ (j : Nat) (e : CTEntry), (ctEntries N body)[j]? = some e →
        (∀ (j1 : Nat) (e1 : CTEntry), j < j1 → (ctEntries N body)[j1]? = some e1 →
          e1.index ≠ e.index) →
        st1.1 e.index = ⟨e.red / 256, e.green / 256, e.blue / 256, (pal e.index).a⟩) ∧
      (∀ k, (∀ e ∈ ctEntries N body, e.index ≠ k) → st1.1 k = pal k)) ∧
    (0x8000 ≤ f0.val * 256 + f1.val →
      (∀ (i : Nat) (e : CTEntry), (ctEntries N body)[i]? = some e →
        st1.1 i = ⟨e.red / 256, e.green / 256, e.blue / 256, (pal i).a⟩) ∧
      (∀ k, N ≤ k → st1.1 k = pal k)) := by
  simp only [readColourTable, bind_apply, onSrc, zoom, ReadMLong, ReadMWord, pure_apply] at h
  cases hl : readColourTableLoop (f0.val * 256 + f1.val) ((n0.val * 256 + n1.val + 1) % 65536)
      ((n0.val * 256 + n1.val + 1) % 65536) 0
      (pal, ⟨n1 :: n0 :: f1 :: f0 :: s3 :: s2 :: s1 :: s0 :: c, body⟩) with
  | raise e s => rw [hl] at h; cases h
  | ok u s =>
    rw [hl] at h
    simp only [Res.ok.injEq] at h
    obtain ⟨hN, hs⟩ := h
    subst hN hs
    have hmod : (n0.val * 256 + n1.val + 1) % 65536 < 65536 := Nat.mod_lt _ (by norm_num)
    obtain ⟨h1, h2, _, _⟩ := readColourTableLoop_ok _ _ _ 0 pal _ body u s (by omega) hl
    have hw := word_lt f0 f1
    have htop := and_0x8000_ne_zero_iff (f0.val * 256 + f1.val)
    refine ⟨rfl, h1, fun hclear => ?_, fun hset => ?_⟩
    · have hd : decide (f0.val * 256 + f1.val &&& 0x8000 ≠ 0) = false := by
        apply decide_eq_false
        rw [htop]
        omega
      rw [hd] at h2
      refine ⟨fun j e hj hlast => ?_, fun k hk => ?_⟩
      · rw [h2]
        exact specPalette_indexed_last _ 0 pal j e hj hlast
      · rw [h2]
        exact specPalette_indexed_none _ 0 pal k hk
    · have hd : decide (f0.val * 256 + f1.val &&& 0x8000 ≠ 0) = true := by
        apply decide_eq_true
        rw [htop]
        omega
      rw [hd] at h2
      refine ⟨fun i e hi => ?_, fun k hk => ?_⟩
      · rw [h2]
        have := specPalette_device_slot _ 0 pal i e hi
        simpa using this
      · rw [h2]
        exact specPalette_device_above _ 0 pal k (by omega)

theorem readColourTable_palette_slots_witness :
    readColourTable (demoEnv.stackPal,
        ⟨[], 0 :: 0 :: 0 :: 0 :: 0x80 :: 0x00 :: 0 :: 1 :: demoTableBody⟩) =
      .ok 2 (readColourTable (demoEnv.stackPal,
        ⟨[], 0 :: 0 :: 0 :: 0 :: 0x80 :: 0x00 :: 0 :: 1 :: demoTableBody⟩)).state ∧
    (readColourTable (demoEnv.stackPal,
        ⟨[], 0 :: 0 :: 0 :: 0 :: 0x80 :: 0x00 :: 0 :: 1 :: demoTableBody⟩)).state.1 1 =
      ⟨0x12, 0x56, 0x9a, 0⟩ ∧
    (readColourTable (demoEnv.stackPal,
        ⟨[], 0 :: 0 :: 0 :: 0 :: 0x80 :: 0x00 :: 0 :: 1 :: demoTableBody⟩)).state.1 0 =
      ⟨0xFF, 0x80, 0, 0⟩ :=
  ⟨rfl,
   ((readColourTable_palette_slots demoEnv.stackPal [] demoTableBody 0 0 0 0 0x80 0x00 0 1 2
      (readColourTable (demoEnv.stackPal,
        ⟨[], 0 :: 0 :: 0 :: 0 :: 0x80 :: 0x00 :: 0 :: 1 :: demoTableBody⟩)).state rfl).2.2.2
        (by decide)).1 1 ⟨0, 0x1234, 0x5678, 0x9abc⟩ (by decide),
   by decide⟩

theorem readColourTableLoop_reject (ctFlags NumColors n i val : Nat) (pal : Palette)
    (c t : List PLBYTE) (i0 i1 : PLBYTE)
    (hval : val = if ctFlags &&& 0x8000 ≠ 0 then i % 65536 else i0.val * 256 + i1.val)
    (hge : val ≥ NumColors) :
    readColourTableLoop ctFlags NumColors (n + 1) i (pal, ⟨c, i0 :: i1 :: t⟩) =
      .raise .PL_ERRFORMAT_UNKNOWN (pal, ⟨i1 :: i0 :: c, t⟩) := by
  simp only [readColourTableLoop, bind_apply, onSrc, zoom, ReadMWord, modifyState]
  rw [← hval, if_pos hge]
  rfl

theorem ctIndexWord_zero (i0 i1 : PLBYTE) (t : List PLBYTE) :
    ctIndexWord (i0 :: i1 :: t) 0 = some (i0.val * 256 + i1.val) := rfl

theorem ctIndexWord_succ (a0 a1 a2 a3 a4 a5 a6 a7 : PLBYTE) (t : List PLBYTE) (k : Nat) :
    ctIndexWord (a0 :: a1 :: a2 :: a3 :: a4 :: a5 :: a6 :: a7 :: t) (k + 1) =
      ctIndexWord t k := by
  unfold ctIndexWord
  rw [show 8 * (k + 1) = 8 * k + 8 by omega]
  rfl

theorem ctIndexWord_length (body : List PLBYTE) (k idx : Nat)
    (h : ctIndexWord body k = some idx) : 8 * k + 2 ≤ body.length := by
  unfold ctIndexWord at h
  have hl := List.length_drop (8 * k) body
  revert h hl
  cases List.drop (8 * k) body with
  | nil => intro h; cases h
  | cons a l =>
    cases l with
    | nil => intro h; cases h
    | cons b l =>
      intro _ hl
      simp only [List.length_cons] at hl
      omega

/-- With the device flag set the loop of `readColourTable` never raises
`PL_ERRFORMAT_UNKNOWN`. -/
theorem readColourTableLoop_device (ctFlags NumColors : Nat) (hdev : ctFlags &&& 0x8000 ≠ 0)
    (hN : NumColors ≤ 65536) :
    ∀ (n i : Nat) (pal : Palette) (c rest : List PLBYTE), i + n ≤ NumColors →
      (readColourTableLoop ctFlags NumColors n i (pal, ⟨c, rest⟩)).error ≠
        some .PL_ERRFORMAT_UNKNOWN := by
  intro n
  induction n with
  | zero => intro i pal c rest _; simp [readColourTableLoop, Res.error]
  | succ n ih =>
    intro i pal c rest hi
    have hmod : i % 65536 = i := Nat.mod_eq_of_lt (by omega)
    rcases list_eight_or_short rest with hs | ⟨i0, i1, r0, r1, g0, g1, b0, b1, t, rfl⟩
    · rw [readColourTableLoop_short ctFlags NumColors n i pal c rest hs]
      match rest with
      | [] | [_] => simp
      | i0 :: i1 :: t =>
        simp only [if_pos hdev, hmod]
        rw [if_neg (by omega)]
        simp
    · rw [readColourTableLoop_entry ctFlags NumColors n i (i % 65536) pal c t i0 i1 r0 r1 g0 g1
        b0 b1 (by rw [if_pos hdev]), hmod, if_neg (by omega)]
      exact ih (i + 1) _ _ t (by omega)

/-- With the device flag clear, the loop of `readColourTable` raises
`PL_ERRFORMAT_UNKNOWN` as soon as it has read an index word that is not below
`NumColors`. -/
theorem readColourTableLoop_indexed_raises (ctFlags NumColors : Nat)
    (hdev : ¬ ctFlags &&& 0x8000 ≠ 0) :
    ∀ (n i : Nat) (pal : Palette) (c rest : List PLBYTE),
      (∃ k, k < n ∧ ∃ idx, ctIndexWord rest k = some idx ∧ NumColors ≤ idx) →
      (readColourTableLoop ctFlags NumColors n i (pal, ⟨c, rest⟩)).error =
        some .PL_ERRFORMAT_UNKNOWN := by
  intro n
  induction n with
  | zero => intro i pal c rest ⟨k, hk, _⟩; omega
  | succ n ih =>
    intro i pal c rest ⟨k, hk, idx, hidx, hge⟩
    rcases list_eight_or_short rest with hs | ⟨i0, i1, r0, r1, g0, g1, b0, b1, t, rfl⟩
    · have hl := ctIndexWord_length rest k idx hidx
      have hk0 : k = 0 := by omega
      subst hk0
      match rest, hl with
      | i0 :: i1 :: t, _ =>
        rw [ctIndexWord_zero] at hidx
        simp only [Option.some.injEq] at hidx
        rw [readColourTableLoop_reject ctFlags NumColors n i idx pal c t i0 i1
          (by rw [if_neg hdev, hidx]) hge]
        rfl
    · by_cases hge0 : i0.val * 256 + i1.val ≥ NumColors
      · rw [readColourTableLoop_reject ctFlags NumColors n i _ pal c _ i0 i1
          (by rw [if_neg hdev]) hge0]
        rfl
      · rw [readColourTableLoop_entry ctFlags NumColors n i (i0.val * 256 + i1.val) pal c t
          i0 i1 r0 r1 g0 g1 b0 b1 (by rw [if_neg hdev]), if_neg hge0]
        cases k with
        | zero =>
          rw [ctIndexWord_zero] at hidx
          simp only [Option.some.injEq] at hidx
          omega
        | succ k =>
          rw [ctIndexWord_succ] at hidx
          exact ih (i + 1) _ _ t ⟨k, by omega, idx, hidx, hge⟩

/-- What the loop of `readColourTable` has done when it raises
`PL_ERRFORMAT_UNKNOWN` on an indexed table: the entries before the offending
one are in the palette. -/
theorem readColourTableLoop_indexed_state (ctFlags NumColors : Nat)
    (hdev : ¬ ctFlags &&& 0x8000 ≠ 0) :
    ∀ (n i : Nat) (pal : Palette) (c rest : List PLBYTE) (st1 : Palette × PLDataSource),
      readColourTableLoop ctFlags NumColors n i (pal, ⟨c, rest⟩) =
        .raise .PL_ERRFORMAT_UNKNOWN st1 →
      ∃ k, k < n ∧ (ctEntries k rest).length = k ∧
        (∀ e ∈ ctEntries k rest, e.index < NumColors) ∧
        (∃ idx, ctIndexWord rest k = some idx ∧ NumColors ≤ idx) ∧
        st1.1 = specPalette false i (ctEntries k rest) pal := by
  intro n
  induction n with
  | zero => intro i pal c rest st1 h; cases h
  | succ n ih =>
    intro i pal c rest st1 h
    rcases list_eight_or_short rest with hs | ⟨i0, i1, r0, r1, g0, g1, b0, b1, t, rfl⟩
    · have he := readColourTableLoop_short ctFlags NumColors n i pal c rest hs
      rw [h] at he
      match rest with
      | [] | [_] => simp [Res.error] at he
      | i0 :: i1 :: t =>
        simp only [Res.error, if_neg hdev, Option.some.injEq] at he
        by_cases hge : i0.val * 256 + i1.val ≥ NumColors
        · rw [readColourTableLoop_reject ctFlags NumColors n i _ pal c t i0 i1
            (by rw [if_neg hdev]) hge] at h
          simp only [Res.raise.injEq, true_and] at h
          subst h
          exact ⟨0, by omega, by simp [ctEntries_zero], by simp [ctEntries_zero],
            ⟨_, ctIndexWord_zero i0 i1 t, hge⟩, by simp [ctEntries_zero, specPalette]⟩
        · rw [if_neg hge] at he
          cases he
    · by_cases hge : i0.val * 256 + i1.val ≥ NumColors
      · rw [readColourTableLoop_reject ctFlags NumColors n i _ pal c _ i0 i1
          (by rw [if_neg hdev]) hge] at h
        simp only [Res.raise.injEq, true_and] at h
        subst h
        exact ⟨0, by omega, by simp [ctEntries_zero], by simp [ctEntries_zero],
          ⟨_, ctIndexWord_zero i0 i1 _, hge⟩, by simp [ctEntries_zero, specPalette]⟩
      · rw [readColourTableLoop_entry ctFlags NumColors n i (i0.val * 256 + i1.val) pal c t
          i0 i1 r0 r1 g0 g1 b0 b1 (by rw [if_neg hdev]), if_neg hge] at h
        obtain ⟨k, hk, h1, h2, ⟨idx, h3, h4⟩, h5⟩ := ih (i + 1) _ _ t st1 h
        refine ⟨k + 1, by omega, by rw [ctEntries_cons]; simp [h1], ?_,
          ⟨idx, by rw [ctIndexWord_succ]; exact h3, h4⟩, ?_⟩
        · intro e he
          rw [ctEntries_cons] at he
          rcases List.mem_cons.1 he with rfl | he
          · simpa using hge
          · exact h2 e he
        · rw [h5, ctEntries_cons, specPalette, palette_set_rgb]
          simp only [Bool.false_eq_true, if_false]
          rw [shiftRight8_and_0xFF _ (word_lt _ _), shiftRight8_and_0xFF _ (word_lt _ _),
            shiftRight8_and_0xFF _ (word_lt _ _)]

theorem readColourTable_eq_loop (pal : Palette) (c body : List PLBYTE)
    (s0 s1 s2 s3 f0 f1 n0 n1 : PLBYTE) :
    readColourTable (pal, ⟨c, s0 :: s1 :: s2 :: s3 :: f0 :: f1 :: n0 :: n1 :: body⟩) =
      match readColourTableLoop (f0.val * 256 + f1.val) ((n0.val * 256 + n1.val + 1) % 65536)
          ((n0.val * 256 + n1.val + 1) % 65536) 0
          (pal, ⟨n1 :: n0 :: f1 :: f0 :: s3 :: s2 :: s1 :: s0 :: c, body⟩) with
      | .ok _ s => .ok ((n0.val * 256 + n1.val + 1) % 65536) s
      | .raise e s => .raise e s := by
  simp only [readColourTable, bind_apply, onSrc, zoom, ReadMLong, ReadMWord, pure_apply]
  generalize readColourTableLoop _ _ _ _ _ = X
  cases X <;> rfl

/-- C7: on a colour table with header bytes `s0 .. n1` (flags word
`f0 f1`, count word `n0 n1`, so `N = (count + 1) mod 65536` entries),
`readColourTable` raises `PL_ERRFORMAT_UNKNOWN` if and only if the top bit of
the flags word is clear and some entry `k < N` has a stored index word that is
at least `N`; with the top bit set it never raises it; and when it raises it,
the palette holds the entries that precede the offending one. -/
theorem readColourTable_FormatUnknown_iff (pal : Palette) (c body : List PLBYTE)
    (s0 s1 s2 s3 f0 f1 n0 n1 : PLBYTE) :
    ((readColourTable (pal, ⟨c, s0 :: s1 :: s2 :: s3 :: f0 :: f1 :: n0 :: n1 :: body⟩)).error
        = some .PL_ERRFORMAT_UNKNOWN ↔
      f0.val * 256 + f1.val < 0x8000 ∧
      ∃ k, k < (n0.val * 256 + n1.val + 1) % 65536 ∧
        ∃ idx, ctIndexWord body k = some idx ∧ (n0.val * 256 + n1.val + 1) % 65536 ≤ idx) ∧
    (0x8000 ≤ f0.val * 256 + f1.val →
      (readColourTable (pal, ⟨c, s0 :: s1 :: s2 :: s3 :: f0 :: f1 :: n0 :: n1 :: body⟩)).error
        ≠ some .PL_ERRFORMAT_UNKNOWN) ∧
    (∀ st1, readColourTable (pal, ⟨c, s0 :: s1 :: s2 :: s3 :: f0 :: f1 :: n0 :: n1 :: body⟩)
        = .raise .PL_ERRFORMAT_UNKNOWN st1 →
      ∃ k, k < (n0.val * 256 + n1.val + 1) % 65536 ∧ (ctEntries k body).length = k ∧
        (∀ e ∈ ctEntries k body, e.index < (n0.val * 256 + n1.val + 1) % 65536) ∧
        (∃ idx, ctIndexWord body k = some idx ∧ (n0.val * 256 + n1.val + 1) % 65536 ≤ idx) ∧
        st1.1 = specPalette false 0 (ctEntries k body) pal) := by
  have hw := word_lt f0 f1
  have htop := and_0x8000_ne_zero_iff (f0.val * 256 + f1.val)
  have hmod : (n0.val * 256 + n1.val + 1) % 65536 < 65536 := Nat.mod_lt _ (by norm_num)
  have herr : (readColourTable
        (pal, ⟨c, s0 :: s1 :: s2 :: s3 :: f0 :: f1 :: n0 :: n1 :: body⟩)).error =
      (readColourTableLoop (f0.val * 256 + f1.val) ((n0.val * 256 + n1.val + 1) % 65536)
          ((n0.val * 256 + n1.val + 1) % 65536) 0
          (pal, ⟨n1 :: n0 :: f1 :: f0 :: s3 :: s2 :: s1 :: s0 :: c, body⟩)).error := by
    rw [readColourTable_eq_loop]
    cases readColourTableLoop (f0.val * 256 + f1.val) ((n0.val * 256 + n1.val + 1) % 65536)
          ((n0.val * 256 + n1.val + 1) % 65536) 0
          (pal, ⟨n1 :: n0 :: f1 :: f0 :: s3 :: s2 :: s1 :: s0 :: c, body⟩) <;> rfl
  have hstate : ∀ st1, readColourTable
        (pal, ⟨c, s0 :: s1 :: s2 :: s3 :: f0 :: f1 :: n0 :: n1 :: body⟩) =
        .raise .PL_ERRFORMAT_UNKNOWN st1 →
      readColourTableLoop (f0.val * 256 + f1.val) ((n0.val * 256 + n1.val + 1) % 65536)
          ((n0.val * 256 + n1.val + 1) % 65536) 0
          (pal, ⟨n1 :: n0 :: f1 :: f0 :: s3 :: s2 :: s1 :: s0 :: c, body⟩) =
        .raise .PL_ERRFORMAT_UNKNOWN st1 := by
    intro st1 h
    rw [readColourTable_eq_loop] at h
    cases hl : readColourTableLoop (f0.val * 256 + f1.val)
          ((n0.val * 256 + n1.val + 1) % 65536)
          ((n0.val * 256 + n1.val + 1) % 65536) 0
          (pal, ⟨n1 :: n0 :: f1 :: f0 :: s3 :: s2 :: s1 :: s0 :: c, body⟩) with
    | ok u s => rw [hl] at h; cases h
    | raise e s => rw [hl] at h; simpa using h
  have hset : 0x8000 ≤ f0.val * 256 + f1.val →
      (readColourTable (pal, ⟨c, s0 :: s1 :: s2 :: s3 :: f0 :: f1 :: n0 :: n1 :: body⟩)).error
        ≠ some .PL_ERRFORMAT_UNKNOWN := by
    intro h
    rw [herr]
    exact readColourTableLoop_device _ _ (htop.2 (by omega)) (by omega) _ 0 pal _ body (by omega)
  refine ⟨⟨fun h => ?_, fun ⟨hclear, hex⟩ => ?_⟩, hset, fun st1 h => ?_⟩
  · have hclear : f0.val * 256 + f1.val < 0x8000 := by
      by_contra hn
      exact hset (by omega) h
    have hdev : ¬ (f0.val * 256 + f1.val &&& 0x8000 ≠ 0) := by rw [htop]; omega
    refine ⟨hclear, ?_⟩
    rw [herr] at h
    cases hl : readColourTableLoop (f0.val * 256 + f1.val)
          ((n0.val * 256 + n1.val + 1) % 65536)
          ((n0.val * 256 + n1.val + 1) % 65536) 0
          (pal, ⟨n1 :: n0 :: f1 :: f0 :: s3 :: s2 :: s1 :: s0 :: c, body⟩) with
    | ok u s => rw [hl] at h; cases h
    | raise e s =>
      rw [hl] at h
      simp only [Res.error, Option.some.injEq] at h
      subst h
      obtain ⟨k, hk, _, _, hidx, _⟩ :=
        readColourTableLoop_indexed_state _ _ hdev _ 0 pal _ body s hl
      exact ⟨k, hk, hidx⟩
  · have hdev : ¬ (f0.val * 256 + f1.val &&& 0x8000 ≠ 0) := by rw [htop]; omega
    rw [herr]
    exact readColourTableLoop_indexed_raises _ _ hdev _ 0 pal _ body hex
  · have hclear : f0.val * 256 + f1.val < 0x8000 := by
      by_contra hn
      exact hset (by omega) (by rw [h]; rfl)
    have hdev : ¬ (f0.val * 256 + f1.val &&& 0x8000 ≠ 0) := by rw [htop]; omega
    exact readColourTableLoop_indexed_state _ _ hdev _ 0 pal _ body st1 (hstate st1 h)

theorem readColourTable_FormatUnknown_iff_witness :
    (readColourTable (demoEnv.stackPal,
        ⟨[], 0 :: 0 :: 0 :: 0 :: 0 :: 0 :: 0 :: 1 :: demoBadTableBody⟩)).error =
      some .PL_ERRFORMAT_UNKNOWN ∧
    (readColourTable (demoEnv.stackPal,
        ⟨[], 0 :: 0 :: 0 :: 0 :: 0 :: 0 :: 0 :: 1 :: demoBadTableBody⟩)).state.1 1 =
      ⟨0xFF, 0x80, 0, 0⟩ :=
  ⟨(readColourTable_FormatUnknown_iff demoEnv.stackPal [] demoBadTableBody
      0 0 0 0 0 0 0 1).1.2 ⟨by decide, 1, by decide, 2, by decide, by decide⟩,
   by decide⟩


/-! ### Buffers -/

theorem peekByte_lt (p : List PLBYTE) (k : Nat) : peekByte p k < 256 := by
  unfold peekByte
  cases p.get? k with
  | none => simp
  | some b => exact b.isLt

theorem store_get (d : Buf) (i v k : Nat) :
    d.store i v k = if k = i then v % 256 else d k := rfl

theorem storeList_below (vs : List Nat) :
    ∀ (d : Buf) (i k : Nat), k < i → d.storeList i vs k = d k := by
  induction vs with
  | nil => intro d i k _; rfl
  | cons v vs ih =>
    intro d i k hk
    rw [Buf.storeList, ih _ _ _ (by omega), store_get, if_neg (by omega)]

theorem storeList_above (vs : List Nat) :
    ∀ (d : Buf) (i k : Nat), i + vs.length ≤ k → d.storeList i vs k = d k := by
  induction vs with
  | nil => intro d i k _; rfl
  | cons v vs ih =>
    intro d i k hk
    simp only [List.length_cons] at hk
    rw [Buf.storeList, ih _ _ _ (by omega), store_get, if_neg (by omega)]

theorem storeList_at (vs : List Nat) :
    ∀ (d : Buf) (i t v : Nat), vs[t]? = some v → d.storeList i vs (i + t) = v % 256 := by
  induction vs with
  | nil => intro d i t v h; simp at h
  | cons v0 vs ih =>
    intro d i t v h
    cases t with
    | zero =>
      simp only [List.getElem?_cons_zero, Option.some.injEq] at h
      subst h
      rw [Buf.storeList, storeList_below _ _ _ _ (by omega), store_get, if_pos (by omega)]
    | succ t =>
      simp only [List.getElem?_cons_succ] at h
      rw [Buf.storeList, show i + (t + 1) = i + 1 + t by omega]
      exact ih _ _ _ _ h

theorem expandGen_spec (f : Nat → List Nat) (w : Nat) (pSrcLine : List PLBYTE)
    (hlen : ∀ s, (f s).length = w) (hval : ∀ s, ∀ v ∈ f s, v < 256) :
    ∀ (n q p : Nat) (d : Buf),
      (∀ k, k < p → expandGen f w pSrcLine n q p d k = d k) ∧
      (∀ k, p + w * n ≤ k → expandGen f w pSrcLine n q p d k = d k) ∧
      (∀ u t v, u < n → (f (peekByte pSrcLine (q + u)))[t]? = some v →
        expandGen f w pSrcLine n q p d (p + w * u + t) = v) := by
  intro n
  induction n with
  | zero =>
    intro q p d
    exact ⟨fun _ _ => rfl, fun _ _ => rfl, fun u t v hu => by omega⟩
  | succ n ih =>
    intro q p d
    obtain ⟨h1, h2, h3⟩ := ih (q + 1) (p + w) (d.storeList p (f (peekByte pSrcLine q)))
    refine ⟨fun k hk => ?_, fun k hk => ?_, fun u t v hu hv => ?_⟩
    · rw [expandGen, h1 k (by omega), storeList_below _ _ _ _ hk]
    · rw [expandGen, h2 k (by rw [Nat.mul_succ] at hk; omega),
        storeList_above _ _ _ _ (by rw [hlen]; rw [Nat.mul_succ] at hk; omega)]
    · have ht : t < w := by
        have := List.getElem?_eq_some.1 hv
        obtain ⟨hlt, _⟩ := this
        rw [hlen] at hlt
        exact hlt
      cases u with
      | zero =>
        rw [expandGen, Nat.mul_zero, h1 _ (by omega), Nat.add_zero]
        rw [Nat.add_zero] at hv
        rw [storeList_at _ _ _ _ _ hv]
        exact Nat.mod_eq_of_lt (hval _ v (List.getElem?_mem hv))
      | succ u =>
        rw [expandGen]
        have := h3 u t v (by omega) (by rw [show q + 1 + u = q + (u + 1) by omega]; exact hv)
        rw [show p + w * (u + 1) + t = p + w + w * u + t by rw [Nat.mul_succ]; omega]
        exact this

theorem expandBuf8Loop4_eq (pSrcLine : List PLBYTE) :
    ∀ (n q p : Nat) (d : Buf), expandBuf8Loop4 pSrcLine n q p d =
      expandGen (fun s => [(s >>> 4) &&& 15, s &&& 15]) 2 pSrcLine n q p d := by
  intro n
  induction n with
  | zero => intro q p d; rfl
  | succ n ih => intro q p d; rw [expandBuf8Loop4, expandGen, ih]

theorem expandBuf8Loop2_eq (pSrcLine : List PLBYTE) :
    ∀ (n q p : Nat) (d : Buf), expandBuf8Loop2 pSrcLine n q p d =
      expandGen (fun s => [(s >>> 6) &&& 3, (s >>> 4) &&& 3, (s >>> 2) &&& 3, s &&& 3]) 4
        pSrcLine n q p d := by
  intro n
  induction n with
  | zero => intro q p d; rfl
  | succ n ih => intro q p d; rw [expandBuf8Loop2, expandGen, ih]

theorem expandBuf8Loop1_eq (pSrcLine : List PLBYTE) :
    ∀ (n q p : Nat) (d : Buf), expandBuf8Loop1 pSrcLine n q p d =
      expandGen (fun s => [(s >>> 7) &&& 1, (s >>> 6) &&& 1, (s >>> 5) &&& 1, (s >>> 4) &&& 1,
        (s >>> 3) &&& 1, (s >>> 2) &&& 1, (s >>> 1) &&& 1, s &&& 1]) 8 pSrcLine n q p d := by
  intro n
  induction n with
  | zero => intro q p d; rfl
  | succ n ih => intro q p d; rw [expandBuf8Loop1, expandGen, ih]

theorem and_mask_lt (x m : Nat) (hm : m < 256) : x &&& m < 256 :=
  lt_of_le_of_lt Nat.and_le_right hm

theorem expandBuf8_spec (bpp : Nat) (hb : bpp = 1 ∨ bpp = 2 ∨ bpp = 4 ∨ bpp = 8)
    (d : Buf) (p : Nat) (pSrcLine : List PLBYTE) (q n : Nat) :
    ∃ d1, expandBuf8 d p pSrcLine q (n : Int) bpp = .ok d1 ∧
      (∀ k, k < p → d1 k = d k) ∧
      (∀ u t v, u < n → (expandUnit8 bpp (peekByte pSrcLine (q + u)))[t]? = some v →
        d1 (p + (8 / bpp) * u + t) = v) := by
  rcases hb with rfl | rfl | rfl | rfl
  · -- 1 bpp
    obtain ⟨h1, _, h3⟩ := expandGen_spec
      (fun s => [(s >>> 7) &&& 1, (s >>> 6) &&& 1, (s >>> 5) &&& 1, (s >>> 4) &&& 1,
        (s >>> 3) &&& 1, (s >>> 2) &&& 1, (s >>> 1) &&& 1, s &&& 1]) 8 pSrcLine
      (fun _ => rfl)
      (fun s v hv => by
        simp only [List.mem_cons, List.mem_singleton, List.not_mem_nil, or_false] at hv
        rcases hv with rfl | rfl | rfl | rfl | rfl | rfl | rfl | rfl <;>
          exact and_mask_lt _ _ (by norm_num)) n q p d
    have hgood : ∀ (d2 : Buf), (∀ k, k < p + 8 * n → d2 k = expandBuf8Loop1 pSrcLine n q p d k) →
        (∀ k, k < p → d2 k = d k) ∧
        (∀ u t v, u < n → (expandUnit8 1 (peekByte pSrcLine (q + u)))[t]? = some v →
          d2 (p + (8 / 1) * u + t) = v) := by
      intro d2 h2
      refine ⟨fun k hk => ?_, fun u t v hu hv => ?_⟩
      · rw [h2 k (by omega), expandBuf8Loop1_eq, h1 k hk]
      · have ht : t < 8 := (List.getElem?_eq_some.1 hv).1
        rw [h2 _ (by omega), expandBuf8Loop1_eq]
        exact h3 u t v hu hv
    simp only [expandBuf8, Int.toNat_ofNat, OfNat.ofNat_ne_one, if_false, if_true,
      show (1 : Nat) ≠ 8 by decide, show (1 : Nat) ≠ 4 by decide, show (1 : Nat) ≠ 2 by decide]
    split
    · exact ⟨_, rfl, hgood _ (fun k hk => storeList_below _ _ _ _ hk)⟩
    · exact ⟨_, rfl, hgood _ (fun k _ => rfl)⟩
  · -- 2 bpp
    obtain ⟨h1, _, h3⟩ := expandGen_spec
      (fun s => [(s >>> 6) &&& 3, (s >>> 4) &&& 3, (s >>> 2) &&& 3, s &&& 3]) 4 pSrcLine
      (fun _ => rfl)
      (fun s v hv => by
        simp only [List.mem_cons, List.mem_singleton, List.not_mem_nil, or_false] at hv
        rcases hv with rfl | rfl | rfl | rfl <;> exact and_mask_lt _ _ (by norm_num)) n q p d
    have hgood : ∀ (d2 : Buf), (∀ k, k < p + 4 * n → d2 k = expandBuf8Loop2 pSrcLine n q p d k) →
        (∀ k, k < p → d2 k = d k) ∧
        (∀ u t v, u < n → (expandUnit8 2 (peekByte pSrcLine (q + u)))[t]? = some v →
          d2 (p + (8 / 2) * u + t) = v) := by
      intro d2 h2
      refine ⟨fun k hk => ?_, fun u t v hu hv => ?_⟩
      · rw [h2 k (by omega), expandBuf8Loop2_eq, h1 k hk]
      · have ht : t < 4 := (List.getElem?_eq_some.1 hv).1
        rw [h2 _ (by omega), expandBuf8Loop2_eq]
        exact h3 u t v hu hv
    simp only [expandBuf8, Int.toNat_ofNat, if_false, if_true,
      show (2 : Nat) ≠ 8 by decide, show (2 : Nat) ≠ 4 by decide]
    split
    · exact ⟨_, rfl, hgood _ (fun k hk => storeList_below _ _ _ _ hk)⟩
    · exact ⟨_, rfl, hgood _ (fun k _ => rfl)⟩
  · -- 4 bpp
    obtain ⟨h1, _, h3⟩ := expandGen_spec
      (fun s => [(s >>> 4) &&& 15, s &&& 15]) 2 pSrcLine
      (fun _ => rfl)
      (fun s v hv => by
        simp only [List.mem_cons, List.mem_singleton, List.not_mem_nil, or_false] at hv
        rcases hv with rfl | rfl <;> exact and_mask_lt _ _ (by norm_num)) n q p d
    have hgood : ∀ (d2 : Buf), (∀ k, k < p + 2 * n → d2 k = expandBuf8Loop4 pSrcLine n q p d k) →
        (∀ k, k < p → d2 k = d k) ∧
        (∀ u t v, u < n → (expandUnit8 4 (peekByte pSrcLine (q + u)))[t]? = some v →
          d2 (p + (8 / 4) * u + t) = v) := by
      intro d2 h2
      refine ⟨fun k hk => ?_, fun u t v hu hv => ?_⟩
      · rw [h2 k (by omega), expandBuf8Loop4_eq, h1 k hk]
      · have ht : t < 2 := (List.getElem?_eq_some.1 hv).1
        rw [h2 _ (by omega), expandBuf8Loop4_eq]
        exact h3 u t v hu hv
    simp only [expandBuf8, Int.toNat_ofNat, if_false, if_true,
      show (4 : Nat) ≠ 8 by decide]
    split
    · exact ⟨_, rfl, hgood _ (fun k hk => by rw [store_get, if_neg (by omega)])⟩
    · exact ⟨_, rfl, hgood _ (fun k _ => rfl)⟩
  · -- 8 bpp
    refine ⟨memcpy d p (fileBuf pSrcLine) q ((n : Int).toNat), by simp only [expandBuf8, if_true],
      fun k hk => ?_, fun u t v hu hv => ?_⟩
    · simp only [memcpy]
      rw [if_neg (by omega)]
    · have ht : t < 1 := (List.getElem?_eq_some.1 hv).1
      have ht0 : t = 0 := by omega
      subst ht0
      have hv2 : v = peekByte pSrcLine (q + u) := by
        have hlt := peekByte_lt pSrcLine (q + u)
        have e : expandUnit8 8 (peekByte pSrcLine (q + u)) = [peekByte pSrcLine (q + u) &&& 255] :=
          rfl
        rw [e] at hv
        simp only [List.getElem?_cons_zero, Option.some.injEq] at hv
        rw [← hv]
        have := Nat.and_pow_two_sub_one_of_lt_two_pow (n := 8) (x := peekByte pSrcLine (q + u))
          (by norm_num; exact hlt)
        norm_num at this
        exact this
      subst hv2
      simp only [memcpy, Int.toNat_ofNat, fileBuf]
      rw [if_pos (by omega)]
      congr 1
      omega

theorem shiftRight_and_31 (x k : Nat) : (x >>> k) &&& 31 = x / 2 ^ k % 32 := by
  rw [Nat.shiftRight_eq_div_pow]
  have := Nat.and_pow_two_sub_one_eq_mod (x / 2 ^ k) 5
  norm_num at this
  exact this

theorem and_31 (x : Nat) : x &&& 31 = x % 32 := by
  have := Nat.and_pow_two_sub_one_eq_mod x 5
  norm_num at this
  exact this

theorem word_of_bytes (hi lo : Nat) (hhi : hi < 256) (hlo : lo < 256) :
    (lo + (hi <<< 8)) % 65536 = hi * 256 + lo := by
  rw [Nat.shiftLeft_eq]
  norm_num
  omega

theorem channelsOK_iff (env : Env) (h : env.channelsOK = true) :
    env.PL_RGBA_BLUE < 4 ∧ env.PL_RGBA_GREEN < 4 ∧ env.PL_RGBA_RED < 4 ∧
    env.PL_RGBA_ALPHA < 4 ∧ env.PL_RGBA_BLUE ≠ env.PL_RGBA_GREEN ∧
    env.PL_RGBA_BLUE ≠ env.PL_RGBA_RED ∧ env.PL_RGBA_BLUE ≠ env.PL_RGBA_ALPHA ∧
    env.PL_RGBA_GREEN ≠ env.PL_RGBA_RED ∧ env.PL_RGBA_GREEN ≠ env.PL_RGBA_ALPHA ∧
    env.PL_RGBA_RED ≠ env.PL_RGBA_ALPHA := by
  unfold Env.channelsOK at h
  exact of_decide_eq_true h

theorem expandBufLoop_spec (env : Env) (hch : env.channelsOK = true) (pSrcLine : List PLBYTE) :
    ∀ (n q p : Nat) (d : Buf),
      (∀ k, k < p → expandBufLoop env pSrcLine n q p d k = d k) ∧
      (∀ u t v, u < n →
        (expandUnit16 env (peekByte pSrcLine (q + 2 * u))
          (peekByte pSrcLine (q + 2 * u + 1)))[t]? = some v →
        expandBufLoop env pSrcLine n q p d (p + 4 * u + t) = v) := by
  obtain ⟨hB, hG, hR, hA, hBG, hBR, hBA, hGR, hGA, hRA⟩ := channelsOK_iff env hch
  intro n
  induction n with
  | zero =>
    intro q p d
    exact ⟨fun _ _ => rfl, fun u t v hu => by omega⟩
  | succ n ih =>
    intro q p d
    refine ⟨fun k hk => ?_, fun u t v hu hv => ?_⟩
    · rw [expandBufLoop]
      rw [(ih _ _ _).1 k (by omega)]
      simp only [store_get]
      rw [if_neg (by omega), if_neg (by omega), if_neg (by omega), if_neg (by omega)]
    · have ht : t < 4 := by
        have := (List.getElem?_eq_some.1 hv).1
        simpa [expandUnit16] using this
      cases u with
      | zero =>
        rw [expandBufLoop, Nat.mul_zero, (ih _ _ _).1 _ (by omega)]
        simp only [Nat.mul_zero, Nat.add_zero] at hv ⊢
        have hhi := peekByte_lt pSrcLine q
        have hlo := peekByte_lt pSrcLine (q + 1)
        rw [word_of_bytes _ _ hhi hlo]
        simp only [expandUnit16, List.getElem?_map, List.getElem?_range ht, Option.map_some',
          Option.some.injEq] at hv
        simp only [store_get, and_31, Nat.shiftRight_eq_div_pow]
        have e1 : (2 : Nat) ^ 10 = 1024 := by norm_num
        have e2 : (2 : Nat) ^ 5 = 32 := by norm_num
        rw [e1, e2]
        have m1 : (peekByte pSrcLine q * 256 + peekByte pSrcLine (q + 1)) / 1024 % 32 * 8 % 256 =
            (peekByte pSrcLine q * 256 + peekByte pSrcLine (q + 1)) / 1024 % 32 * 8 := by omega
        have m2 : (peekByte pSrcLine q * 256 + peekByte pSrcLine (q + 1)) / 32 % 32 * 8 % 256 =
            (peekByte pSrcLine q * 256 + peekByte pSrcLine (q + 1)) / 32 % 32 * 8 := by omega
        have m3 : (peekByte pSrcLine q * 256 + peekByte pSrcLine (q + 1)) % 32 * 8 % 256 =
            (peekByte pSrcLine q * 256 + peekByte pSrcLine (q + 1)) % 32 * 8 := by omega
        rw [m1, m2, m3]
        rw [← hv]
        by_cases cA : t = env.PL_RGBA_ALPHA
        · rw [if_pos (by omega), if_pos cA]
        rw [if_neg (by omega), if_neg cA]
        by_cases cR : t = env.PL_RGBA_RED
        · rw [if_pos (by omega), if_pos cR]
        rw [if_neg (by omega), if_neg cR]
        by_cases cG : t = env.PL_RGBA_GREEN
        · rw [if_pos (by omega), if_pos cG]
        rw [if_neg (by omega), if_neg cG]
        rw [if_pos (by omega)]
      | succ u =>
        rw [expandBufLoop, show p + 4 * (u + 1) + t = p + 4 + 4 * u + t by omega]
        have hv2 : (expandUnit16 env (peekByte pSrcLine (q + 2 + 2 * u))
            (peekByte pSrcLine (q + 2 + 2 * u + 1)))[t]? = some v := by
          rw [show q + 2 + 2 * u = q + 2 * (u + 1) by omega]
          exact hv
        exact (ih (q + 2) (p + 4) _).2 u t v (by omega) hv2

theorem repeatUnit_spec (p sz : Nat) (U : List Nat) (hU : U.length = sz) :
    ∀ (n k : Nat) (d : Buf), 1 ≤ k →
      (∀ m t v, m < k → U[t]? = some v → d (p + m * sz + t) = v) →
      (∀ m t v, m < k + n → U[t]? = some v → repeatUnit p sz n k d (p + m * sz + t) = v) ∧
      (∀ j, j < p → repeatUnit p sz n k d j = d j) := by
  intro n
  induction n with
  | zero =>
    intro k d _ h
    exact ⟨fun m t v hm hv => h m t v (by omega) hv, fun _ _ => rfl⟩
  | succ n ih =>
    intro k d hk h
    have hstep : ∀ m t v, m < k + 1 → U[t]? = some v →
        memcpy d (p + k * sz) d p sz (p + m * sz + t) = v := by
      intro m t v hm hv
      have ht : t < sz := by
        rw [← hU]
        exact (List.getElem?_eq_some.1 hv).1
      simp only [memcpy]
      by_cases hmk : m < k
      · have : (m + 1) * sz ≤ k * sz := Nat.mul_le_mul_right sz (by omega)
        rw [Nat.succ_mul] at this
        rw [if_neg (by omega)]
        exact h m t v hmk hv
      · have hmk2 : m = k := by omega
        subst hmk2
        rw [if_pos (by omega)]
        have := h 0 t v (by omega) hv
        rw [Nat.zero_mul, Nat.add_zero] at this
        rw [show p + (p + m * sz + t - (p + m * sz)) = p + t by omega]
        exact this
    obtain ⟨h1, h2⟩ := ih (k + 1) (memcpy d (p + k * sz) d p sz) (by omega) hstep
    refine ⟨fun m t v hm hv => ?_, fun j hj => ?_⟩
    · rw [repeatUnit]
      exact h1 m t v (by omega) hv
    · rw [repeatUnit, h2 j hj]
      simp only [memcpy]
      rw [if_neg (by omega)]

/-! ### Buffers as lists -/

theorem bufSeg_add (d : Buf) (p a b : Nat) :
    bufSeg d p (a + b) = bufSeg d p a ++ bufSeg d (p + a) b := by
  simp only [bufSeg, List.range_add, List.map_append, List.map_map]
  congr 1
  apply List.map_congr_left
  intro k _
  simp [Nat.add_assoc]

theorem bufPrefix_add (d : Buf) (p n : Nat) :
    bufPrefix d (p + n) = bufPrefix d p ++ bufSeg d p n := by
  simp only [bufPrefix, bufSeg, List.range_add, List.map_append, List.map_map]
  rfl

theorem bufPrefix_congr (d1 d : Buf) (p : Nat) (h : ∀ k, k < p → d1 k = d k) :
    bufPrefix d1 p = bufPrefix d p := by
  apply List.map_congr_left
  intro k hk
  exact h k (List.mem_range.1 hk)

theorem bufSeg_eq_of_pointwise (d : Buf) (p : Nat) (U : List Nat)
    (h : ∀ t v, U[t]? = some v → d (p + t) = v) : bufSeg d p U.length = U := by
  apply List.ext_getElem?
  intro t
  by_cases ht : t < U.length
  · have hU : U[t]? = some U[t] := List.getElem?_eq_getElem ht
    rw [hU]
    simp only [bufSeg, List.getElem?_map, List.getElem?_range ht, Option.map_some']
    rw [h t _ hU]
  · have hl : (bufSeg d p U.length).length = U.length := by simp [bufSeg]
    rw [List.getElem?_eq_none (by omega), List.getElem?_eq_none (by omega)]

theorem bufSeg_units (d : Buf) (p w : Nat) (U : Nat → List Nat) :
    ∀ (n : Nat), (∀ u, u < n → (U u).length = w) →
      (∀ u t v, u < n → (U u)[t]? = some v → d (p + w * u + t) = v) →
      bufSeg d p (w * n) = ((List.range n).map U).flatten := by
  intro n
  induction n with
  | zero => intro _ _; rfl
  | succ n ih =>
    intro hlen hpt
    rw [Nat.mul_succ, bufSeg_add, List.range_succ, List.map_append, List.flatten_append,
      ih (fun u hu => hlen u (by omega)) (fun u t v hu hv => hpt u t v (by omega) hv)]
    congr 1
    simp only [List.map_cons, List.map_nil, List.flatten_cons, List.flatten_nil, List.append_nil]
    rw [← hlen n (by omega)]
    exact bufSeg_eq_of_pointwise d (p + (U n).length * n) (U n)
      (fun t v hv => by
        have := hpt n t v (by omega) hv
        rw [hlen n (by omega)]
        exact this)

theorem expandUnit8_length (bpp b : Nat) : (expandUnit8 bpp b).length = 8 / bpp := by
  simp [expandUnit8]

theorem expandUnit16_length (env : Env) (hi lo : Nat) : (expandUnit16 env hi lo).length = 4 := by
  simp [expandUnit16]

theorem unitOut_length (env : Env) (pixelSize : Nat) (pSrcLine : List PLBYTE) (pos : Nat) :
    (unitOut env pixelSize pSrcLine pos).length = if pixelSize = 16 then 4 else 8 / pixelSize := by
  unfold unitOut
  split
  · exact expandUnit16_length _ _ _
  · exact expandUnit8_length _ _

/-- The expansion call of the RLE loop (`expandBuf` at 16 bpp, `expandBuf8`
otherwise) on `n` units: it returns, leaves the buffer below the write offset
alone, and puts the expansion of unit `u` at output offset `w * u`. -/
theorem expand_units (env : Env) (pixelSize : Nat)
    (hch : pixelSize = 16 → env.channelsOK = true)
    (hps : pixelSize = 1 ∨ pixelSize = 2 ∨ pixelSize = 4 ∨ pixelSize = 8 ∨ pixelSize = 16)
    (d : Buf) (p : Nat) (pSrcLine : List PLBYTE) (q n : Nat) :
    ∃ d1, (if pixelSize = 16 then expandBuf env d p pSrcLine q (n : Int) pixelSize
        else expandBuf8 d p pSrcLine q (n : Int) pixelSize) = .ok d1 ∧
      (∀ k, k < p → d1 k = d k) ∧
      (∀ u t v, u < n →
        (unitOut env pixelSize pSrcLine (q + u * (if pixelSize = 16 then 2 else 1)))[t]? = some v →
        d1 (p + (if pixelSize = 16 then 4 else 8 / pixelSize) * u + t) = v) := by
  by_cases h16 : pixelSize = 16
  · subst h16
    obtain ⟨h1, h2⟩ := expandBufLoop_spec env (hch rfl) pSrcLine n q p d
    refine ⟨expandBufLoop env pSrcLine n q p d, by simp [expandBuf], h1, fun u t v hu hv => ?_⟩
    simp only [if_true] at hv ⊢
    simp only [unitOut, if_true] at hv
    rw [Nat.mul_comm u 2] at hv
    exact h2 u t v hu hv
  · have hb : pixelSize = 1 ∨ pixelSize = 2 ∨ pixelSize = 4 ∨ pixelSize = 8 := by omega
    obtain ⟨d1, h1, h2, h3⟩ := expandBuf8_spec pixelSize hb d p pSrcLine q n
    refine ⟨d1, by rw [if_neg h16]; exact h1, h2, fun u t v hu hv => ?_⟩
    simp only [if_neg h16, unitOut, Nat.mul_one] at hv ⊢
    exact h3 u t v hu hv

set_option maxRecDepth 100000 in
theorem control_byte_facts (c : Nat) (hc : c < 256) :
    ((c &&& 0x80 ≠ 0) ↔ 0x80 ≤ c) ∧ ((c ^^^ 255) &&& 255) = 255 - c ∧ (c &&& 255) = c := by
  have h : ∀ x : Fin 256, ((x.val &&& 0x80 ≠ 0) ↔ 0x80 ≤ x.val) ∧
      ((x.val ^^^ 255) &&& 255) = 255 - x.val ∧ (x.val &&& 255) = x.val := by decide
  exact h ⟨c, hc⟩

theorem unit_width (pixelSize : Nat)
    (hps : pixelSize = 1 ∨ pixelSize = 2 ∨ pixelSize = 4 ∨ pixelSize = 8 ∨ pixelSize = 16) :
    (pixelSize = 16 → 4 * (if pixelSize = 1 then 8 else if pixelSize = 2 then 4
        else if pixelSize = 4 then 2 else 1) = 4) ∧
    (pixelSize ≠ 16 → (if pixelSize = 1 then 8 else if pixelSize = 2 then 4
        else if pixelSize = 4 then 2 else 1) = 8 / pixelSize) := by
  rcases hps with rfl | rfl | rfl | rfl | rfl <;> decide

/-- One pass of the RLE loop of `unpackbits` appends the output of one run to
the decoded part of the line buffer and moves the read position behind that
run. -/
theorem rleStep_spec (env : Env) (pixelSize : Nat)
    (hch : pixelSize = 16 → env.channelsOK = true)
    (hps : pixelSize = 1 ∨ pixelSize = 2 ∨ pixelSize = 4 ∨ pixelSize = 8 ∨ pixelSize = 16)
    (pSrcLine : List PLBYTE) (st : RleState) :
    ∃ st1, rleStep env pixelSize (if pixelSize = 16 then 2 else 1)
        (if pixelSize = 1 then 8 else if pixelSize = 2 then 4 else if pixelSize = 4 then 2 else 1)
        pSrcLine st = .ok st1 ∧
      st1.j = specAdvance (if pixelSize = 16 then 2 else 1) pSrcLine st.j ∧
      bufPrefix st1.lineBuf st1.pBuf = bufPrefix st.lineBuf st.pBuf ++
        specRun env pixelSize (if pixelSize = 16 then 2 else 1) pSrcLine st.j := by
  obtain ⟨hc1, hc2, hc3⟩ := control_byte_facts (peekByte pSrcLine st.j) (peekByte_lt _ _)
  obtain ⟨hw16, hw8⟩ := unit_width pixelSize hps
  generalize hppu : (if pixelSize = 1 then 8 else if pixelSize = 2 then 4
    else if pixelSize = 4 then 2 else 1) = ppu at hw16 hw8 ⊢
  by_cases hlit : peekByte pSrcLine st.j < 0x80
  · -- literal run
    have hflag : ¬ (peekByte pSrcLine st.j &&& 0x80 ≠ 0) := by rw [hc1]; omega
    obtain ⟨d1, hd1, hbelow, hunits⟩ := expand_units env pixelSize hch hps st.lineBuf st.pBuf
      pSrcLine (st.j + 1) (peekByte pSrcLine st.j + 1)
    have hseg := bufSeg_units d1 st.pBuf (if pixelSize = 16 then 4 else 8 / pixelSize)
      (fun u => unitOut env pixelSize pSrcLine (st.j + 1 + u * (if pixelSize = 16 then 2 else 1)))
      (peekByte pSrcLine st.j + 1) (fun u _ => unitOut_length _ _ _ _) hunits
    simp only [rleStep, if_neg hflag, hc3, specAdvance, specRun, if_pos hlit]
    by_cases h16 : pixelSize = 16
    · simp only [if_pos h16] at hd1 hseg ⊢
      rw [hd1]
      refine ⟨_, rfl, by simp only []; omega, ?_⟩
      simp only []
      rw [← hseg, ← bufPrefix_congr d1 st.lineBuf st.pBuf hbelow, ← bufPrefix_add]
      congr 1
      have := hw16 h16
      rw [Nat.mul_assoc, this, Nat.mul_comm]
    · simp only [if_neg h16] at hd1 hseg ⊢
      rw [hd1]
      refine ⟨_, rfl, by simp only []; omega, ?_⟩
      simp only []
      rw [← hseg, ← bufPrefix_congr d1 st.lineBuf st.pBuf hbelow, ← bufPrefix_add]
      congr 1
      rw [hw8 h16, Nat.mul_comm]
  · by_cases h80 : peekByte pSrcLine st.j = 0x80
    · -- no-op
      have hflag : peekByte pSrcLine st.j &&& 0x80 ≠ 0 := by rw [hc1]; omega
      simp only [rleStep, if_pos hflag, if_pos h80, specAdvance, specRun, if_neg hlit,
        List.append_nil]
      exact ⟨_, rfl, rfl, rfl⟩
    · -- repeated unit
      have hflag : peekByte pSrcLine st.j &&& 0x80 ≠ 0 := by rw [hc1]; omega
      obtain ⟨d1, hd1, hbelow, hunits⟩ := expand_units env pixelSize hch hps st.lineBuf st.pBuf
        pSrcLine (st.j + 1) 1
      have hlenU := unitOut_length env pixelSize pSrcLine (st.j + 1)
      have hU0 : ∀ m t v, m < 1 → (unitOut env pixelSize pSrcLine (st.j + 1))[t]? = some v →
          d1 (st.pBuf + m * (if pixelSize = 16 then 4 else 8 / pixelSize) + t) = v := by
        intro m t v hm hv
        have hm0 : m = 0 := by omega
        subst hm0
        have := hunits 0 t v (by omega) (by simpa using hv)
        simpa using this
      obtain ⟨hrep, hrepBelow⟩ := repeatUnit_spec st.pBuf
        (if pixelSize = 16 then 4 else 8 / pixelSize)
        (unitOut env pixelSize pSrcLine (st.j + 1)) hlenU
        ((255 - peekByte pSrcLine st.j) + 2 - 1) 1 d1 (by omega) hU0
      have hseg := bufSeg_units
        (repeatUnit st.pBuf (if pixelSize = 16 then 4 else 8 / pixelSize)
          ((255 - peekByte pSrcLine st.j) + 2 - 1) 1 d1)
        st.pBuf (if pixelSize = 16 then 4 else 8 / pixelSize)
        (fun _ => unitOut env pixelSize pSrcLine (st.j + 1))
        ((255 - peekByte pSrcLine st.j) + 2) (fun u _ => hlenU)
        (fun u t v hu hv => by
          have := hrep u t v (by omega) hv
          rw [Nat.mul_comm]
          exact this)
      rw [List.map_const', List.length_range] at hseg
      simp only [rleStep, if_pos hflag, if_neg h80, hc2, specAdvance, specRun, if_neg hlit]
      simp only [Nat.cast_one] at hd1
      by_cases h16 : pixelSize = 16
      · simp only [if_pos h16] at hd1 hseg hrepBelow ⊢
        rw [hd1]
        have e4 : 4 * ppu = 4 := hw16 h16
        refine ⟨_, rfl, rfl, ?_⟩
        simp only []
        rw [e4, ← hseg, Nat.mul_assoc, e4, Nat.mul_comm (255 - peekByte pSrcLine st.j + 2) 4,
          bufPrefix_add]
        congr 1
        exact bufPrefix_congr _ _ _ (fun k hk => by rw [hrepBelow k hk, hbelow k hk])
      · simp only [if_neg h16] at hd1 hseg hrepBelow ⊢
        rw [hd1]
        have e8 : ppu = 8 / pixelSize := hw8 h16
        refine ⟨_, rfl, rfl, ?_⟩
        simp only []
        rw [e8, ← hseg, Nat.mul_comm (255 - peekByte pSrcLine st.j + 2) (8 / pixelSize),
          bufPrefix_add]
        congr 1
        exact bufPrefix_congr _ _ _ (fun k hk => by rw [hrepBelow k hk, hbelow k hk])

theorem specAdvance_gt (unitSize : Nat) (pSrcLine : List PLBYTE) (j : Nat) :
    j < specAdvance unitSize pSrcLine j := by
  unfold specAdvance
  simp only []
  split
  · omega
  · split <;> omega

/-- The RLE loop of `unpackbits` runs to the end of the source line and leaves
the concatenated runs in the line buffer. -/
theorem unpackRle_spec (env : Env) (pixelSize : Nat)
    (hch : pixelSize = 16 → env.channelsOK = true)
    (hps : pixelSize = 1 ∨ pixelSize = 2 ∨ pixelSize = 4 ∨ pixelSize = 8 ∨ pixelSize = 16)
    (pSrcLine : List PLBYTE) (linelen : Nat) :
    ∀ (fuel : Nat) (st : RleState), linelen ≤ st.j + fuel →
      ∃ st1, unpackRle env pixelSize (if pixelSize = 16 then 2 else 1)
          (if pixelSize = 1 then 8 else if pixelSize = 2 then 4 else if pixelSize = 4 then 2 else 1)
          pSrcLine linelen fuel st = .ok st1 ∧
        linelen ≤ st1.j ∧
        bufPrefix st1.lineBuf st1.pBuf = bufPrefix st.lineBuf st.pBuf ++
          specRow env pixelSize (if pixelSize = 16 then 2 else 1) pSrcLine linelen fuel st.j := by
  intro fuel
  induction fuel with
  | zero =>
    intro st h
    exact ⟨st, rfl, by omega, by simp [specRow]⟩
  | succ fuel ih =>
    intro st h
    by_cases hj : st.j < linelen
    · obtain ⟨st1, h1, h2, h3⟩ := rleStep_spec env pixelSize hch hps pSrcLine st
      have hgt := specAdvance_gt (if pixelSize = 16 then 2 else 1) pSrcLine st.j
      obtain ⟨st2, h4, h5, h6⟩ := ih st1 (by rw [h2]; omega)
      refine ⟨st2, ?_, h5, ?_⟩
      · rw [unpackRle, if_pos hj, h1]
        exact h4
      · rw [h6, h3, specRow, if_pos hj, h2, List.append_assoc]
    · refine ⟨st, ?_, by omega, ?_⟩
      · rw [unpackRle, if_neg hj]
      · rw [specRow, if_neg hj, List.append_nil]

/-! ### Literal runs at 16 bpp -/

theorem flatten_units_length (w : Nat) (U : Nat → List Nat) :
    ∀ (n : Nat), (∀ u, u < n → (U u).length = w) →
      (((List.range n).map U).flatten).length = w * n := by
  intro n
  induction n with
  | zero => intro _; rfl
  | succ n ih =>
    intro h
    rw [List.range_succ, List.map_append, List.flatten_append, List.length_append,
      ih (fun u hu => h u (by omega))]
    simp only [List.map_cons, List.map_nil, List.flatten_cons, List.flatten_nil, List.append_nil]
    rw [h n (by omega), Nat.mul_succ]

theorem peekByte_cons_succ (b : PLBYTE) (l : List PLBYTE) (k : Nat) :
    peekByte (b :: l) (k + 1) = peekByte l k := by
  simp [peekByte]

theorem peekByte_append_left (l r : List PLBYTE) (k : Nat) (hk : k < l.length) :
    peekByte (l ++ r) k = peekByte l k := by
  simp only [peekByte, List.get?_eq_getElem?]
  rw [List.getElem?_append_left hk]

theorem unpackRle_one_run (env : Env) (pixelSize pkpixsize PixelPerRLEUnit : Nat)
    (pSrcLine : List PLBYTE) (linelen : Nat) (st st1 : RleState)
    (hj : st.j < linelen)
    (h1 : rleStep env pixelSize pkpixsize PixelPerRLEUnit pSrcLine st = .ok st1)
    (hj1 : linelen ≤ st1.j) :
    ∀ (fuel : Nat), 1 ≤ fuel →
      unpackRle env pixelSize pkpixsize PixelPerRLEUnit pSrcLine linelen fuel st = .ok st1 := by
  intro fuel hf
  cases fuel with
  | zero => omega
  | succ f =>
    rw [unpackRle, if_pos hj, h1]
    show unpackRle env pixelSize pkpixsize PixelPerRLEUnit pSrcLine linelen f st1 = .ok st1
    cases f with
    | zero => rfl
    | succ f => rw [unpackRle, if_neg (by omega)]

/-- Counterexample to C10: a one-row, four-pixel image at 16 bpp whose row is
the literal run `3, 7c 00, 03 e0, 00 1f, ff ff` decodes to sixteen bytes (four
32-bit pixels), and its first eight bytes are not the eight bytes of the run;
this is so with the channels stored as R, G, B, A and as B, G, R, A alike. -/
theorem unpackbits_16bpp_literal_run_is_expanded :
    (unpackbits demoEnv ⟨0, 0, 1, 4⟩ 0 16
      (demoBmp, ⟨[], [9, 3, 0x7c, 0x00, 0x03, 0xe0, 0x00, 0x1f, 0xff, 0xff]⟩)).error = none ∧
    bufPrefix ((unpackbits demoEnv ⟨0, 0, 1, 4⟩ 0 16
      (demoBmp, ⟨[], [9, 3, 0x7c, 0x00, 0x03, 0xe0, 0x00, 0x1f, 0xff, 0xff]⟩)).state.1.lines 0) 16 =
      [248, 0, 0, 255, 0, 248, 0, 255, 0, 0, 248, 255, 248, 248, 248, 255] ∧
    bufPrefix ((unpackbits demoEnv ⟨0, 0, 1, 4⟩ 0 16
      (demoBmp, ⟨[], [9, 3, 0x7c, 0x00, 0x03, 0xe0, 0x00, 0x1f, 0xff, 0xff]⟩)).state.1.lines 0) 8 ≠
      [0x7c, 0x00, 0x03, 0xe0, 0x00, 0x1f, 0xff, 0xff] ∧
    bufPrefix ((unpackbits { demoEnv with PL_RGBA_BLUE := 0, PL_RGBA_RED := 2 } ⟨0, 0, 1, 4⟩ 0 16
      (demoBmp, ⟨[], [9, 3, 0x7c, 0x00, 0x03, 0xe0, 0x00, 0x1f, 0xff, 0xff]⟩)).state.1.lines 0) 16 =
      [0, 0, 248, 255, 0, 248, 0, 255, 248, 0, 0, 255, 248, 248, 248, 255] ∧
    bufPrefix ((unpackbits { demoEnv with PL_RGBA_BLUE := 0, PL_RGBA_RED := 2 } ⟨0, 0, 1, 4⟩ 0 16
      (demoBmp, ⟨[], [9, 3, 0x7c, 0x00, 0x03, 0xe0, 0x00, 0x1f, 0xff, 0xff]⟩)).state.1.lines 0) 8 ≠
      [0x7c, 0x00, 0x03, 0xe0, 0x00, 0x1f, 0xff, 0xff] := by
  decide

/-! ### Row framing -/

theorem forward_eq (n : Nat) : ∀ (c t : List PLBYTE),
    PLDataSource.forward n ⟨c, t⟩ = if n ≤ t.length then some (cursorAt c t n) else none := by
  induction n with
  | zero => intro c t; simp [PLDataSource.forward, cursorAt]
  | succ n ih =>
    intro c t
    cases t with
    | nil => simp [PLDataSource.forward]
    | cons b r =>
      simp only [PLDataSource.forward, ih, List.length_cons, Nat.add_le_add_iff_right]
      by_cases h : n ≤ r.length
      · simp [h, cursorAt]
      · simp [h]

theorem ReadNBytes_eq (n : Nat) (c t : List PLBYTE) :
    ReadNBytes n ⟨c, t⟩ = if n ≤ t.length then .ok t (cursorAt c t n)
      else .raise .PL_ERREND_OF_FILE ⟨c, t⟩ := by
  simp only [ReadNBytes, forward_eq]
  by_cases h : n ≤ t.length <;> simp [h]

theorem Skip_nat_eq (n : Nat) (c t : List PLBYTE) :
    Skip (n : Int) ⟨c, t⟩ = if n ≤ t.length then .ok () (cursorAt c t n)
      else .raise .PL_ERREND_OF_FILE ⟨c, t⟩ := by
  simp only [Skip, Int.toNat_ofNat, forward_eq, if_pos (Int.ofNat_nonneg n)]
  by_cases h : n ≤ t.length <;> simp [h]

theorem prefixValue_one (t : List PLBYTE) : prefixValue 1 t = peekByte t 0 := by
  simp [prefixValue, List.range_succ]

theorem prefixValue_two (t : List PLBYTE) :
    prefixValue 2 t = peekByte t 0 * 256 + peekByte t 1 := by
  simp [prefixValue, List.range_succ]

/-- The length prefix of a row: one byte, or a big-endian word when the row
byte count is above 250. -/
theorem readPrefix_eq (r : Nat) (c t : List PLBYTE) :
    (if r > 250 then ReadMWord else ReadByte) ⟨c, t⟩ =
      if (if r > 250 then 2 else 1) ≤ t.length then
        .ok (prefixValue (if r > 250 then 2 else 1) t) (cursorAt c t (if r > 250 then 2 else 1))
      else .raise .PL_ERREND_OF_FILE ⟨c, t⟩ := by
  by_cases h : r > 250
  · simp only [if_pos h, prefixValue_two]
    match t with
    | [] => simp [ReadMWord]
    | [b] => simp [ReadMWord]
    | b0 :: b1 :: t => simp [ReadMWord, cursorAt, peekByte]
  · simp only [if_neg h, prefixValue_one]
    match t with
    | [] => simp [ReadByte]
    | b :: t => simp [ReadByte, cursorAt, peekByte]

theorem cursorAt_cursorAt (c t : List PLBYTE) (a b : Nat) :
    cursorAt (cursorAt c t a).consumed (cursorAt c t a).rest b = cursorAt c t (a + b) := by
  simp only [cursorAt, List.drop_drop, List.take_add, List.reverse_append, List.append_assoc]

/-- For the pixel sizes that `unpackbits` accepts, the expansion of a row
does not raise. -/
theorem expand_total (env : Env) (pixelSize : Nat)
    (hps : pixelSize = 1 ∨ pixelSize = 2 ∨ pixelSize = 4 ∨ pixelSize = 8 ∨ pixelSize = 16)
    (dest : Buf) (p : Nat) (src : List PLBYTE) (q : Nat) (W : Int) :
    ∃ line, (if pixelSize = 16 then expandBuf env dest p src q W pixelSize
      else expandBuf8 dest p src q W pixelSize) = .ok line := by
  rcases hps with rfl | rfl | rfl | rfl | rfl
  · simp only [expandBuf8]; norm_num; split_ifs <;> exact ⟨_, rfl⟩
  · simp only [expandBuf8]; norm_num; split_ifs <;> exact ⟨_, rfl⟩
  · simp only [expandBuf8]; norm_num; split_ifs <;> exact ⟨_, rfl⟩
  · simp only [expandBuf8]; norm_num
  · simp only [expandBuf]; norm_num

theorem rleStep_total (env : Env) (pixelSize pk ppu : Nat)
    (hps : pixelSize = 1 ∨ pixelSize = 2 ∨ pixelSize = 4 ∨ pixelSize = 8 ∨ pixelSize = 16)
    (src : List PLBYTE) (st : RleState) :
    ∃ st1, rleStep env pixelSize pk ppu src st = .ok st1 := by
  have hx := fun (q : Nat) (W : Int) => expand_total env pixelSize hps st.lineBuf st.pBuf src q W
  unfold rleStep
  simp only []
  by_cases h16 : pixelSize = 16
  · simp only [if_pos h16] at hx ⊢
    split_ifs
    · exact ⟨_, rfl⟩
    · obtain ⟨d, hd⟩ := hx (st.j + 1) 1
      rw [hd]; exact ⟨_, rfl⟩
    · obtain ⟨d, hd⟩ := hx (st.j + 1) (((peekByte src st.j &&& 255) + 1 : Nat) : Int)
      rw [hd]; exact ⟨_, rfl⟩
  · simp only [if_neg h16] at hx ⊢
    split_ifs
    · exact ⟨_, rfl⟩
    · obtain ⟨d, hd⟩ := hx (st.j + 1) 1
      rw [hd]; exact ⟨_, rfl⟩
    · obtain ⟨d, hd⟩ := hx (st.j + 1) (((peekByte src st.j &&& 255) + 1 : Nat) : Int)
      rw [hd]; exact ⟨_, rfl⟩

theorem unpackRle_total (env : Env) (pixelSize pk ppu : Nat)
    (hps : pixelSize = 1 ∨ pixelSize = 2 ∨ pixelSize = 4 ∨ pixelSize = 8 ∨ pixelSize = 16)
    (src : List PLBYTE) (linelen : Nat) :
    ∀ (fuel : Nat) (st : RleState),
      ∃ st1, unpackRle env pixelSize pk ppu src linelen fuel st = .ok st1 := by
  intro fuel
  induction fuel with
  | zero => intro st; exact ⟨st, rfl⟩
  | succ fuel ih =>
    intro st
    by_cases hj : st.j < linelen
    · obtain ⟨st1, h1⟩ := rleStep_total env pixelSize pk ppu hps src st
      obtain ⟨st2, h2⟩ := ih st1
      exact ⟨st2, by rw [unpackRle, if_pos hj, h1]; exact h2⟩
    · exact ⟨st, by rw [unpackRle, if_neg hj]⟩

/-- The unpacked branch of `unpackbits`: `n` rows of `r` bytes each, expanded
straight from the file data. -/
theorem unpackbitsRawRows_run (env : Env) (W : Int) (r pixelSize : Nat)
    (hps : pixelSize = 1 ∨ pixelSize = 2 ∨ pixelSize = 4 ∨ pixelSize = 8 ∨ pixelSize = 16) :
    ∀ (n i : Nat) (bmp : PLBmp) (c t : List PLBYTE),
      (r * n ≤ t.length →
        ∃ bmp1, unpackbitsRawRows env W r pixelSize n i (bmp, ⟨c, t⟩) =
            .ok () (bmp1, cursorAt c t (r * n)) ∧
          (∀ k, k < n →
            (if pixelSize = 16 then expandBuf env (bmp.lines (i + k)) 0 (t.drop (r * k)) 0 W pixelSize
              else expandBuf8 (bmp.lines (i + k)) 0 (t.drop (r * k)) 0 W pixelSize) =
              .ok (bmp1.lines (i + k))) ∧
          (∀ m, m < i ∨ i + n ≤ m → bmp1.lines m = bmp.lines m)) ∧
      (t.length < r * n →
        ∃ s, unpackbitsRawRows env W r pixelSize n i (bmp, ⟨c, t⟩) =
          .raise .PL_ERREND_OF_FILE s) := by
  intro n
  induction n with
  | zero =>
    intro i bmp c t
    refine ⟨fun _ => ⟨bmp, ?_, fun k hk => absurd hk (by omega), fun _ _ => rfl⟩,
      fun h => absurd h (by omega)⟩
    simp [unpackbitsRawRows, cursorAt]
  | succ n ih =>
    intro i bmp c t
    by_cases hr : r ≤ t.length
    · obtain ⟨line, hline⟩ := expand_total env pixelSize hps (bmp.lines i) 0 t 0 W
      have hstep : unpackbitsRawRows env W r pixelSize (n + 1) i (bmp, ⟨c, t⟩) =
          unpackbitsRawRows env W r pixelSize n (i + 1)
            (bmp.setLine i line, ⟨(cursorAt c t r).consumed, (cursorAt c t r).rest⟩) := by
        rw [unpackbitsRawRows]
        simp only [bind_apply, onSrc, zoom, ReadNBytes_eq, if_pos hr, getState, hline, liftExcept,
          pure_apply, modifyState]
      obtain ⟨ihok, iherr⟩ := ih (i + 1) (bmp.setLine i line) (cursorAt c t r).consumed
        (cursorAt c t r).rest
      have hlen : (cursorAt c t r).rest.length = t.length - r := by simp [cursorAt]
      rw [hstep]
      constructor
      · intro h
        obtain ⟨bmp1, h1, h2, h3⟩ := ihok (by rw [hlen]; rw [Nat.mul_succ] at h; omega)
        refine ⟨bmp1, ?_, ?_, ?_⟩
        · rw [h1, cursorAt_cursorAt, Nat.mul_succ, Nat.add_comm]
        · intro k hk
          cases k with
          | zero =>
            rw [Nat.mul_zero, List.drop_zero, Nat.add_zero, hline, h3 i (Or.inl (by omega))]
            simp [PLBmp.setLine]
          | succ k =>
            have := h2 k (by omega)
            have e1 : (cursorAt c t r).rest.drop (r * k) = t.drop (r * (k + 1)) := by
              simp only [cursorAt, List.drop_drop, Nat.mul_succ, Nat.add_comm]
            have e2 : (bmp.setLine i line).lines (i + 1 + k) = bmp.lines (i + (k + 1)) := by
              have e : i + 1 + k = i + (k + 1) := by omega
              rw [e]
              simp only [PLBmp.setLine]
              rw [if_neg (show ¬ (i + (k + 1) = i) by omega)]
            have e3 : i + 1 + k = i + (k + 1) := by omega
            rw [e1, e2, e3] at this
            exact this
        · intro m hm
          rw [h3 m (by omega)]
          simp only [PLBmp.setLine]
          rw [if_neg (show ¬ (m = i) by omega)]
      · intro h
        exact iherr (by rw [hlen]; rw [Nat.mul_succ] at h; omega)
    · constructor
      · intro h
        rw [Nat.mul_succ] at h
        omega
      · intro _
        refine ⟨(bmp, ⟨c, t⟩), ?_⟩
        rw [unpackbitsRawRows]
        simp only [bind_apply, onSrc, zoom, ReadNBytes_eq, if_neg hr]

theorem ReadNBytes_cursorAt (n : Nat) (c t : List PLBYTE) (o : Nat) :
    ReadNBytes n (cursorAt c t o) = if n ≤ (t.drop o).length then
        .ok (t.drop o) (cursorAt c t (o + n))
      else .raise .PL_ERREND_OF_FILE (cursorAt c t o) := by
  rw [← cursorAt_cursorAt]
  exact ReadNBytes_eq n _ _

theorem framedLength_succ (K n : Nat) (t : List PLBYTE) :
    framedLength K (n + 1) t =
      (K + prefixValue K t) + framedLength K n (t.drop (K + prefixValue K t)) := rfl

/-- The packed branch of `unpackbits`: `n` rows, each a length prefix
followed by that many bytes of RLE data. -/
theorem unpackbitsPackedRows_run (env : Env) (W : Int) (r pixelSize pk ppu : Nat)
    (hps : pixelSize = 1 ∨ pixelSize = 2 ∨ pixelSize = 4 ∨ pixelSize = 8 ∨ pixelSize = 16)
    (K : Nat) (hK : K = if r > 250 then 2 else 1) :
    ∀ (n i : Nat) (buf : Buf) (bmp : PLBmp) (c t : List PLBYTE),
      (framedLength K n t ≤ t.length →
        ∃ bmp1, unpackbitsPackedRows env W r pixelSize pk ppu n i buf (bmp, ⟨c, t⟩) =
            .ok () (bmp1, cursorAt c t (framedLength K n t)) ∧
          (∀ k, k < n → ∃ buf0 st,
            unpackRle env pixelSize pk ppu (t.drop (framedLength K k t + K))
              (prefixValue K (t.drop (framedLength K k t)))
              (prefixValue K (t.drop (framedLength K k t))) ⟨0, 0, buf0⟩ = .ok st ∧
            bmp1.lines (i + k) = memcpy (bmp.lines (i + k)) 0 st.lineBuf 0
              (if pixelSize = 16 then (4 * W).toNat else W.toNat)) ∧
          (∀ m, m < i ∨ i + n ≤ m → bmp1.lines m = bmp.lines m)) ∧
      (t.length < framedLength K n t →
        ∃ s, unpackbitsPackedRows env W r pixelSize pk ppu n i buf (bmp, ⟨c, t⟩) =
          .raise .PL_ERREND_OF_FILE s) := by
  intro n
  induction n with
  | zero =>
    intro i buf bmp c t
    refine ⟨fun _ => ⟨bmp, ?_, fun k hk => absurd hk (by omega), fun _ _ => rfl⟩,
      fun h => absurd h (by simp [framedLength])⟩
    simp [unpackbitsPackedRows, cursorAt, framedLength]
  | succ n ih =>
    intro i buf bmp c t
    have hpre := readPrefix_eq r c t
    rw [← hK] at hpre
    by_cases hk1 : K ≤ t.length
    · rw [if_pos hk1] at hpre
      by_cases hk2 : prefixValue K t ≤ (t.drop K).length
      · obtain ⟨st, hst⟩ := unpackRle_total env pixelSize pk ppu hps (t.drop K)
          (prefixValue K t) (prefixValue K t) ⟨0, 0, buf⟩
        have hstep : unpackbitsPackedRows env W r pixelSize pk ppu (n + 1) i buf (bmp, ⟨c, t⟩) =
            unpackbitsPackedRows env W r pixelSize pk ppu n (i + 1) st.lineBuf
              (bmp.setLine i (memcpy (bmp.lines i) 0 st.lineBuf 0
                (if pixelSize = 16 then (4 * W).toNat else W.toNat)),
               ⟨(cursorAt c t (K + prefixValue K t)).consumed,
                (cursorAt c t (K + prefixValue K t)).rest⟩) := by
          rw [unpackbitsPackedRows]
          simp only [bind_apply, onSrc, zoom, hpre, ReadNBytes_cursorAt, if_pos hk2, hst,
            liftExcept, pure_apply, modifyState]
        obtain ⟨ihok, iherr⟩ := ih (i + 1) st.lineBuf
          (bmp.setLine i (memcpy (bmp.lines i) 0 st.lineBuf 0
            (if pixelSize = 16 then (4 * W).toNat else W.toNat)))
          (cursorAt c t (K + prefixValue K t)).consumed (cursorAt c t (K + prefixValue K t)).rest
        have hrest : (cursorAt c t (K + prefixValue K t)).rest = t.drop (K + prefixValue K t) := rfl
        have hlen : (t.drop (K + prefixValue K t)).length = t.length - (K + prefixValue K t) := by
          simp
        have hlen2 : (t.drop K).length = t.length - K := by simp
        rw [hstep, framedLength_succ]
        constructor
        · intro h
          obtain ⟨bmp1, h1, h2, h3⟩ := ihok (by rw [hrest]; omega)
          rw [hrest] at h2
          refine ⟨bmp1, ?_, ?_, ?_⟩
          · rw [h1, cursorAt_cursorAt, hrest]
          · intro k hk
            cases k with
            | zero =>
              refine ⟨buf, st, ?_, ?_⟩
              · simpa [framedLength] using hst
              · rw [Nat.add_zero, h3 i (Or.inl (by omega))]
                simp [PLBmp.setLine]
            | succ k =>
              obtain ⟨buf0, st0, h4, h5⟩ := h2 k (by omega)
              refine ⟨buf0, st0, ?_, ?_⟩
              · rw [framedLength_succ]
                rw [List.drop_drop] at h4
                rw [List.drop_drop] at h4
                have e1 : K + prefixValue K t + (framedLength K k (t.drop (K + prefixValue K t)) + K)
                    = K + prefixValue K t + framedLength K k (t.drop (K + prefixValue K t)) + K := by
                  omega
                rw [e1] at h4
                exact h4
              · have e : i + 1 + k = i + (k + 1) := by omega
                rw [e] at h5
                rw [h5]
                simp only [PLBmp.setLine]
                rw [if_neg (show ¬ (i + (k + 1) = i) by omega)]
          · intro m hm
            rw [h3 m (by omega)]
            simp only [PLBmp.setLine]
            rw [if_neg (show ¬ (m = i) by omega)]
        · intro h
          exact iherr (by rw [hrest]; omega)
      · constructor
        · intro h
          rw [framedLength_succ] at h
          have hlen2 : (t.drop K).length = t.length - K := by simp
          omega
        · intro _
          refine ⟨(bmp, cursorAt c t K), ?_⟩
          rw [unpackbitsPackedRows]
          simp only [bind_apply, onSrc, zoom, hpre, ReadNBytes_cursorAt, if_neg hk2]
    · rw [if_neg hk1] at hpre
      constructor
      · intro h
        rw [framedLength_succ] at h
        omega
      · intro _
        refine ⟨(bmp, ⟨c, t⟩), ?_⟩
        rw [unpackbitsPackedRows]
        simp only [bind_apply, onSrc, zoom, hpre]

/-- C12: with an effective row byte count of 4 (below 8), `unpack8bits` and
`unpack32bits` still read a 1-byte length before the raw row.  On the data
`0A 14 1E 28 32`, bounds of one row, `unpack8bits` (width 4) takes `0A` as a
length and the row from the four bytes after it, consuming all five bytes,
while the generic `unpackbits` at 8 bpp takes the row from the first four
bytes and consumes four; `unpack32bits` (width 1, four planes) likewise takes
its four plane bytes after the first byte. -/
theorem unpack8bits_unpack32bits_short_row_reads_length :
    ((unpack8bits demoEnv ⟨0, 0, 1, 4⟩ 4 (demoBmp, ⟨[], [10, 20, 30, 40, 50]⟩)).state.2 =
        ⟨[50, 40, 30, 20, 10], []⟩ ∧
      bufPrefix ((unpack8bits demoEnv ⟨0, 0, 1, 4⟩ 4
        (demoBmp, ⟨[], [10, 20, 30, 40, 50]⟩)).state.1.lines 0) 4 = [20, 30, 40, 50]) ∧
    ((unpackbits demoEnv ⟨0, 0, 1, 4⟩ 4 8 (demoBmp, ⟨[], [10, 20, 30, 40, 50]⟩)).state.2 =
        ⟨[40, 30, 20, 10], [50]⟩ ∧
      bufPrefix ((unpackbits demoEnv ⟨0, 0, 1, 4⟩ 4 8
        (demoBmp, ⟨[], [10, 20, 30, 40, 50]⟩)).state.1.lines 0) 4 = [10, 20, 30, 40]) ∧
    ((unpack32bits demoEnv ⟨0, 0, 1, 1⟩ 4 4 (demoBmp, ⟨[], [10, 20, 30, 40, 50]⟩)).state.2 =
        ⟨[50, 40, 30, 20, 10], []⟩ ∧
      bufPrefix ((unpack32bits demoEnv ⟨0, 0, 1, 1⟩ 4 4
        (demoBmp, ⟨[], [10, 20, 30, 40, 50]⟩)).state.1.lines 0) 4 = [30, 40, 50, 20]) ∧
    (unpack8bits demoEnv ⟨0, 0, 1, 4⟩ 4 (demoBmp, ⟨[], [10, 20, 30, 40]⟩)).error =
      some .PL_ERREND_OF_FILE ∧
    (unpackbits demoEnv ⟨0, 0, 1, 4⟩ 4 8 (demoBmp, ⟨[], [10, 20, 30, 40]⟩)).error = none := by
  decide

/-! ### Planar rows of `unpack32bits` -/

theorem expandUnit16_get (env : Env) (hch : env.channelsOK = true) (hi lo : Nat) :
    (expandUnit16 env hi lo)[env.PL_RGBA_RED]? = some (((hi * 256 + lo) / 1024 % 32) * 8) ∧
    (expandUnit16 env hi lo)[env.PL_RGBA_GREEN]? = some (((hi * 256 + lo) / 32 % 32) * 8) ∧
    (expandUnit16 env hi lo)[env.PL_RGBA_BLUE]? = some (((hi * 256 + lo) % 32) * 8) ∧
    (expandUnit16 env hi lo)[env.PL_RGBA_ALPHA]? = some 255 := by
  obtain ⟨hB, hG, hR, hA, hBG, hBR, hBA, hGR, hGA, hRA⟩ := channelsOK_iff env hch
  simp only [expandUnit16, List.getElem?_map, List.getElem?_range hB, List.getElem?_range hG,
    List.getElem?_range hR, List.getElem?_range hA, Option.map_some']
  refine ⟨?_, ?_, ?_, ?_⟩
  · rw [if_neg hRA, if_pos trivial]
  · rw [if_neg hGA, if_neg hGR, if_pos trivial]
  · rw [if_neg hBA, if_neg hBR, if_neg hBG]
  · rw [if_pos trivial]

theorem channel_cases (env : Env) (hch : env.channelsOK = true) (c : Nat) (hc : c < 4)
    (hca : c ≠ env.PL_RGBA_ALPHA) :
    c = env.PL_RGBA_RED ∨ c = env.PL_RGBA_GREEN ∨ c = env.PL_RGBA_BLUE := by
  obtain ⟨hB, hG, hR, hA, hBG, hBR, hBA, hGR, hGA, hRA⟩ := channelsOK_iff env hch
  omega

theorem shift_mask_555 (s : Nat) :
    ((s >>> 10) &&& 31) * 8 = (s / 1024 % 32) * 8 ∧ ((s >>> 5) &&& 31) * 8 = (s / 32 % 32) * 8 ∧
    (s &&& 31) * 8 = (s % 32) * 8 := by
  have h1 := shiftRight_and_31 s 10
  have h2 := shiftRight_and_31 s 5
  have h3 := and_31 s
  norm_num at h1 h2
  rw [h1, h2, h3]
  exact ⟨rfl, rfl, rfl⟩

/-- C14: `expandBuf` at 16 bpp returns, and for every unit `u` of the `n`
units expanded, with `s` the big-endian value of its two source bytes, the
pixel written has red `((s >> 10) & 31) * 8`, green `((s >> 5) & 31) * 8`,
blue `(s & 31) * 8` and alpha 255 (the four channel offsets being the four
byte positions of a pixel); every colour channel is a multiple of 8 and at
most 248; and a source whose unit differs from `s` only in bit 15 gives the
same pixel. -/
theorem expandBuf_16bpp_channels (env : Env) (hch : env.channelsOK = true) (dest : Buf)
    (p : Nat) (src : List PLBYTE) (q n u : Nat) (hu : u < n) :
    ∃ d1, expandBuf env dest p src q (n : Int) 16 = .ok d1 ∧
      d1 (p + 4 * u + env.PL_RGBA_RED) =
        (((peekByte src (q + 2 * u) * 256 + peekByte src (q + 2 * u + 1)) >>> 10) &&& 31) * 8 ∧
      d1 (p + 4 * u + env.PL_RGBA_GREEN) =
        (((peekByte src (q + 2 * u) * 256 + peekByte src (q + 2 * u + 1)) >>> 5) &&& 31) * 8 ∧
      d1 (p + 4 * u + env.PL_RGBA_BLUE) =
        ((peekByte src (q + 2 * u) * 256 + peekByte src (q + 2 * u + 1)) &&& 31) * 8 ∧
      d1 (p + 4 * u + env.PL_RGBA_ALPHA) = 255 ∧
      (∀ c, c < 4 → c ≠ env.PL_RGBA_ALPHA →
        d1 (p + 4 * u + c) % 8 = 0 ∧ d1 (p + 4 * u + c) ≤ 248) ∧
      (∀ (src2 : List PLBYTE) (d2 : Buf),
        peekByte src2 (q + 2 * u) % 128 = peekByte src (q + 2 * u) % 128 →
        peekByte src2 (q + 2 * u + 1) = peekByte src (q + 2 * u + 1) →
        expandBuf env dest p src2 q (n : Int) 16 = .ok d2 →
        ∀ c, c < 4 → d2 (p + 4 * u + c) = d1 (p + 4 * u + c)) := by
  have key : ∀ (sr : List PLBYTE),
      expandBufLoop env sr n q p dest (p + 4 * u + env.PL_RGBA_RED) =
        ((peekByte sr (q + 2 * u) * 256 + peekByte sr (q + 2 * u + 1)) / 1024 % 32) * 8 ∧
      expandBufLoop env sr n q p dest (p + 4 * u + env.PL_RGBA_GREEN) =
        ((peekByte sr (q + 2 * u) * 256 + peekByte sr (q + 2 * u + 1)) / 32 % 32) * 8 ∧
      expandBufLoop env sr n q p dest (p + 4 * u + env.PL_RGBA_BLUE) =
        ((peekByte sr (q + 2 * u) * 256 + peekByte sr (q + 2 * u + 1)) % 32) * 8 ∧
      expandBufLoop env sr n q p dest (p + 4 * u + env.PL_RGBA_ALPHA) = 255 := by
    intro sr
    obtain ⟨g1, g2, g3, g4⟩ := expandUnit16_get env hch (peekByte sr (q + 2 * u))
      (peekByte sr (q + 2 * u + 1))
    have hs := (expandBufLoop_spec env hch sr n q p dest).2 u
    exact ⟨hs _ _ hu g1, hs _ _ hu g2, hs _ _ hu g3, hs _ _ hu g4⟩
  have hrun : ∀ (sr : List PLBYTE), expandBuf env dest p sr q (n : Int) 16 =
      .ok (expandBufLoop env sr n q p dest) := by
    intro sr
    simp [expandBuf]
  obtain ⟨k1, k2, k3, k4⟩ := key src
  obtain ⟨s1, s2, s3⟩ := shift_mask_555
    (peekByte src (q + 2 * u) * 256 + peekByte src (q + 2 * u + 1))
  have hchan := channel_cases env hch
  refine ⟨_, hrun src, by rw [k1, s1], by rw [k2, s2], by rw [k3, s3], k4, ?_, ?_⟩
  · intro c hc hca
    rcases hchan c hc hca with rfl | rfl | rfl
    · rw [k1]; omega
    · rw [k2]; omega
    · rw [k3]; omega
  · intro src2 d2 hhi hlo hd2 c hc
    rw [hrun src2] at hd2
    have hd : d2 = expandBufLoop env src2 n q p dest := (Except.ok.inj hd2).symm
    obtain ⟨m1, m2, m3, m4⟩ := key src2
    have b1 := peekByte_lt src (q + 2 * u)
    have b2 := peekByte_lt src2 (q + 2 * u)
    have b3 := peekByte_lt src (q + 2 * u + 1)
    rw [hd]
    by_cases hca : c = env.PL_RGBA_ALPHA
    · rw [hca, m4, k4]
    rcases hchan c hc hca with rfl | rfl | rfl
    · rw [m1, k1, hlo]; omega
    · rw [m2, k2, hlo]; omega
    · rw [m3, k3, hlo]; omega

theorem expandBuf_16bpp_channels_witness :
    demoEnv.channelsOK = true ∧
    ∃ d1, expandBuf demoEnv demoEnv.heap 0 [0xFC, 0x1F] 0 1 16 = .ok d1 ∧
      d1 0 = 248 ∧ d1 1 = 0 ∧ d1 2 = 248 ∧ d1 3 = 255 ∧
      ∀ d2, expandBuf demoEnv demoEnv.heap 0 [0x7C, 0x1F] 0 1 16 = .ok d2 →
        ∀ c, c < 4 → d2 c = d1 c :=
  ⟨by decide,
   (expandBuf_16bpp_channels demoEnv (by decide) demoEnv.heap 0 [0xFC, 0x1F] 0 1 0
      (by decide)).imp
     (fun d1 h => ⟨h.1, h.2.1.trans (by decide), h.2.2.1.trans (by decide),
       h.2.2.2.1.trans (by decide), h.2.2.2.2.1,
       fun d2 h2 c hc => by
        have := h.2.2.2.2.2.2 [0x7C, 0x1F] d2 (by decide) (by decide) h2 c hc
        simpa using this⟩)⟩

/-! ### Expansion of packed indices -/

/-- C15: `expandBuf8` expands most significant bits first.  For `b` in
{1, 2, 4}, with `k = 8 / b` pixels per byte, every source, every `Width` (in
bytes) and every output position `p < Width * k`, the call returns and the
value written at `p` is `(src[p / k] >> (8 - b * (p mod k + 1))) & (2 ^ b - 1)`;
for `b = 8` the call returns and output byte `p < Width` is source byte `p`.
Positions are relative to the destination and the source pointer (`po`, `q`). -/
theorem expandBuf8_msb_first (dest : Buf) (po : Nat) (src : List PLBYTE) (q : Nat)
    (Width : Int) (p : Nat) :
    (∀ b, b = 1 ∨ b = 2 ∨ b = 4 → (p : Int) < Width * ((8 / b : Nat) : Int) →
      ∃ d1, expandBuf8 dest po src q Width b = .ok d1 ∧
        d1 (po + p) =
          (peekByte src (q + p / (8 / b)) >>> (8 - b * (p % (8 / b) + 1))) &&& (2 ^ b - 1)) ∧
    ((p : Int) < Width →
      ∃ d1, expandBuf8 dest po src q Width 8 = .ok d1 ∧ d1 (po + p) = peekByte src (q + p)) := by
  constructor
  · intro b hb hp
    have hk : 0 < 8 / b := by rcases hb with rfl | rfl | rfl <;> decide
    have hW : 0 < Width := by
      by_contra hneg
      have h1 : Width * ((8 / b : Nat) : Int) ≤ 0 :=
        Int.mul_nonpos_of_nonpos_of_nonneg (by omega) (by omega)
      omega
    have hWn : Width = ((Width.toNat : Nat) : Int) := (Int.toNat_of_nonneg (by omega)).symm
    obtain ⟨d1, h1, _, h3⟩ := expandBuf8_spec b (by omega) dest po src q Width.toNat
    rw [← hWn] at h1
    refine ⟨d1, h1, ?_⟩
    have hu : p / (8 / b) < Width.toNat := by
      rw [Nat.div_lt_iff_lt_mul hk]
      have : (p : Int) < ((Width.toNat * (8 / b) : Nat) : Int) := by
        rw [Nat.cast_mul, ← hWn]
        exact hp
      exact_mod_cast this
    have ht : p % (8 / b) < 8 / b := Nat.mod_lt _ hk
    have hv : (expandUnit8 b (peekByte src (q + p / (8 / b))))[p % (8 / b)]? =
        some ((peekByte src (q + p / (8 / b)) >>> (8 - b * (p % (8 / b) + 1))) &&& (2 ^ b - 1)) := by
      simp only [expandUnit8, List.getElem?_map, List.getElem?_range ht, Option.map_some']
    have := h3 (p / (8 / b)) (p % (8 / b)) _ hu hv
    rw [Nat.add_assoc, Nat.div_add_mod] at this
    exact this
  · intro hp
    have hWn : Width = ((Width.toNat : Nat) : Int) := (Int.toNat_of_nonneg (by omega)).symm
    obtain ⟨d1, h1, _, h3⟩ := expandBuf8_spec 8 (by omega) dest po src q Width.toNat
    rw [← hWn] at h1
    refine ⟨d1, h1, ?_⟩
    have hv : (expandUnit8 8 (peekByte src (q + p)))[0]? = some (peekByte src (q + p)) := by
      have := (control_byte_facts (peekByte src (q + p)) (peekByte_lt _ _)).2.2
      simp [expandUnit8, this]
    have := h3 p 0 _ (by omega) hv
    simpa using this

theorem expandBuf8_msb_first_witness :
    (∃ d1, expandBuf8 demoEnv.heap 0 [0xB4] 0 1 2 = .ok d1 ∧ d1 1 = 3) ∧
    (∃ d1, expandBuf8 demoEnv.heap 0 [0xB4, 0x11] 0 2 8 = .ok d1 ∧ d1 1 = 0x11) :=
  ⟨((expandBuf8_msb_first demoEnv.heap 0 [0xB4] 0 1 1).1 2 (by decide) (by decide)).imp
      (fun _ h => ⟨h.1, h.2.trans (by decide)⟩),
   ((expandBuf8_msb_first demoEnv.heap 0 [0xB4, 0x11] 0 2 1).2 (by decide)).imp
      (fun _ h => ⟨h.1, h.2.trans (by decide)⟩)⟩

/-! ### The JPEG marker search of `jpegOp` -/

theorem peekByte_pos_lt (t : List PLBYTE) (k : Nat) (h : peekByte t k ≠ 0) : k < t.length := by
  by_contra hk
  apply h
  have : t[k]? = none := List.getElem?_eq_none (by omega)
  simp [peekByte, this]

theorem markerAt_length (t : List PLBYTE) (i : Nat) (h : markerAt t i) : i + 3 ≤ t.length := by
  have := peekByte_pos_lt t (i + 2) (by rw [h.2.2]; decide)
  omega

theorem markerAt_cons (b : PLBYTE) (t : List PLBYTE) (i : Nat) :
    markerAt (b :: t) (i + 1) ↔ markerAt t i := by
  simp only [markerAt, Nat.add_right_comm i 1, peekByte_cons_succ]

theorem jpegScan_nil (L : Int) (i0 : Nat) (c : List PLBYTE) :
    jpegScan L i0 c [] =
      if (i0 : Int) < L then .raise .PL_ERREND_OF_FILE ⟨c, []⟩ else .ok false ⟨c, []⟩ := by
  rfl

theorem jpegScan_cons (L : Int) (i0 : Nat) (c : List PLBYTE) (b : PLBYTE) (r : List PLBYTE) :
    jpegScan L i0 c (b :: r) =
      if (i0 : Int) < L then
        if 3 ≤ (b :: r).length then
          if markerAt (b :: r) 0 then .ok true ⟨c, b :: r⟩
          else jpegScan L (i0 + 1) (b :: c) r
        else .raise .PL_ERREND_OF_FILE ⟨c, b :: r⟩
      else .ok false ⟨c, b :: r⟩ := by
  have h : jpegScan L i0 c (b :: r) =
      if (i0 : Int) < L then
        match GetBufferPtr 3 ⟨c, b :: r⟩ with
        | .raise e s => .raise e s
        | .ok pData _ =>
          if peekByte pData 0 = 0xFF ∧ peekByte pData 1 = 0xD8 ∧ peekByte pData 2 = 0xFF then
            .ok true ⟨c, b :: r⟩
          else jpegScan L (i0 + 1) (b :: c) r
      else .ok false ⟨c, b :: r⟩ := by
    delta jpegScan
    rfl
  rw [h]
  by_cases h1 : (i0 : Int) < L
  · rw [if_pos h1, if_pos h1]
    by_cases h2 : 3 ≤ (b :: r).length
    · simp only [GetBufferPtr, if_pos h2, markerAt]
    · simp only [GetBufferPtr, if_neg h2]
  · rw [if_neg h1, if_neg h1]

theorem cursorAt_zero (c t : List PLBYTE) : cursorAt c t 0 = ⟨c, t⟩ := by
  simp [cursorAt]

theorem cursorAt_cons (b : PLBYTE) (c t : List PLBYTE) (k : Nat) :
    cursorAt c (b :: t) (k + 1) = cursorAt (b :: c) t k := by
  simp [cursorAt]

theorem jpegScan_found (L : Int) : ∀ (k i0 : Nat) (c t : List PLBYTE),
    markerAt t k → (∀ j, j < k → ¬ markerAt t j) → ((i0 + k : Nat) : Int) < L →
    jpegScan L i0 c t = .ok true (cursorAt c t k) := by
  intro k
  induction k with
  | zero =>
    intro i0 c t hm _ hL
    have hlen := markerAt_length t 0 hm
    cases t with
    | nil => simp at hlen
    | cons b r =>
      rw [jpegScan_cons, if_pos (by simpa using hL), if_pos hlen, if_pos hm, cursorAt_zero]
  | succ k ih =>
    intro i0 c t hm hmin hL
    have hlen := markerAt_length t (k + 1) hm
    cases t with
    | nil => simp at hlen
    | cons b r =>
      rw [jpegScan_cons, if_pos (by push_cast at hL ⊢; omega), if_pos (by omega),
        if_neg (hmin 0 (by omega)), cursorAt_cons]
      exact ih (i0 + 1) (b :: c) r ((markerAt_cons b r k).1 hm)
        (fun j hj h => hmin (j + 1) (by omega) ((markerAt_cons b r j).2 h))
        (by push_cast at hL ⊢; omega)

theorem jpegScan_none (L : Int) : ∀ (n i0 : Nat) (c t : List PLBYTE),
    (L - (i0 : Int)).toNat = n → (∀ j, j < n → ¬ markerAt t j ∧ j + 3 ≤ t.length) →
    jpegScan L i0 c t = .ok false (cursorAt c t n) := by
  intro n
  induction n with
  | zero =>
    intro i0 c t hn _
    have hL : ¬ (i0 : Int) < L := by omega
    cases t with
    | nil => rw [jpegScan_nil, if_neg hL, cursorAt_zero]
    | cons b r => rw [jpegScan_cons, if_neg hL, cursorAt_zero]
  | succ n ih =>
    intro i0 c t hn hno
    have hL : (i0 : Int) < L := by omega
    obtain ⟨h0, hlen⟩ := hno 0 (by omega)
    cases t with
    | nil => simp at hlen
    | cons b r =>
      rw [jpegScan_cons, if_pos hL, if_pos hlen, if_neg h0, cursorAt_cons]
      refine ih (i0 + 1) (b :: c) r (by push_cast; omega) (fun j hj => ?_)
      obtain ⟨h1, h2⟩ := hno (j + 1) (by omega)
      refine ⟨fun h => h1 ((markerAt_cons b r j).2 h), ?_⟩
      simp only [List.length_cons] at h2
      omega

theorem jpegScan_sound (L : Int) : ∀ (t : List PLBYTE) (i0 : Nat) (c : List PLBYTE)
    (d : PLDataSource), jpegScan L i0 c t = .ok true d →
    ∃ k, ((i0 + k : Nat) : Int) < L ∧ markerAt t k ∧ (∀ j, j < k → ¬ markerAt t j) ∧
      d = cursorAt c t k := by
  intro t
  induction t with
  | nil =>
    intro i0 c d h
    rw [jpegScan_nil] at h
    split_ifs at h
    cases (Res.ok.inj h).1
  | cons b r ih =>
    intro i0 c d h
    rw [jpegScan_cons] at h
    by_cases h1 : (i0 : Int) < L
    · rw [if_pos h1] at h
      by_cases h2 : 3 ≤ (b :: r).length
      · rw [if_pos h2] at h
        by_cases h3 : markerAt (b :: r) 0
        · rw [if_pos h3] at h
          refine ⟨0, by simpa using h1, h3, fun j hj => absurd hj (by omega), ?_⟩
          rw [cursorAt_zero]
          exact (Res.ok.inj h).2.symm
        · rw [if_neg h3] at h
          obtain ⟨k, k1, k2, k3, k4⟩ := ih (i0 + 1) (b :: c) d h
          refine ⟨k + 1, by push_cast at k1 ⊢; omega, (markerAt_cons b r k).2 k2, ?_, ?_⟩
          · intro j hj
            cases j with
            | zero => exact h3
            | succ j => exact fun h => k3 j (by omega) ((markerAt_cons b r j).1 h)
          · rw [cursorAt_cons]
            exact k4
      · rw [if_neg h2] at h
        cases h
    · rw [if_neg h1] at h
      cases (Res.ok.inj h).1

theorem jpegOp_eq (env : Env) (s : PLPictDecoder) (c t : List PLBYTE) (b0 b1 b2 b3 : PLBYTE)
    (hsrc : s.m_pDataSrc = ⟨c, b0 :: b1 :: b2 :: b3 :: t⟩) :
    jpegOp env s =
      match jpegScan (toInt32 (((b0.val * 256 + b1.val) * 256 + b2.val) * 256 + b3.val)) 0
          (b3 :: b2 :: b1 :: b0 :: c) t with
      | .raise e d => .raise e { s with m_pDataSrc := d }
      | .ok false d => .raise .PL_ERRFORMAT_NOT_SUPPORTED { s with m_pDataSrc := d }
      | .ok true d =>
        match env.m_pJPEGDecoder, env.PL_SUPPORT_JPEG with
        | some dec, true =>
          match dec.Open d with
          | .ok info d1 =>
            .ok () { s with m_pDataSrc := d1, bmpInfo := info, m_PictType := .jpeg }
          | .raise e d1 => .raise e { s with m_pDataSrc := d1 }
        | _, _ => .raise .PL_ERRFORMAT_NOT_SUPPORTED { s with m_pDataSrc := d } := by
  simp only [jpegOp, bind_apply, onDataSrc, zoom, hsrc, ReadMLong]
  generalize jpegScan (toInt32 (((b0.val * 256 + b1.val) * 256 + b2.val) * 256 + b3.val)) 0
    (b3 :: b2 :: b1 :: b0 :: c) t = X
  cases X with
  | raise e d => rfl
  | ok b d =>
    cases b with
    | false => rfl
    | true =>
      simp only [if_true]
      cases env.m_pJPEGDecoder with
      | none => cases env.PL_SUPPORT_JPEG <;> rfl
      | some dec =>
        cases env.PL_SUPPORT_JPEG with
        | false => rfl
        | true =>
          simp only [if_true, bind_apply, zoom, modifyState]
          cases dec.Open d <;> rfl

/-- C16: `jpegOp` on a session whose data starts with the four bytes of the
declared length `L`, followed by the data `t`.  If `FF D8 FF` starts at no
offset `i` with `0 ≤ i < L` (and the three bytes at every such offset are in
the data), it raises FormatNotSupported.  If `i` is the smallest offset at
which the marker starts and `i < L`: without a JPEG sub-decoder it raises
FormatNotSupported; with one, the sub-decoder is opened on the cursor exactly
`i` bytes behind the length, and only when that returns does the tag become
`jpeg`.  A raise never changes the tag, and a return implies that the marker
was found below `L` and a sub-decoder was available. -/
theorem jpegOp_marker_search (env : Env) (s : PLPictDecoder) (c t : List PLBYTE)
    (b0 b1 b2 b3 : PLBYTE) (L : Int)
    (hsrc : s.m_pDataSrc = ⟨c, b0 :: b1 :: b2 :: b3 :: t⟩)
    (hL : L = toInt32 (((b0.val * 256 + b1.val) * 256 + b2.val) * 256 + b3.val)) :
    ((∀ i : Nat, (i : Int) < L → ¬ markerAt t i ∧ i + 3 ≤ t.length) →
      jpegOp env s = .raise .PL_ERRFORMAT_NOT_SUPPORTED
        { s with m_pDataSrc := cursorAt (b3 :: b2 :: b1 :: b0 :: c) t L.toNat }) ∧
    (∀ i : Nat, (i : Int) < L → markerAt t i → (∀ j, j < i → ¬ markerAt t j) →
      (env.m_pJPEGDecoder = none ∨ env.PL_SUPPORT_JPEG = false →
        jpegOp env s = .raise .PL_ERRFORMAT_NOT_SUPPORTED
          { s with m_pDataSrc := cursorAt (b3 :: b2 :: b1 :: b0 :: c) t i }) ∧
      (∀ dec, env.m_pJPEGDecoder = some dec → env.PL_SUPPORT_JPEG = true →
        jpegOp env s =
          match dec.Open (cursorAt (b3 :: b2 :: b1 :: b0 :: c) t i) with
          | .ok info d =>
            .ok () { s with m_pDataSrc := d, bmpInfo := info, m_PictType := .jpeg }
          | .raise e d => .raise e { s with m_pDataSrc := d })) ∧
    (∀ e s1, jpegOp env s = .raise e s1 → s1.m_PictType = s.m_PictType) ∧
    (∀ s1, jpegOp env s = .ok () s1 → s1.m_PictType = .jpeg ∧
      ∃ (i : Nat) (dec : PLJPEGDecoder), (i : Int) < L ∧ markerAt t i ∧ (∀ j, j < i → ¬ markerAt t j) ∧
        env.m_pJPEGDecoder = some dec ∧ env.PL_SUPPORT_JPEG = true) := by
  have heq := jpegOp_eq env s c t b0 b1 b2 b3 hsrc
  rw [← hL] at heq
  refine ⟨fun hno => ?_, fun i hi hm hmin => ⟨fun hdec => ?_, fun dec h1 h2 => ?_⟩,
    fun e s1 h => ?_, fun s1 h => ?_⟩
  · have hscan := jpegScan_none L L.toNat 0 (b3 :: b2 :: b1 :: b0 :: c) t (by simp)
      (fun j hj => hno j (by omega))
    rw [heq, hscan]
  · have hscan := jpegScan_found L i 0 (b3 :: b2 :: b1 :: b0 :: c) t hm hmin (by simpa using hi)
    rw [heq, hscan]
    rcases hdec with h | h
    · simp only [h]
    · simp only [h]
      cases env.m_pJPEGDecoder <;> rfl
  · have hscan := jpegScan_found L i 0 (b3 :: b2 :: b1 :: b0 :: c) t hm hmin (by simpa using hi)
    rw [heq, hscan]
    simp only [h1, h2]
  · rw [heq] at h
    revert h
    cases jpegScan L 0 (b3 :: b2 :: b1 :: b0 :: c) t with
    | raise e1 d => intro h; cases h; rfl
    | ok b d =>
      cases b with
      | false => intro h; cases h; rfl
      | true =>
        cases env.m_pJPEGDecoder with
        | none => cases env.PL_SUPPORT_JPEG <;> (intro h; cases h; rfl)
        | some dec =>
          cases env.PL_SUPPORT_JPEG with
          | false => intro h; cases h; rfl
          | true =>
            simp only []
            cases dec.Open d with
            | ok info d1 => intro h; cases h
            | raise e2 d1 => intro h; cases h; rfl
  · rw [heq] at h
    revert h
    cases hscan : jpegScan L 0 (b3 :: b2 :: b1 :: b0 :: c) t with
    | raise e1 d => intro h; cases h
    | ok b d =>
      cases b with
      | false => intro h; cases h
      | true =>
        obtain ⟨k, k1, k2, k3, _⟩ := jpegScan_sound L t 0 _ d hscan
        cases hd : env.m_pJPEGDecoder with
        | none => cases env.PL_SUPPORT_JPEG <;> (intro h; cases h)
        | some dec =>
          cases hj : env.PL_SUPPORT_JPEG with
          | false => intro h; cases h
          | true =>
            simp only []
            cases dec.Open d with
            | ok info d1 =>
              intro h
              cases h
              exact ⟨rfl, k, dec, by simpa using k1, k2, k3, rfl, by simp⟩
            | raise e2 d1 => intro h; cases h

theorem jpegOp_marker_search_witness :
    jpegOp demoEnv (newSession [0, 0, 0, 2, 1, 2, 3, 4]) =
      .raise .PL_ERRFORMAT_NOT_SUPPORTED
        { newSession [0, 0, 0, 2, 1, 2, 3, 4] with
          m_pDataSrc := ⟨[2, 1, 2, 0, 0, 0], [3, 4]⟩ } ∧
    jpegOp demoEnv (newSession [0, 0, 0, 5, 1, 0xFF, 0xD8, 0xFF, 9]) =
      .ok () { newSession [0, 0, 0, 5, 1, 0xFF, 0xD8, 0xFF, 9] with
        m_pDataSrc := ⟨[1, 5, 0, 0, 0], [0xFF, 0xD8, 0xFF, 9]⟩
        bmpInfo := ⟨⟨1, 1⟩, ⟨0, 0⟩, .X8R8G8B8⟩
        m_PictType := .jpeg } :=
  ⟨((jpegOp_marker_search demoEnv (newSession [0, 0, 0, 2, 1, 2, 3, 4]) [] [1, 2, 3, 4]
      0 0 0 2 2 rfl (by decide)).1
      (fun i hi => by
        have h2 : i < 2 := by omega
        interval_cases i <;> decide)).trans (by decide),
   ((((jpegOp_marker_search demoEnv (newSession [0, 0, 0, 5, 1, 0xFF, 0xD8, 0xFF, 9]) []
      [1, 0xFF, 0xD8, 0xFF, 9] 0 0 0 5 5 rfl (by decide)).2.1 1 (by decide) (by decide)
      (by decide)).2 demoJPEGDecoder rfl rfl).trans (by decide))⟩

/-! ### `skipBits` against `unpackbits` -/

theorem Skip_cursorAt (n : Nat) (c t : List PLBYTE) (o : Nat) :
    Skip (n : Int) (cursorAt c t o) = if n ≤ (t.drop o).length then
        .ok () (cursorAt c t (o + n))
      else .raise .PL_ERREND_OF_FILE (cursorAt c t o) := by
  rw [← cursorAt_cursorAt]
  exact Skip_nat_eq n _ _

theorem skipBitsRows_run (r K : Nat) (hK : K = if r > 250 then 2 else 1) :
    ∀ (n : Nat) (c t : List PLBYTE), framedLength K n t ≤ t.length →
      skipBitsRows r n ⟨c, t⟩ = .ok () (cursorAt c t (framedLength K n t)) := by
  intro n
  induction n with
  | zero =>
    intro c t _
    simp [skipBitsRows, framedLength, cursorAt]
  | succ n ih =>
    intro c t h
    rw [framedLength_succ] at h ⊢
    have hlen : (t.drop (K + prefixValue K t)).length = t.length - (K + prefixValue K t) := by
      simp
    have hlen2 : (t.drop K).length = t.length - K := by simp
    have hpre := readPrefix_eq r c t
    rw [← hK] at hpre
    rw [if_pos (show K ≤ t.length by omega)] at hpre
    have hstep : skipBitsRows r (n + 1) ⟨c, t⟩ = skipBitsRows r n
        ⟨(cursorAt c t (K + prefixValue K t)).consumed,
         (cursorAt c t (K + prefixValue K t)).rest⟩ := by
      have hfit : prefixValue K t ≤ (t.drop K).length := by omega
      rw [skipBitsRows]
      by_cases h250 : r > 250
      · rw [if_pos h250] at hpre
        simp only [if_pos h250, bind_apply, hpre, Skip_cursorAt, if_pos hfit]
      · rw [if_neg h250] at hpre
        simp only [if_neg h250, bind_apply, hpre, Skip_cursorAt, if_pos hfit]
    rw [hstep, ih _ _ (by
      show framedLength K n (t.drop (K + prefixValue K t)) ≤ (t.drop (K + prefixValue K t)).length
      omega), cursorAt_cursorAt]
    rfl

theorem unpackbits_eq_rows_all (env : Env) (pBounds : MacRect) (rowBytes pixelSize r : Nat)
    (hps : pixelSize = 1 ∨ pixelSize = 2 ∨ pixelSize = 4 ∨ pixelSize = 8 ∨ pixelSize = 16)
    (hr : r = if (if pixelSize ≤ 8 then rowBytes &&& 0x7fff else rowBytes) = 0 then
        (if pixelSize = 16 then (toWord (pBounds.right - pBounds.left) * 2) % 65536
          else toWord (pBounds.right - pBounds.left))
      else (if pixelSize ≤ 8 then rowBytes &&& 0x7fff else rowBytes)) :
    (unpackbits env pBounds rowBytes pixelSize =
      if r < 8 then
        unpackbitsRawRows env (pBounds.right - pBounds.left) r pixelSize
          (pBounds.bottom - pBounds.top).toNat 0
      else
        unpackbitsPackedRows env (pBounds.right - pBounds.left) r pixelSize
          (if pixelSize = 16 then 2 else 1)
          (if pixelSize = 1 then 8 else if pixelSize = 2 then 4 else if pixelSize = 4 then 2
            else 1)
          (pBounds.bottom - pBounds.top).toNat 0 env.heap) ∧
    skipBits pBounds rowBytes pixelSize =
      if r < 8 then Skip ((r : Int) * (pBounds.bottom - pBounds.top))
      else skipBitsRows r (pBounds.bottom - pBounds.top).toNat := by
  subst hr
  constructor
  · simp only [unpackbits, if_pos hps]
  · simp only [skipBits]

/-- C17: `skipBits` is the consumption-only counterpart of `unpackbits`.  For
bounds of non-negative height, every `rowBytes`, every pixel size in
{1, 2, 4, 8, 16} and every bitmap and data on which `unpackbits` returns,
`skipBits` returns with the cursor at the same place, and run next to the
bitmap it leaves the bitmap as it was. -/
theorem skipBits_follows_unpackbits (env : Env) (pBounds : MacRect) (rowBytes pixelSize : Nat)
    (hH : 0 ≤ pBounds.bottom - pBounds.top)
    (hps : pixelSize = 1 ∨ pixelSize = 2 ∨ pixelSize = 4 ∨ pixelSize = 8 ∨ pixelSize = 16)
    (bmp bmp1 : PLBmp) (d d1 : PLDataSource)
    (h : unpackbits env pBounds rowBytes pixelSize (bmp, d) = .ok () (bmp1, d1)) :
    skipBits pBounds rowBytes pixelSize d = .ok () d1 ∧
    (onSrc (skipBits pBounds rowBytes pixelSize) : M (PLBmp × PLDataSource) Unit) (bmp, d) =
      .ok () (bmp, d1) := by
  have hmain : skipBits pBounds rowBytes pixelSize d = .ok () d1 := by
    obtain ⟨hu, hs⟩ := unpackbits_eq_rows_all env pBounds rowBytes pixelSize _ hps rfl
    generalize (if (if pixelSize ≤ 8 then rowBytes &&& 0x7fff else rowBytes) = 0 then
        (if pixelSize = 16 then (toWord (pBounds.right - pBounds.left) * 2) % 65536
          else toWord (pBounds.right - pBounds.left))
      else (if pixelSize ≤ 8 then rowBytes &&& 0x7fff else rowBytes)) = r at hu hs
    obtain ⟨H, hHeq⟩ : ∃ H : Nat, pBounds.bottom - pBounds.top = (H : Int) :=
      ⟨_, (Int.toNat_of_nonneg hH).symm⟩
    rw [hHeq] at hu hs
    simp only [Int.toNat_ofNat] at hu hs
    rw [hu] at h
    rw [hs]
    obtain ⟨c, t⟩ := d
    by_cases hr : r < 8
    · rw [if_pos hr] at h ⊢
      obtain ⟨hok, herr⟩ := unpackbitsRawRows_run env (pBounds.right - pBounds.left) r pixelSize
        hps H 0 bmp c t
      by_cases hfit : r * H ≤ t.length
      · obtain ⟨bmp2, h1, _, _⟩ := hok hfit
        rw [h1] at h
        have hd : cursorAt c t (r * H) = d1 :=
          (Prod.mk.inj (Res.ok.inj h).2).2
        rw [← Nat.cast_mul, Skip_nat_eq, if_pos hfit, hd]
      · obtain ⟨s, h1⟩ := herr (by omega)
        rw [h1] at h
        cases h
    · rw [if_neg hr] at h ⊢
      obtain ⟨hok, herr⟩ := unpackbitsPackedRows_run env (pBounds.right - pBounds.left) r
        pixelSize (if pixelSize = 16 then 2 else 1)
        (if pixelSize = 1 then 8 else if pixelSize = 2 then 4 else if pixelSize = 4 then 2 else 1)
        hps (if r > 250 then 2 else 1) rfl H 0 env.heap bmp c t
      by_cases hfit : framedLength (if r > 250 then 2 else 1)
          H t ≤ t.length
      · obtain ⟨bmp2, h1, _, _⟩ := hok hfit
        rw [h1] at h
        have hd : cursorAt c t (framedLength (if r > 250 then 2 else 1)
            H t) = d1 := (Prod.mk.inj (Res.ok.inj h).2).2
        rw [skipBitsRows_run r _ rfl _ c t hfit, hd]
      · obtain ⟨s, h1⟩ := herr (by omega)
        rw [h1] at h
        cases h
  refine ⟨hmain, ?_⟩
  simp only [onSrc, zoom, hmain]

theorem skipBits_follows_unpackbits_witness :
    skipBits ⟨0, 0, 2, 8⟩ 250 1 ⟨[], [0x02, 0xFF, 0xAA, 0x01, 0x80, 0x55]⟩ =
      .ok () ⟨[0x80, 0x01, 0xAA, 0xFF, 0x02], [0x55]⟩ ∧
    (onSrc (skipBits ⟨0, 0, 2, 8⟩ 250 1) : M (PLBmp × PLDataSource) Unit)
        (demoBmp, ⟨[], [0x02, 0xFF, 0xAA, 0x01, 0x80, 0x55]⟩) =
      .ok () (demoBmp, ⟨[0x80, 0x01, 0xAA, 0xFF, 0x02], [0x55]⟩) :=
  skipBits_follows_unpackbits demoEnv ⟨0, 0, 2, 8⟩ 250 1 (by decide) (by decide) demoBmp
    (unpackbits demoEnv ⟨0, 0, 2, 8⟩ 250 1
      (demoBmp, ⟨[], [0x02, 0xFF, 0xAA, 0x01, 0x80, 0x55]⟩)).state.1
    ⟨[], [0x02, 0xFF, 0xAA, 0x01, 0x80, 0x55]⟩ ⟨[0x80, 0x01, 0xAA, 0xFF, 0x02], [0x55]⟩ rfl

/-! ### Size of a colour table -/

theorem readColourTableLoop_device_ok (ctFlags NumColors : Nat) (hdev : ctFlags &&& 0x8000 ≠ 0)
    (hN : NumColors ≤ 65536) :
    ∀ (n i : Nat) (pal : Palette) (c rest : List PLBYTE), i + n ≤ NumColors →
      8 * n ≤ rest.length →
      ∃ st1, readColourTableLoop ctFlags NumColors n i (pal, ⟨c, rest⟩) = .ok () st1 := by
  intro n
  induction n with
  | zero => intro i pal c rest _ _; exact ⟨_, rfl⟩
  | succ n ih =>
    intro i pal c rest hi hlen
    have hmod : i % 65536 = i := Nat.mod_eq_of_lt (by omega)
    rcases list_eight_or_short rest with hs | ⟨i0, i1, r0, r1, g0, g1, b0, b1, t, rfl⟩
    · omega
    · rw [readColourTableLoop_entry ctFlags NumColors n i (i % 65536) pal c t i0 i1 r0 r1 g0 g1
        b0 b1 (by rw [if_pos hdev]), hmod, if_neg (by omega)]
      exact ih (i + 1) _ _ t (by omega) (by simp only [List.length_cons] at hlen; omega)

theorem ctEntries_replicate (b : PLBYTE) : ∀ (n m : Nat) (e : CTEntry),
    e ∈ ctEntries n (List.replicate m b) →
      e = ⟨b.val * 256 + b.val, b.val * 256 + b.val, b.val * 256 + b.val,
        b.val * 256 + b.val⟩ := by
  intro n
  induction n with
  | zero => intro m e h; rw [ctEntries_zero] at h; simp at h
  | succ n ih =>
    intro m e h
    obtain hm | ⟨k, rfl⟩ : m < 8 ∨ ∃ k, m = k + 8 := by
      by_cases hm : m < 8
      · exact Or.inl hm
      · exact Or.inr ⟨m - 8, by omega⟩
    · interval_cases m <;> simp [ctEntries, List.replicate] at h
    · have hrep : List.replicate (k + 8) b =
          b :: b :: b :: b :: b :: b :: b :: b :: List.replicate k b := rfl
      rw [hrep, ctEntries_cons, List.mem_cons] at h
      rcases h with h | h
      · exact h
      · exact ih k e h

/-- C18: a colour table whose count word is `0x0100`, with the device flag
set and 257 complete entries, is accepted: `readColourTable` returns 257, and
it has written palette slot 256, one past the 256 slots of the array that its
caller `DecodePixmap` passes (`PLPixel32 Pal[256]`). -/
theorem readColourTable_accepts_257_entries :
    ∃ st1, readColourTable (demoBmp.palette,
        ⟨[], 0 :: 0 :: 0 :: 0 :: 0x80 :: 0x00 :: 0x01 :: 0x00 ::
          List.replicate (257 * 8) 0xAB⟩) = .ok 257 st1 ∧
      demoBmp.palette 256 = ⟨0, 0, 0, 0⟩ ∧ st1.1 256 = ⟨0xAB, 0xAB, 0xAB, 0⟩ := by
  have hdev : ((0x80 : PLBYTE).val * 256 + (0x00 : PLBYTE).val) &&& 0x8000 ≠ 0 := by decide
  have hN : ((0x01 : PLBYTE).val * 256 + (0x00 : PLBYTE).val + 1) % 65536 = 257 := by decide
  have heq := readColourTable_eq_loop demoBmp.palette [] (List.replicate (257 * 8) 0xAB)
    0 0 0 0 0x80 0x00 0x01 0x00
  rw [hN] at heq
  obtain ⟨st1, hst⟩ := readColourTableLoop_device_ok
    ((0x80 : PLBYTE).val * 256 + (0x00 : PLBYTE).val) 257 hdev (by omega) 257 0
    demoBmp.palette [0x00, 0x01, 0x00, 0x80, 0, 0, 0, 0] (List.replicate (257 * 8) 0xAB)
    (by omega) (by rw [List.length_replicate])
  obtain ⟨hlen, hpal, _⟩ := readColourTableLoop_ok
    ((0x80 : PLBYTE).val * 256 + (0x00 : PLBYTE).val) 257 257 0
    demoBmp.palette [0x00, 0x01, 0x00, 0x80, 0, 0, 0, 0] (List.replicate (257 * 8) 0xAB) () st1
    (by omega) hst
  refine ⟨st1, ?_, rfl, ?_⟩
  · rw [heq, hst]
  · have hlt : 256 < (ctEntries 257 (List.replicate (257 * 8) (0xAB : PLBYTE))).length := by
      rw [hlen]; omega
    have hget : (ctEntries 257 (List.replicate (257 * 8) (0xAB : PLBYTE)))[256]? =
        some ((ctEntries 257 (List.replicate (257 * 8) (0xAB : PLBYTE)))[256]) :=
      List.getElem?_eq_getElem hlt
    have he := ctEntries_replicate 0xAB 257 (257 * 8) _ (List.getElem_mem hlt)
    rw [he] at hget
    have hslot := specPalette_device_slot _ 0 demoBmp.palette 256 _ hget
    rw [hpal, decide_eq_true hdev]
    rw [Nat.zero_add] at hslot
    rw [hslot]
    decide

/-! ### The zero bytes before the version bytes -/

theorem dropWhile_zero_replicate (k : Nat) (t : List PLBYTE) :
    (List.replicate k (0 : PLBYTE) ++ t).dropWhile (fun b => decide (b.val = 0)) =
      t.dropWhile (fun b => decide (b.val = 0)) := by
  induction k with
  | zero => rfl
  | succ k ih =>
    rw [List.replicate_succ, List.cons_append, List.dropWhile_cons]
    simp

theorem readHeader_zero_run (c hd t : List PLBYTE) (hlen : hd.length = 10) (k : Nat) :
    (readHeader ⟨c, hd ++ (List.replicate k 0 ++ t)⟩).value = (readHeader ⟨c, hd ++ t⟩).value ∧
    (readHeader ⟨c, hd ++ (List.replicate k 0 ++ t)⟩).error = (readHeader ⟨c, hd ++ t⟩).error := by
  obtain ⟨c1, h1⟩ := readHeader_after_frame c hd (List.replicate k 0 ++ t) hlen
  obtain ⟨c2, h2⟩ := readHeader_after_frame c hd t hlen
  rw [dropWhile_zero_replicate] at h1
  rw [h1, h2]
  cases t.dropWhile (fun b => decide (b.val = 0)) with
  | nil => exact ⟨rfl, rfl⟩
  | cons b r =>
    simp only []
    by_cases hb : b.val ≠ 0x11
    · rw [if_pos hb, if_pos hb]; exact ⟨rfl, rfl⟩
    · rw [if_neg hb, if_neg hb]
      cases r with
      | nil => exact ⟨rfl, rfl⟩
      | cons v r2 =>
        simp only []
        by_cases hv1 : v.val = 1
        · rw [if_pos hv1, if_pos hv1]; exact ⟨rfl, rfl⟩
        · rw [if_neg hv1, if_neg hv1]
          by_cases hv2 : v.val = 2
          · rw [if_pos hv2, if_pos hv2]
            cases r2 with
            | nil => exact ⟨rfl, rfl⟩
            | cons x r3 =>
              simp only []
              by_cases hx : x.val ≠ 0xff
              · rw [if_pos hx, if_pos hx]; exact ⟨rfl, rfl⟩
              · rw [if_neg hx, if_neg hx]; exact ⟨rfl, rfl⟩
          · rw [if_neg hv2, if_neg hv2]; exact ⟨rfl, rfl⟩

/-- C19 as stated fails: no bound `B` makes `readHeader` raise
`PL_ERRWRONG_SIGNATURE` on every input with more than `B` zero bytes after the
bounding rectangle, since `B + 1` zero bytes followed by `0x11, 1` are read as
a version-1 header. -/
theorem readHeader_zero_run_has_no_bound :
    ¬ ∃ B : Nat, ∀ (k : Nat) (t : List PLBYTE), B < k →
      (readHeader ⟨[], List.replicate 10 0 ++ (List.replicate k 0 ++ t)⟩).error =
        some .PL_ERRWRONG_SIGNATURE := by
  rintro ⟨B, hB⟩
  have h1 := hB (B + 1) [0x11, 1] (by omega)
  have h2 := (readHeader_zero_run [] (List.replicate 10 0) [0x11, 1] (by simp) (B + 1)).2
  rw [h2] at h1
  revert h1
  decide

/-- C19 (amended): the search for the version byte `0x11` in `readHeader`
has no bound.  After the picture-size word and the bounding rectangle (`hd`,
10 bytes), `readHeader` skips every zero byte, however many there are: on `k`
zero bytes followed by `t` it returns the version, or raises the error, that
it returns or raises on `t` alone.  So `k` zero bytes followed by `0x11, 1`
give version 1 for every `k`, and `k` zero bytes with nothing behind them raise
the end-of-file error of the data source, not `PL_ERRWRONG_SIGNATURE`. -/
theorem readHeader_skips_every_zero_run (c hd t : List PLBYTE) (hlen : hd.length = 10)
    (k : Nat) :
    (readHeader ⟨c, hd ++ (List.replicate k 0 ++ t)⟩).value = (readHeader ⟨c, hd ++ t⟩).value ∧
    (readHeader ⟨c, hd ++ (List.replicate k 0 ++ t)⟩).error = (readHeader ⟨c, hd ++ t⟩).error ∧
    (∀ r, t = 0x11 :: 1 :: r →
      (readHeader ⟨c, hd ++ (List.replicate k 0 ++ t)⟩).value = some 1) ∧
    (t = [] →
      (readHeader ⟨c, hd ++ (List.replicate k 0 ++ t)⟩).error = some .PL_ERREND_OF_FILE) := by
  obtain ⟨h1, h2⟩ := readHeader_zero_run c hd t hlen k
  refine ⟨h1, h2, fun r hr => ?_, fun ht => ?_⟩
  · rw [h1, hr]
    obtain ⟨c1, h3⟩ := readHeader_after_frame c hd (0x11 :: 1 :: r) hlen
    rw [h3]
    rfl
  · rw [h2, ht]
    obtain ⟨c1, h3⟩ := readHeader_after_frame c hd [] hlen
    rw [h3]
    rfl

theorem readHeader_skips_every_zero_run_witness :
    (readHeader ⟨[], [0, 0, 0, 0, 0, 0, 0, 1, 0, 1] ++
      (List.replicate 300 0 ++ [0x11, 1, 0xA0])⟩).value = some 1 ∧
    (readHeader ⟨[], [0, 0, 0, 0, 0, 0, 0, 1, 0, 1] ++ (List.replicate 300 0 ++ [])⟩).error =
      some .PL_ERREND_OF_FILE :=
  ⟨(readHeader_skips_every_zero_run [] [0, 0, 0, 0, 0, 0, 0, 1, 0, 1] [0x11, 1, 0xA0] rfl
      300).2.2.1 [0xA0] rfl,
   (readHeader_skips_every_zero_run [] [0, 0, 0, 0, 0, 0, 0, 1, 0, 1] [] rfl 300).2.2.2 rfl⟩

/-! ### Pixel sizes that the unpackers reject -/

/-! ### The overload bit of `rowBytes` -/

theorem interpretOpcode_reserved (env : Env) (Version : Nat) (s s1 : PLPictDecoder) (op : Nat)
    (hop : onDataSrc (readOpcode Version) s = .ok op s1)
    (h1 : ¬ (op = 0xFF ∨ op = 0xFFFF)) (h2 : ¬ op < 0xa2) (h3 : ¬ op = 0xc00)
    (h4 : ¬ op = 0x8200) (h5 : ¬ (op ≥ 0xa2 ∧ op ≤ 0xaf))
    (h6 : ¬ ((op ≥ 0xb0 ∧ op ≤ 0xcf) ∨ (op ≥ 0x8000 ∧ op ≤ 0x80ff))) :
    interpretOpcode env Version s =
      if (op ≥ 0xd0 ∧ op ≤ 0xfe) ∨ op ≥ 8100 then
        match ReadMLong s1.m_pDataSrc with
        | .raise e d => .raise e { s1 with m_pDataSrc := d }
        | .ok n d =>
          match Skip n d with
          | .ok _ d2 => .ok (op, false) { s1 with m_pDataSrc := d2 }
          | .raise e d2 => .raise e { s1 with m_pDataSrc := d2 }
      else if op ≥ 0x100 ∧ op ≤ 0x7fff then
        match Skip (((op >>> 7) &&& 255 : Nat) : Int) s1.m_pDataSrc with
        | .ok _ d2 => .ok (op, false) { s1 with m_pDataSrc := d2 }
        | .raise e d2 => .raise e { s1 with m_pDataSrc := d2 }
      else .raise .PL_ERRFORMAT_UNKNOWN s1 := by
  unfold interpretOpcode
  rw [bind_apply, hop]
  simp only [if_neg h1, if_neg h2, if_neg h3, if_neg h4, if_neg h5, if_neg h6]
  by_cases c7 : (op ≥ 0xd0 ∧ op ≤ 0xfe) ∨ op ≥ 8100
  · simp only [if_pos c7, bind_apply, onDataSrc, zoom, pure_apply]
    cases ReadMLong s1.m_pDataSrc with
    | raise e d => rfl
    | ok n d =>
      simp only []
      cases Skip n d <;> rfl
  · simp only [if_neg c7]
    by_cases c8 : op ≥ 0x100 ∧ op ≤ 0x7fff
    · simp only [if_pos c8, bind_apply, onDataSrc, zoom, pure_apply]
      cases Skip (((op >>> 7) &&& 255 : Nat) : Int) s1.m_pDataSrc <;> rfl
    · simp only [if_neg c8, raiseError_apply]

/-- C24: the long-length branch of `interpretOpcodes` uses the decimal bound
8100.  For an opcode `op` that no earlier branch takes (not `0xFF`/`0xFFFF`,
not below `0xa2`, not `0xc00`, not `0x8200`, not in `0xa2..0xcf`, not in
`0x8000..0x80ff`): if `op` is in `0xd0..0xfe` or `op ≥ 8100`, the pass reads a
4-byte length and skips that many bytes; otherwise it reads no length and
skips `(op >> 7) & 255` bytes.  Either way the loop goes on. -/
theorem interpretOpcode_long_length_bound_8100 (env : Env) (Version : Nat)
    (s s1 : PLPictDecoder) (op : Nat)
    (hop : onDataSrc (readOpcode Version) s = .ok op s1)
    (h1 : ¬ (op = 0xFF ∨ op = 0xFFFF)) (h2 : ¬ op < 0xa2) (h3 : op ≠ 0xc00)
    (h4 : op ≠ 0x8200) (h5 : ¬ (0xa2 ≤ op ∧ op ≤ 0xcf))
    (h6 : ¬ (0x8000 ≤ op ∧ op ≤ 0x80ff)) :
    (((0xd0 ≤ op ∧ op ≤ 0xfe) ∨ 8100 ≤ op) →
      interpretOpcode env Version s =
        match ReadMLong s1.m_pDataSrc with
        | .raise e d => .raise e { s1 with m_pDataSrc := d }
        | .ok n d =>
          match Skip n d with
          | .ok _ d2 => .ok (op, false) { s1 with m_pDataSrc := d2 }
          | .raise e d2 => .raise e { s1 with m_pDataSrc := d2 }) ∧
    (¬ ((0xd0 ≤ op ∧ op ≤ 0xfe) ∨ 8100 ≤ op) →
      interpretOpcode env Version s =
        match Skip (((op >>> 7) &&& 255 : Nat) : Int) s1.m_pDataSrc with
        | .ok _ d2 => .ok (op, false) { s1 with m_pDataSrc := d2 }
        | .raise e d2 => .raise e { s1 with m_pDataSrc := d2 }) := by
  have hr := interpretOpcode_reserved env Version s s1 op hop h1 h2 h3 h4 (by omega) (by omega)
  constructor
  · intro hc
    rw [hr, if_pos (by omega)]
  · intro hc
    rw [hr, if_neg (by omega), if_pos (by omega)]

theorem interpretOpcode_long_length_bound_8100_witness :
    interpretOpcode demoEnv 2 (newSession [0x1F, 0xA4, 0, 0, 0, 1, 0xAA, 0xBB]) =
      .ok (8100, false) { newSession [0x1F, 0xA4, 0, 0, 0, 1, 0xAA, 0xBB] with
        m_pDataSrc := ⟨[0xAA, 1, 0, 0, 0, 0xA4, 0x1F], [0xBB]⟩ } ∧
    (interpretOpcode demoEnv 2 (newSession ([0x1F, 0xA3] ++ List.replicate 63 0 ++ [0xBB]))).value
      = some (8099, false) ∧
    (interpretOpcode demoEnv 2
      (newSession ([0x1F, 0xA3] ++ List.replicate 63 0 ++ [0xBB]))).state.m_pDataSrc.rest =
        [0xBB] :=
  ⟨((interpretOpcode_long_length_bound_8100 demoEnv 2
      (newSession [0x1F, 0xA4, 0, 0, 0, 1, 0xAA, 0xBB])
      { newSession [0x1F, 0xA4, 0, 0, 0, 1, 0xAA, 0xBB] with
        m_pDataSrc := ⟨[0xA4, 0x1F], [0, 0, 0, 1, 0xAA, 0xBB]⟩ } 8100 (by decide)
      (by decide) (by decide) (by decide) (by decide) (by decide) (by decide)).1
      (by decide)).trans (by decide),
   (congrArg Res.value ((interpretOpcode_long_length_bound_8100 demoEnv 2
      (newSession ([0x1F, 0xA3] ++ List.replicate 63 0 ++ [0xBB]))
      { newSession ([0x1F, 0xA3] ++ List.replicate 63 0 ++ [0xBB]) with
        m_pDataSrc := ⟨[0xA3, 0x1F], List.replicate 63 0 ++ [0xBB]⟩ } 8099 (by decide)
      (by decide) (by decide) (by decide) (by decide) (by decide) (by decide)).2
      (by decide))).trans (by decide),
   by decide⟩

/-- C23: the version-2 opcode `0x2000` lies in `0x100..0x7fff`, and
`(0x2000 >> 7) & 255 = 64`, but the pass of `interpretOpcodes` that reads it
takes the branch `Opcode >= 8100`: on `20 00 00 00 00 01` followed by 64 bytes
it reads the long `1` as a length and skips one byte, leaving the cursor 7
bytes into the data and not 66. -/
theorem interpretOpcode_0x2000_reads_long_length :
    (0x100 ≤ 0x2000 ∧ 0x2000 ≤ 0x7fff ∧ 0x2000 ≠ 0xc00 ∧ (0x2000 >>> 7) &&& 255 = 64) ∧
    interpretOpcode demoEnv 2
        (newSession ([0x20, 0x00, 0, 0, 0, 1] ++ List.replicate 64 0xAA)) =
      .ok (0x2000, false)
        { newSession ([0x20, 0x00, 0, 0, 0, 1] ++ List.replicate 64 0xAA) with
          m_pDataSrc := ⟨[0xAA, 1, 0, 0, 0, 0x00, 0x20], List.replicate 63 0xAA⟩ } := by
  decide

/-! ### Exhaustive dispatch -/

theorem readOpcode_lt (Version : Nat) (d d1 : PLDataSource) (op : Nat)
    (h : readOpcode Version d = .ok op d1) : op < 65536 := by
  have hB : ∀ (d0 : PLDataSource), ReadByte d0 = .ok op d1 → op < 65536 := by
    intro d0 h0
    simp only [ReadByte] at h0
    cases hr : d0.rest with
    | nil => rw [hr] at h0; cases h0
    | cons b r =>
      rw [hr] at h0
      have := (Res.ok.inj h0).1
      have hb := b.isLt
      omega
  have hW : ∀ (d0 : PLDataSource), ReadMWord d0 = .ok op d1 → op < 65536 := by
    intro d0 h0
    simp only [ReadMWord] at h0
    match hr : d0.rest with
    | [] => rw [hr] at h0; cases h0
    | [_] => rw [hr] at h0; cases h0
    | b0 :: b1 :: r =>
      rw [hr] at h0
      have := (Res.ok.inj h0).1
      have h0 := b0.isLt
      have h1 := b1.isLt
      omega
  simp only [readOpcode, bind_apply] at h
  by_cases hv2 : Version = 2
  · rw [if_pos hv2, if_neg (by omega)] at h
    rw [bind_apply] at h
    cases ha : AlignToWord d with
    | raise e d0 => rw [ha] at h; cases h
    | ok u d0 => rw [ha] at h; exact hW d0 h
  · rw [if_neg hv2] at h
    rw [bind_apply, pure_apply] at h
    by_cases hv1 : Version = 1
    · rw [if_pos hv1] at h; exact hB d h
    · rw [if_neg hv1] at h; exact hW d h

/-- C30: the opcode dispatch of `interpretOpcodes` is exhaustive.  The loop
body is `interpretOpcodeElse` with the raise of `PL_ERRFORMAT_UNKNOWN` as its
final `else`, and whatever is put in the place of that final `else` the loop
body behaves the same on every session: every opcode that `readOpcode`
returns (a byte in version 1, a 16-bit word otherwise) is taken by an earlier
branch. -/
theorem interpretOpcode_dispatch_exhaustive (env : Env) (Version : Nat) :
    interpretOpcode env Version =
      interpretOpcodeElse env Version (raiseError .PL_ERRFORMAT_UNKNOWN) ∧
    ∀ (last1 last2 : M PLPictDecoder (Nat × Bool)) (s : PLPictDecoder),
      interpretOpcodeElse env Version last1 s = interpretOpcodeElse env Version last2 s := by
  refine ⟨rfl, fun last1 last2 s => ?_⟩
  unfold interpretOpcodeElse
  rw [bind_apply, bind_apply]
  cases hr : onDataSrc (readOpcode Version) s with
  | raise e s0 => rfl
  | ok op s0 =>
    have hlt : op < 65536 := by
      simp only [onDataSrc, zoom] at hr
      cases hd : readOpcode Version s.m_pDataSrc with
      | raise e d1 => rw [hd] at hr; cases hr
      | ok a d1 =>
        rw [hd] at hr
        have := (Res.ok.inj hr).1
        rw [← this]
        exact readOpcode_lt Version _ _ _ hd
    simp only []
    by_cases c1 : op = 0xFF ∨ op = 0xFFFF
    · rw [if_pos c1, if_pos c1]
    rw [if_neg c1, if_neg c1]
    by_cases c2 : op < 0xa2
    · rw [if_pos c2, if_pos c2]
    rw [if_neg c2, if_neg c2]
    by_cases c3 : op = 0xc00
    · rw [if_pos c3, if_pos c3]
    rw [if_neg c3, if_neg c3]
    by_cases c4 : op = 0x8200
    · rw [if_pos c4, if_pos c4]
    rw [if_neg c4, if_neg c4]
    by_cases c5 : op ≥ 0xa2 ∧ op ≤ 0xaf
    · rw [if_pos c5, if_pos c5]
    rw [if_neg c5, if_neg c5]
    by_cases c6 : (op ≥ 0xb0 ∧ op ≤ 0xcf) ∨ (op ≥ 0x8000 ∧ op ≤ 0x80ff)
    · rw [if_pos c6, if_pos c6]
    rw [if_neg c6, if_neg c6]
    by_cases c7 : (op ≥ 0xd0 ∧ op ≤ 0xfe) ∨ op ≥ 8100
    · rw [if_pos c7, if_pos c7]
    rw [if_neg c7, if_neg c7]
    have c8 : op ≥ 0x100 ∧ op ≤ 0x7fff := by omega
    rw [if_pos c8, if_pos c8]

/-! ### Raster metadata across non-terminal opcodes -/

theorem interpretOpcode_frame {β : Type} (f : PLPictDecoder → β)
    (hsrc : ∀ s d, f { s with m_pDataSrc := d } = f s)
    (hres : ∀ s r, f { s with m_Resolution := r } = f s)
    (env : Env) (Version : Nat) (s s0 : PLPictDecoder) (op : Nat)
    (hop : onDataSrc (readOpcode Version) s = .ok op s0)
    (hnt : op ≠ 0x90 ∧ op ≠ 0x91 ∧ op ≠ 0x98 ∧ op ≠ 0x99 ∧ op ≠ 0x9a ∧ op ≠ 0x8200) :
    f (interpretOpcode env Version s).state = f s := by
  have h0 := keeps_onDataSrc f hsrc (readOpcode Version) s
  rw [hop] at h0
  simp only [Res.state] at h0
  unfold interpretOpcode
  rw [bind_apply, hop, ← h0]
  simp only []
  have hD : ∀ {α : Type} (m : M PLDataSource α), Keeps f (onDataSrc m) :=
    fun m => keeps_onDataSrc f hsrc m
  have hP : ∀ {α : Type} (m : M PLPictDecoder α), Keeps f m →
      Keeps f (m >>= fun _ => (pure (op, false) : M PLPictDecoder (Nat × Bool))) :=
    fun m hm => keeps_bind f m _ hm (fun _ => keeps_pure f _)
  by_cases c1 : op = 0xFF ∨ op = 0xFFFF
  · rw [if_pos c1]; rfl
  rw [if_neg c1]
  by_cases c2 : op < 0xa2
  · rw [if_pos c2]
    by_cases c3 : op = 0x01
    · rw [if_pos c3]; exact hP _ (hD _) s0
    rw [if_neg c3]
    by_cases c4 : op = 0x12 ∨ op = 0x13 ∨ op = 0x14
    · rw [if_pos c4]; exact hP _ (hD _) s0
    rw [if_neg c4]
    by_cases c5 : 0x70 ≤ op ∧ op ≤ 0x77
    · rw [if_pos c5]; exact hP _ (hD _) s0
    rw [if_neg c5, if_neg (by omega), if_neg (by omega), if_neg (by omega)]
    by_cases c9 : op = 0xa1
    · rw [if_pos c9]; exact hP _ (hD _) s0
    rw [if_neg c9]
    by_cases c10 : (env.optable op).len = env.WORD_LEN
    · rw [if_pos c10]
      exact keeps_bind f _ _ (hD ReadMWord)
        (fun n => keeps_bind f _ _ (hD (Skip (n : Int)))
          (fun _ => keeps_pure f (op, false))) s0
    rw [if_neg c10]
    exact hP _ (hD _) s0
  rw [if_neg c2]
  by_cases d1 : op = 0xc00
  · rw [if_pos d1]; exact hP _ (keeps_headerOp f hsrc hres) s0
  rw [if_neg d1, if_neg (by omega)]
  by_cases d3 : op ≥ 0xa2 ∧ op ≤ 0xaf
  · rw [if_pos d3]
    exact keeps_bind f _ _ (hD ReadMWord)
      (fun n => keeps_bind f _ _ (hD (Skip (n : Int)))
        (fun _ => keeps_pure f (op, false))) s0
  rw [if_neg d3]
  by_cases d4 : (op ≥ 0xb0 ∧ op ≤ 0xcf) ∨ (op ≥ 0x8000 ∧ op ≤ 0x80ff)
  · rw [if_pos d4]; rfl
  rw [if_neg d4]
  by_cases d5 : (op ≥ 0xd0 ∧ op ≤ 0xfe) ∨ op ≥ 8100
  · rw [if_pos d5]
    exact keeps_bind f _ _ (hD ReadMLong)
      (fun n => keeps_bind f _ _ (hD (Skip n))
        (fun _ => keeps_pure f (op, false))) s0
  rw [if_neg d5]
  by_cases d6 : op ≥ 0x100 ∧ op ≤ 0x7fff
  · rw [if_pos d6]; exact hP _ (hD _) s0
  rw [if_neg d6]
  rfl

/-! ### Reads at a cursor position -/

theorem peekByte_drop (t : List PLBYTE) (o k : Nat) :
    peekByte (t.drop o) k = peekByte t (o + k) := by
  simp [peekByte, List.getElem?_drop]

theorem ReadMWord_at (c t : List PLBYTE) (h : 2 ≤ t.length) :
    ReadMWord ⟨c, t⟩ = .ok (peekByte t 0 * 256 + peekByte t 1) (cursorAt c t 2) := by
  match t, h with
  | b0 :: b1 :: r, _ => simp [ReadMWord, cursorAt, peekByte]

theorem ReadMLong_at (c t : List PLBYTE) (h : 4 ≤ t.length) :
    ReadMLong ⟨c, t⟩ =
      .ok (toInt32 (((peekByte t 0 * 256 + peekByte t 1) * 256 + peekByte t 2) * 256 +
        peekByte t 3)) (cursorAt c t 4) := by
  match t, h with
  | b0 :: b1 :: b2 :: b3 :: r, _ => simp [ReadMLong, cursorAt, peekByte]

theorem ReadMWord_cursorAt (c t : List PLBYTE) (o : Nat) (h : o + 2 ≤ t.length) :
    ReadMWord (cursorAt c t o) =
      .ok (peekByte t o * 256 + peekByte t (o + 1)) (cursorAt c t (o + 2)) := by
  have := ReadMWord_at (cursorAt c t o).consumed (cursorAt c t o).rest
    (by simp [cursorAt]; omega)
  rw [cursorAt_cursorAt] at this
  simp only [cursorAt, peekByte_drop, Nat.add_zero] at this ⊢
  exact this

theorem ReadMLong_cursorAt (c t : List PLBYTE) (o : Nat) (h : o + 4 ≤ t.length) :
    ReadMLong (cursorAt c t o) =
      .ok (toInt32 (((peekByte t o * 256 + peekByte t (o + 1)) * 256 + peekByte t (o + 2)) * 256
        + peekByte t (o + 3))) (cursorAt c t (o + 4)) := by
  have := ReadMLong_at (cursorAt c t o).consumed (cursorAt c t o).rest
    (by simp [cursorAt]; omega)
  rw [cursorAt_cursorAt] at this
  simp only [cursorAt, peekByte_drop, Nat.add_zero] at this ⊢
  exact this

theorem Skip_cursorAt_ok (n : Nat) (c t : List PLBYTE) (o : Nat) (h : o + n ≤ t.length) :
    Skip (n : Int) (cursorAt c t o) = .ok () (cursorAt c t (o + n)) := by
  rw [Skip_cursorAt, if_pos (by simp; omega)]

theorem readRect_cursorAt (c t : List PLBYTE) (o : Nat) (h : o + 8 ≤ t.length) :
    readRect (cursorAt c t o) =
      .ok ⟨toInt16 (peekByte t o * 256 + peekByte t (o + 1)),
        toInt16 (peekByte t (o + 2) * 256 + peekByte t (o + 3)),
        toInt16 (peekByte t (o + 4) * 256 + peekByte t (o + 5)),
        toInt16 (peekByte t (o + 6) * 256 + peekByte t (o + 7))⟩ (cursorAt c t (o + 8)) := by
  simp only [readRect, bind_apply, pure_apply,
    ReadMWord_cursorAt c t o (by omega), ReadMWord_cursorAt c t (o + 2) (by omega),
    ReadMWord_cursorAt c t (o + 2 + 2) (by omega),
    ReadMWord_cursorAt c t (o + 2 + 2 + 2) (by omega)]

theorem readPixmap_cursorAt (p : MacpixMap) (c t : List PLBYTE) (o : Nat)
    (h : o + 36 ≤ t.length) :
    ∃ p1, readPixmap p (cursorAt c t o) = .ok p1 (cursorAt c t (o + 36)) ∧
      p1.Bounds = p.Bounds ∧
      p1.pixelSize = peekByte t (o + 18) * 256 + peekByte t (o + 19) ∧
      p1.cmpCount = peekByte t (o + 20) * 256 + peekByte t (o + 21) ∧
      p1.hRes = peekByte t (o + 8) * 256 + peekByte t (o + 9) ∧
      p1.vRes = peekByte t (o + 12) * 256 + peekByte t (o + 13) := by
  simp only [readPixmap, bind_apply, pure_apply,
    ReadMWord_cursorAt c t o (by omega), ReadMWord_cursorAt c t (o + 2) (by omega),
    ReadMLong_cursorAt c t (o + 2 + 2) (by omega),
    ReadMWord_cursorAt c t (o + 2 + 2 + 4) (by omega),
    ReadMWord_cursorAt c t (o + 2 + 2 + 4 + 2) (by omega),
    ReadMWord_cursorAt c t (o + 2 + 2 + 4 + 2 + 2) (by omega),
    ReadMWord_cursorAt c t (o + 2 + 2 + 4 + 2 + 2 + 2) (by omega),
    ReadMWord_cursorAt c t (o + 2 + 2 + 4 + 2 + 2 + 2 + 2) (by omega),
    ReadMWord_cursorAt c t (o + 2 + 2 + 4 + 2 + 2 + 2 + 2 + 2) (by omega),
    ReadMWord_cursorAt c t (o + 2 + 2 + 4 + 2 + 2 + 2 + 2 + 2 + 2) (by omega),
    ReadMWord_cursorAt c t (o + 2 + 2 + 4 + 2 + 2 + 2 + 2 + 2 + 2 + 2) (by omega),
    ReadMLong_cursorAt c t (o + 2 + 2 + 4 + 2 + 2 + 2 + 2 + 2 + 2 + 2 + 2) (by omega),
    ReadMLong_cursorAt c t (o + 2 + 2 + 4 + 2 + 2 + 2 + 2 + 2 + 2 + 2 + 2 + 4) (by omega),
    ReadMLong_cursorAt c t (o + 2 + 2 + 4 + 2 + 2 + 2 + 2 + 2 + 2 + 2 + 2 + 4 + 4) (by omega)]
  exact ⟨_, rfl, rfl, by simp only [Nat.add_assoc], by simp only [Nat.add_assoc],
    by simp only [Nat.add_assoc], by simp only [Nat.add_assoc]⟩

/-! ### `bitsRect` and `bitsRegion` -/

theorem bits_eq (region : Bool) (s : PLPictDecoder) (c t : List PLBYTE) (b0 b1 : PLBYTE)
    (hsrc : s.m_pDataSrc = ⟨c, b0 :: b1 :: t⟩) :
    (if region then bitsRegion else bitsRect) s =
      (if (b0.val * 256 + b1.val) &&& 0x8000 ≠ 0 then doPixmap else doBitmap)
        { s with m_pDataSrc := ⟨b1 :: b0 :: c, t⟩, m_rowBytes := b0.val * 256 + b1.val,
                 m_bIsRegion := region } := by
  cases region with
  | false =>
    simp only [Bool.false_eq_true, if_false, bitsRect, bind_apply, onDataSrc, zoom, hsrc,
      ReadMWord, modifyState]
  | true =>
    simp only [if_true, bitsRegion, bind_apply, onDataSrc, zoom, hsrc, ReadMWord, modifyState]

theorem word_top_bit (b0 b1 : PLBYTE) :
    ((b0.val * 256 + b1.val) &&& 0x8000 ≠ 0) ↔ 0x8000 ≤ b0.val * 256 + b1.val := by
  rw [and_0x8000_ne_zero_iff]
  have h0 := b0.isLt
  have h1 := b1.isLt
  omega

theorem doPixmap_returns (s : PLPictDecoder) (c t : List PLBYTE)
    (hsrc : s.m_pDataSrc = ⟨c, t⟩) (hlen : 44 ≤ t.length) :
    ∃ s1, doPixmap s = .ok () s1 ∧ s1.m_pDataSrc = cursorAt c t 44 := by
  have h0 : s.m_pDataSrc = cursorAt c t 0 := by rw [hsrc, cursorAt_zero]
  obtain ⟨p1, hp, _⟩ := readPixmap_cursorAt
    { s.m_PixMap with Bounds :=
        ⟨toInt16 (peekByte t 0 * 256 + peekByte t (0 + 1)),
          toInt16 (peekByte t (0 + 2) * 256 + peekByte t (0 + 3)),
          toInt16 (peekByte t (0 + 4) * 256 + peekByte t (0 + 5)),
          toInt16 (peekByte t (0 + 6) * 256 + peekByte t (0 + 7))⟩ } c t (0 + 8) (by omega)
  simp only [doPixmap, bind_apply, onDataSrc, zoom, h0, readRect_cursorAt c t 0 (by omega),
    modifyState, getState, hp, setBmpInfo, SetBmpInfo]
  exact ⟨_, rfl, rfl⟩

theorem doBitmap_returns (s : PLPictDecoder) (c t : List PLBYTE)
    (hsrc : s.m_pDataSrc = ⟨c, t⟩) (hlen : 24 ≤ t.length) :
    ∃ s1, doBitmap s = .ok () s1 ∧ s1.m_pDataSrc = cursorAt c t 24 := by
  have h0 : s.m_pDataSrc = cursorAt c t 0 := by rw [hsrc, cursorAt_zero]
  simp only [doBitmap, bind_apply, onDataSrc, zoom, h0, readRect_cursorAt c t 0 (by omega),
    readRect_cursorAt c t (0 + 8) (by omega), readRect_cursorAt c t (0 + 8 + 8) (by omega),
    modifyState, SetBmpInfo]
  exact ⟨_, rfl, rfl⟩

/-- C26: `bitsRect` (`region = false`) and `bitsRegion` (`region = true`) on a
session whose data starts with the `rowBytes` word `b0 b1`: the word is
stored in the session and the clipped-by-region flag is set to `region`,
whatever they were before and also when the rest of the handler raises; when
the handler returns, the picture kind is `pixmap` exactly when the top bit of
the word is set and `bitmap` exactly when it is clear; and it returns when the
44 bytes of a pixmap header (top bit set) or the 24 bytes of three rectangles
(top bit clear) follow. -/
theorem bitsRect_bitsRegion_record_kind (region : Bool) (s : PLPictDecoder)
    (c t : List PLBYTE) (b0 b1 : PLBYTE) (hsrc : s.m_pDataSrc = ⟨c, b0 :: b1 :: t⟩) :
    ((if region then bitsRegion else bitsRect) s).state.m_rowBytes = b0.val * 256 + b1.val ∧
    ((if region then bitsRegion else bitsRect) s).state.m_bIsRegion = region ∧
    (∀ s1, (if region then bitsRegion else bitsRect) s = .ok () s1 →
      (s1.m_PictType = .pixmap ↔ 0x8000 ≤ b0.val * 256 + b1.val) ∧
      (s1.m_PictType = .bitmap ↔ b0.val * 256 + b1.val < 0x8000)) ∧
    (0x8000 ≤ b0.val * 256 + b1.val → 44 ≤ t.length →
      ∃ s1, (if region then bitsRegion else bitsRect) s = .ok () s1) ∧
    (b0.val * 256 + b1.val < 0x8000 → 24 ≤ t.length →
      ∃ s1, (if region then bitsRegion else bitsRect) s = .ok () s1) := by
  have heq := bits_eq region s c t b0 b1 hsrc
  have htop := word_top_bit b0 b1
  rw [heq]
  by_cases hb : (b0.val * 256 + b1.val) &&& 0x8000 ≠ 0
  · have hge := htop.1 hb
    rw [if_pos hb]
    have hk := keeps_doPixmap
      { s with m_pDataSrc := ⟨b1 :: b0 :: c, t⟩, m_rowBytes := b0.val * 256 + b1.val,
               m_bIsRegion := region }
    simp only [Prod.mk.injEq] at hk
    refine ⟨hk.1, hk.2, fun s1 h => ?_, fun _ hlen => ?_, fun hlt => absurd hge (by omega)⟩
    · have hp := post_doPixmap _ _ _ h
      rw [hp]
      exact ⟨⟨fun _ => hge, fun _ => rfl⟩, ⟨fun h2 => (by cases h2), fun h2 => absurd hge (by omega)⟩⟩
    · obtain ⟨s1, h1, _⟩ := doPixmap_returns
        { s with m_pDataSrc := ⟨b1 :: b0 :: c, t⟩, m_rowBytes := b0.val * 256 + b1.val,
                 m_bIsRegion := region } (b1 :: b0 :: c) t rfl hlen
      exact ⟨s1, h1⟩
  · have hlt : b0.val * 256 + b1.val < 0x8000 := by
      by_contra hc
      exact hb (htop.2 (by omega))
    rw [if_neg hb]
    have hk := keeps_doBitmap
      { s with m_pDataSrc := ⟨b1 :: b0 :: c, t⟩, m_rowBytes := b0.val * 256 + b1.val,
               m_bIsRegion := region }
    simp only [Prod.mk.injEq] at hk
    refine ⟨hk.1, hk.2, fun s1 h => ?_, fun hge => absurd hge (by omega), fun _ hlen => ?_⟩
    · have hp := post_doBitmap _ _ _ h
      rw [hp]
      exact ⟨⟨fun h2 => (by cases h2), fun h2 => absurd h2 (by omega)⟩, ⟨fun _ => hlt, fun _ => rfl⟩⟩
    · obtain ⟨s1, h1, _⟩ := doBitmap_returns
        { s with m_pDataSrc := ⟨b1 :: b0 :: c, t⟩, m_rowBytes := b0.val * 256 + b1.val,
                 m_bIsRegion := region } (b1 :: b0 :: c) t rfl hlen
      exact ⟨s1, h1⟩

theorem bitsRect_bitsRegion_record_kind_witness :
    (bitsRegion { newSession ([0x80, 0x04] ++ List.replicate 44 0) with
      m_rowBytes := 7, m_bIsRegion := false }).state.m_rowBytes = 0x8004 ∧
    (bitsRegion { newSession ([0x80, 0x04] ++ List.replicate 44 0) with
      m_rowBytes := 7, m_bIsRegion := false }).state.m_bIsRegion = true ∧
    (bitsRegion { newSession ([0x80, 0x04] ++ List.replicate 44 0) with
      m_rowBytes := 7, m_bIsRegion := false }).state.m_PictType = .pixmap ∧
    (bitsRect { newSession ([0x00, 0x04] ++ List.replicate 24 0) with
      m_rowBytes := 7, m_bIsRegion := true }).state.m_bIsRegion = false ∧
    (bitsRect { newSession ([0x00, 0x04] ++ List.replicate 24 0) with
      m_rowBytes := 7, m_bIsRegion := true }).state.m_PictType = .bitmap :=
  ⟨(bitsRect_bitsRegion_record_kind true
      { newSession ([0x80, 0x04] ++ List.replicate 44 0) with
        m_rowBytes := 7, m_bIsRegion := false } [] (List.replicate 44 0) 0x80 0x04 (by decide)).1,
   (bitsRect_bitsRegion_record_kind true
      { newSession ([0x80, 0x04] ++ List.replicate 44 0) with
        m_rowBytes := 7, m_bIsRegion := false } [] (List.replicate 44 0) 0x80 0x04 (by decide)).2.1,
   by decide,
   (bitsRect_bitsRegion_record_kind false
      { newSession ([0x00, 0x04] ++ List.replicate 24 0) with
        m_rowBytes := 7, m_bIsRegion := true } [] (List.replicate 24 0) 0x00 0x04 (by decide)).2.1,
   by decide⟩

/-! ### The control byte `0x80` -/

/-- C27: in the RLE loop of `unpackbits`, at every pixel size, a control byte
`0x80` at the read position `j`, whatever follows it, makes the pass move the
read position to `j + 1` and leave the write position and the line buffer as
they were (no unit is emitted); the loop then goes on from there. -/
theorem rleStep_0x80_is_noop (env : Env) (pixelSize pkpixsize PixelPerRLEUnit : Nat)
    (pSrcLine : List PLBYTE) (st : RleState) (h : peekByte pSrcLine st.j = 0x80) :
    rleStep env pixelSize pkpixsize PixelPerRLEUnit pSrcLine st =
      .ok ⟨st.j + 1, st.pBuf, st.lineBuf⟩ ∧
    ∀ (linelen fuel : Nat), st.j < linelen →
      unpackRle env pixelSize pkpixsize PixelPerRLEUnit pSrcLine linelen (fuel + 1) st =
        unpackRle env pixelSize pkpixsize PixelPerRLEUnit pSrcLine linelen fuel
          ⟨st.j + 1, st.pBuf, st.lineBuf⟩ := by
  have hstep : rleStep env pixelSize pkpixsize PixelPerRLEUnit pSrcLine st =
      .ok ⟨st.j + 1, st.pBuf, st.lineBuf⟩ := by
    simp only [rleStep, h]
    rfl
  refine ⟨hstep, fun linelen fuel hj => ?_⟩
  rw [unpackRle, if_pos hj, hstep]
  rfl

theorem rleStep_0x80_is_noop_witness :
    rleStep demoEnv 16 2 1 [0x01, 0x80, 0x7C, 0x00] ⟨1, 8, demoEnv.heap⟩ =
      .ok ⟨2, 8, demoEnv.heap⟩ ∧
    rleStep demoEnv 3 1 1 [0x80] ⟨0, 0, demoEnv.heap⟩ = .ok ⟨1, 0, demoEnv.heap⟩ :=
  ⟨(rleStep_0x80_is_noop demoEnv 16 2 1 [0x01, 0x80, 0x7C, 0x00] ⟨1, 8, demoEnv.heap⟩
      (by decide)).1,
   (rleStep_0x80_is_noop demoEnv 3 1 1 [0x80] ⟨0, 0, demoEnv.heap⟩ (by decide)).1⟩

/-! ### `pixPat` -/

theorem Skip_lit_cursorAt (n : Nat) (c t : List PLBYTE) (o : Nat) (ho : o ≤ t.length) :
    Skip (n : Int) (cursorAt c t o) =
      if o + n ≤ t.length then .ok () (cursorAt c t (o + n))
      else .raise .PL_ERREND_OF_FILE (cursorAt c t o) := by
  rw [Skip_cursorAt]
  by_cases h : o + n ≤ t.length
  · rw [if_pos h, if_pos (by simp; omega)]
  · rw [if_neg h, if_neg (by simp; omega)]

/-- What `pixPat` does on data that starts with the pattern-type word `p0 p1`,
followed by `t`.  For type 2 it skips exactly 13 bytes (and raises end of file
when fewer follow).  For type 1, with at least the 54 bytes of padding,
`rowBytes` word, rectangle and pixmap header present, it skips 8 bytes, reads
the `rowBytes` word (bytes 8, 9), the rectangle (bytes 10..17) and the pixmap
header (bytes 18..53, the pixel size in bytes 36, 37), then reads a colour
table and hands the rest to `skipBits` with that rectangle, `rowBytes` and
pixel size; the colour table is read into a palette without an end, so for a
table of more than 256 entries, which overruns the array `CT[256]` of the
source, this describes the model only.  For every other type it raises
`PL_ERRFORMAT_UNKNOWN` with the cursor just behind the type word. -/
theorem pixPat_eq_by_type (env : Env) (c t : List PLBYTE) (p0 p1 : PLBYTE) :
    (p0.val * 256 + p1.val = 2 →
      (13 ≤ t.length →
        pixPat env ⟨c, p0 :: p1 :: t⟩ = .ok () (cursorAt (p1 :: p0 :: c) t 13)) ∧
      (t.length < 13 → ∃ d, pixPat env ⟨c, p0 :: p1 :: t⟩ = .raise .PL_ERREND_OF_FILE d)) ∧
    (p0.val * 256 + p1.val = 1 → 54 ≤ t.length →
      pixPat env ⟨c, p0 :: p1 :: t⟩ =
        match readColourTable (env.stackPal, cursorAt (p1 :: p0 :: c) t 54) with
        | .ok _ st =>
          skipBits ⟨toInt16 (peekByte t 10 * 256 + peekByte t 11),
              toInt16 (peekByte t 12 * 256 + peekByte t 13),
              toInt16 (peekByte t 14 * 256 + peekByte t 15),
              toInt16 (peekByte t 16 * 256 + peekByte t 17)⟩
            (peekByte t 8 * 256 + peekByte t 9) (peekByte t 36 * 256 + peekByte t 37) st.2
        | .raise e st => .raise e st.2) ∧
    (p0.val * 256 + p1.val ≠ 1 → p0.val * 256 + p1.val ≠ 2 →
      pixPat env ⟨c, p0 :: p1 :: t⟩ = .raise .PL_ERRFORMAT_UNKNOWN ⟨p1 :: p0 :: c, t⟩) := by
  have hread : ReadMWord ⟨c, p0 :: p1 :: t⟩ =
      .ok (p0.val * 256 + p1.val) (cursorAt (p1 :: p0 :: c) t 0) := by
    rw [cursorAt_zero]; rfl
  have hs8 := Skip_lit_cursorAt 8 (p1 :: p0 :: c) t 0 (by omega)
  have hs5 := Skip_lit_cursorAt 5 (p1 :: p0 :: c) t (0 + 8)
  simp only [Nat.cast_ofNat] at hs8 hs5
  refine ⟨fun h2 => ⟨fun hlen => ?_, fun hlen => ?_⟩, fun h1 hlen => ?_, fun h1 h2 => ?_⟩
  · simp only [pixPat, bind_apply, hread, h2, if_true, hs8, hs5 (by omega),
      if_pos (show 0 + 8 ≤ t.length by omega), if_pos (show 0 + 8 + 5 ≤ t.length by omega)]
  · by_cases h8 : 0 + 8 ≤ t.length
    · refine ⟨cursorAt (p1 :: p0 :: c) t (0 + 8), ?_⟩
      simp only [pixPat, bind_apply, hread, h2, if_true, hs8, hs5 h8, if_pos h8,
        if_neg (show ¬ 0 + 8 + 5 ≤ t.length by omega)]
    · refine ⟨cursorAt (p1 :: p0 :: c) t 0, ?_⟩
      simp only [pixPat, bind_apply, hread, h2, if_true, hs8, if_neg h8]
  · obtain ⟨pm, hpm, hB, hps, _⟩ := readPixmap_cursorAt
      { env.stackPixMap with Bounds :=
          ⟨toInt16 (peekByte t (0 + 8 + 2) * 256 + peekByte t (0 + 8 + 2 + 1)),
            toInt16 (peekByte t (0 + 8 + 2 + 2) * 256 + peekByte t (0 + 8 + 2 + 3)),
            toInt16 (peekByte t (0 + 8 + 2 + 4) * 256 + peekByte t (0 + 8 + 2 + 5)),
            toInt16 (peekByte t (0 + 8 + 2 + 6) * 256 + peekByte t (0 + 8 + 2 + 7))⟩ }
      (p1 :: p0 :: c) t (0 + 8 + 2 + 8) (by omega)
    simp only [pixPat, bind_apply, hread, h1, if_true, OfNat.one_ne_ofNat, if_false, hs8,
      if_pos (show 0 + 8 ≤ t.length by omega),
      ReadMWord_cursorAt (p1 :: p0 :: c) t (0 + 8) (by omega),
      readRect_cursorAt (p1 :: p0 :: c) t (0 + 8 + 2) (by omega), hpm, zoom]
    rw [hB, hps]
    cases readColourTable (env.stackPal, cursorAt (p1 :: p0 :: c) t (0 + 8 + 2 + 8 + 36)) <;> rfl
  · simp only [pixPat, bind_apply, hread, if_neg h1, if_neg h2, raiseError_apply, cursorAt_zero]

/-! ## The entry count of a colour table -/

theorem ctEntries_short (n : Nat) (rest : List PLBYTE) (h : rest.length < 8) :
    ctEntries (n + 1) rest = [] := by
  match rest, h with
  | [], _ | [_], _ | [_, _], _ | [_, _, _], _ | [_, _, _, _], _ | [_, _, _, _, _], _
  | [_, _, _, _, _, _], _ | [_, _, _, _, _, _, _], _ => rfl
  | _ :: _ :: _ :: _ :: _ :: _ :: _ :: _ :: _, h => simp at h; omega

theorem ctEntries_length_bytes : ∀ (n : Nat) (rest : List PLBYTE),
    (ctEntries n rest).length = n → 8 * n ≤ rest.length := by
  intro n
  induction n with
  | zero => intro rest _; omega
  | succ n ih =>
    intro rest h
    rcases list_eight_or_short rest with hs | ⟨i0, i1, r0, r1, g0, g1, b0, b1, t, rfl⟩
    · rw [ctEntries_short n rest hs] at h
      simp at h
    · rw [ctEntries_cons] at h
      have := ih t (by simpa using h)
      simp only [List.length_cons]
      omega

/-- C29 as stated fails at the count word `0xFFFF`: the entry count is kept in
a 16-bit word, so `0xFFFF + 1` becomes 0, `readColourTable` returns 0 and reads
no entry; the 16 bytes after the table header stay unread. -/
theorem readColourTable_count_0xFFFF_reads_no_entry :
    ∃ st1, readColourTable (demoBmp.palette,
        ⟨[], [0, 0, 0, 0, 0x80, 0, 0xFF, 0xFF, 0, 0, 1, 1, 2, 2, 3, 3, 0, 1, 4, 4, 5, 5, 6, 6]⟩) =
        .ok 0 st1 ∧
      (0 : Nat) ≠ 0xFFFF + 1 ∧
      st1.2 = ⟨[0xFF, 0xFF, 0, 0x80, 0, 0, 0, 0],
        [0, 0, 1, 1, 2, 2, 3, 3, 0, 1, 4, 4, 5, 5, 6, 6]⟩ :=
  ⟨_, rfl, by decide, rfl⟩

/-- C29 (amended): with the stored count word `cnt` (bytes `n0 n1` of the
8-byte table header), `readColourTable` uses the entry count
`N = (cnt + 1) mod 65536`, which is `cnt + 1` for every `cnt < 0xFFFF` and 0
for `cnt = 0xFFFF`.  Whenever it returns, it returns `N`, the `8 * N` bytes of
`N` entries were present after the header and exactly those were read (the
cursor stands on what follows them); and on a table whose flags word has the
top bit set it does return as soon as those `8 * N` bytes are present. -/
theorem readColourTable_entry_count (pal : Palette) (c body : List PLBYTE)
    (s0 s1 s2 s3 f0 f1 n0 n1 : PLBYTE) :
    (n0.val * 256 + n1.val < 0xFFFF →
      (n0.val * 256 + n1.val + 1) % 65536 = n0.val * 256 + n1.val + 1) ∧
    (n0.val * 256 + n1.val = 0xFFFF → (n0.val * 256 + n1.val + 1) % 65536 = 0) ∧
    (∀ (k : Nat) (st1 : Palette × PLDataSource),
      readColourTable (pal, ⟨c, s0 :: s1 :: s2 :: s3 :: f0 :: f1 :: n0 :: n1 :: body⟩) =
        .ok k st1 →
      k = (n0.val * 256 + n1.val + 1) % 65536 ∧
      8 * k ≤ body.length ∧
      (ctEntries k body).length = k ∧
      st1.2.rest = body.drop (8 * k)) ∧
    ((f0.val * 256 + f1.val) &&& 0x8000 ≠ 0 →
      8 * ((n0.val * 256 + n1.val + 1) % 65536) ≤ body.length →
      ∃ st1, readColourTable
        (pal, ⟨c, s0 :: s1 :: s2 :: s3 :: f0 :: f1 :: n0 :: n1 :: body⟩) =
          .ok ((n0.val * 256 + n1.val + 1) % 65536) st1) := by
  have heq := readColourTable_eq_loop pal c body s0 s1 s2 s3 f0 f1 n0 n1
  have hNlt : (n0.val * 256 + n1.val + 1) % 65536 < 65536 := Nat.mod_lt _ (by omega)
  refine ⟨fun h => Nat.mod_eq_of_lt (by omega), fun h => by rw [h], ?_, ?_⟩
  · intro k st1 hk
    rw [heq] at hk
    cases hl : readColourTableLoop (f0.val * 256 + f1.val) ((n0.val * 256 + n1.val + 1) % 65536)
        ((n0.val * 256 + n1.val + 1) % 65536) 0
        (pal, ⟨n1 :: n0 :: f1 :: f0 :: s3 :: s2 :: s1 :: s0 :: c, body⟩) with
    | raise e s => rw [hl] at hk; cases hk
    | ok u s =>
      rw [hl] at hk
      obtain ⟨hk1, hk2⟩ := Res.ok.inj hk
      obtain ⟨hlen, _, _, hrest⟩ := readColourTableLoop_ok _ _ _ 0 pal _ body u s (by omega) hl
      subst hk1 hk2
      exact ⟨rfl, ctEntries_length_bytes _ _ hlen, hlen, hrest⟩
  · intro hdev hlen
    obtain ⟨st1, hst⟩ := readColourTableLoop_device_ok (f0.val * 256 + f1.val)
      ((n0.val * 256 + n1.val + 1) % 65536) hdev (by omega)
      ((n0.val * 256 + n1.val + 1) % 65536) 0 pal
      (n1 :: n0 :: f1 :: f0 :: s3 :: s2 :: s1 :: s0 :: c) body (by omega) hlen
    exact ⟨st1, by rw [heq, hst]⟩

theorem readColourTable_entry_count_witness :
    ∃ st1, readColourTable (demoBmp.palette,
        ⟨[], [0, 0, 0, 0, 0x80, 0, 0, 1, 0, 0, 1, 1, 2, 2, 3, 3, 0, 1, 4, 4, 5, 5, 6, 6, 0x55]⟩) =
        .ok 2 st1 :=
  (readColourTable_entry_count demoBmp.palette []
    [0, 0, 1, 1, 2, 2, 3, 3, 0, 1, 4, 4, 5, 5, 6, 6, 0x55] 0 0 0 0 0x80 0 0 1).2.2.2
    (by decide) (by decide)

/-! ## inv_cmap: a cell that keeps a farther colour -/

/-- C21: `inv_cmap` on the three-entry colormap (32, 99, 92), (32, 101, 96),
(32, 100, 94) with `bits = 2` (so `x = 64`), for `unsigned long` of 64 and of
32 bits: the entry `rgbmap[(0 << 4) + (3 << 2) + 0]` of the cell
`(r, g, b) = (0, 3, 0)`, whose centre is (32, 224, 32), is left at colour 0
with squared distance 19225, although colour 2 has squared distance 19220.
The cells nearest to colour 2 in a red plane are `(g, b) = (1, 1)` and
`(3, 0)`; the green line 2 between them has none, and `greenloop` stops
there. -/
theorem inv_cmap_misses_nearest_colour :
    (inv_cmap (2 ^ 64 - 1) 3 (colormapOf [32, 32, 32] [99, 101, 100] [92, 96, 94]) 2
        (invCmapInit 0 0xEE)).rgbmap ((0 <<< (2 * 2)) + (3 <<< 2) + 0) = 0 ∧
    (inv_cmap (2 ^ 32 - 1) 3 (colormapOf [32, 32, 32] [99, 101, 100] [92, 96, 94]) 2
        (invCmapInit 0 0xEE)).rgbmap ((0 <<< (2 * 2)) + (3 <<< 2) + 0) = 0 ∧
    (inv_cmap (2 ^ 64 - 1) 3 (colormapOf [32, 32, 32] [99, 101, 100] [92, 96, 94]) 2
        (invCmapInit 0 0xEE)).rgbmap ((0 <<< (2 * 2)) + (1 <<< 2) + 1) = 2 ∧
    cellDist (colormapOf [32, 32, 32] [99, 101, 100] [92, 96, 94]) 2 0 3 0 0 = 19225 ∧
    cellDist (colormapOf [32, 32, 32] [99, 101, 100] [92, 96, 94]) 2 0 3 0 1 = 19225 ∧
    cellDist (colormapOf [32, 32, 32] [99, 101, 100] [92, 96, 94]) 2 0 3 0 2 = 19220 := by
  decide!

/-! ## Backward skips -/

/-- C31: skip amounts that are negative.  `clip` on the declared length 0
passes `-2` to `Skip` and `skipPolyOrRegion` on the declared length 1 passes
`-1`; both leave the cursor before the place where the length word ended.  In
version 2 the reserved opcode `0x00D0` followed by the long `FF FF FF FA` (the
length -6) passes `-6`: the pass ends with the session it started with, the
cursor back on the opcode.  On the file made of the 512-byte block, the
picture size, the frame, the version-2 signature `00 11 02 FF` and these six
bytes, `Open` therefore stands on this opcode after any number of passes of
the opcode loop. -/
theorem interpretOpcode_skips_backward :
    (clip ⟨[0x01, 0x00], [0x00, 0x00, 0xAA]⟩ = Skip (-2) ⟨[0x00, 0x00, 0x01, 0x00], [0xAA]⟩ ∧
      clip ⟨[0x01, 0x00], [0x00, 0x00, 0xAA]⟩ = .ok () ⟨[0x01, 0x00], [0x00, 0x00, 0xAA]⟩) ∧
    (skipPolyOrRegion ⟨[0x70, 0x00], [0x00, 0x01, 0xAA]⟩ =
        Skip (-1) ⟨[0x01, 0x00, 0x70, 0x00], [0xAA]⟩ ∧
      skipPolyOrRegion ⟨[0x70, 0x00], [0x00, 0x01, 0xAA]⟩ =
        .ok () ⟨[0x00, 0x70, 0x00], [0x01, 0xAA]⟩) ∧
    (onDataSrc ReadMLong
        { newSession [] with
          m_pDataSrc := ⟨[0xD0, 0x00], [0xFF, 0xFF, 0xFF, 0xFA]⟩ } =
        .ok (-6) { newSession [] with
          m_pDataSrc := ⟨[0xFA, 0xFF, 0xFF, 0xFF, 0xD0, 0x00], []⟩ } ∧
      interpretOpcode demoEnv 2 (newSession [0x00, 0xD0, 0xFF, 0xFF, 0xFF, 0xFA]) =
        .ok (0xD0, false) (newSession [0x00, 0xD0, 0xFF, 0xFF, 0xFF, 0xFA])) ∧
    ∀ fuel : Nat,
      Open demoEnv fuel (newSession (List.replicate 512 0 ++
          [0, 0, 0, 0, 0, 0, 0, 1, 0, 1, 0x00, 0x11, 0x02, 0xFF] ++
          [0x00, 0xD0, 0xFF, 0xFF, 0xFF, 0xFA])) =
        .ok none { newSession [] with
          m_pDataSrc := ⟨[0xFF, 0x02, 0x11, 0x00, 1, 0, 1, 0, 0, 0, 0, 0, 0, 0] ++
            List.replicate 512 0, [0x00, 0xD0, 0xFF, 0xFF, 0xFF, 0xFA]⟩ } := by
  refine ⟨by decide, by decide, by decide, ?_⟩
  have h : interpretOpcode demoEnv 2 { newSession [] with
      m_pDataSrc := ⟨[0xFF, 0x02, 0x11, 0x00, 1, 0, 1, 0, 0, 0, 0, 0, 0, 0] ++
        List.replicate 512 0, [0x00, 0xD0, 0xFF, 0xFF, 0xFF, 0xFA]⟩ } =
      .ok (0xD0, false) { newSession [] with
        m_pDataSrc := ⟨[0xFF, 0x02, 0x11, 0x00, 1, 0, 1, 0, 0, 0, 0, 0, 0, 0] ++
          List.replicate 512 0, [0x00, 0xD0, 0xFF, 0xFF, 0xFF, 0xFA]⟩ } := by decide!
  have hloop : ∀ fuel : Nat, interpretOpcodes demoEnv 2 fuel { newSession [] with
      m_pDataSrc := ⟨[0xFF, 0x02, 0x11, 0x00, 1, 0, 1, 0, 0, 0, 0, 0, 0, 0] ++
        List.replicate 512 0, [0x00, 0xD0, 0xFF, 0xFF, 0xFF, 0xFA]⟩ } =
      .ok none { newSession [] with
        m_pDataSrc := ⟨[0xFF, 0x02, 0x11, 0x00, 1, 0, 1, 0, 0, 0, 0, 0, 0, 0] ++
          List.replicate 512 0, [0x00, 0xD0, 0xFF, 0xFF, 0xFF, 0xFA]⟩ } := by
    intro fuel
    induction fuel with
    | zero => rfl
    | succ n ih =>
      rw [interpretOpcodes, bind_apply, h]
      exact ih
  have h1 : onDataSrc (Skip 512) (newSession (List.replicate 512 0 ++
      [0, 0, 0, 0, 0, 0, 0, 1, 0, 1, 0x00, 0x11, 0x02, 0xFF] ++
      [0x00, 0xD0, 0xFF, 0xFF, 0xFF, 0xFA])) =
      .ok () { newSession [] with
        m_pDataSrc := ⟨List.replicate 512 0,
          [0, 0, 0, 0, 0, 0, 0, 1, 0, 1, 0x00, 0x11, 0x02, 0xFF] ++
          [0x00, 0xD0, 0xFF, 0xFF, 0xFF, 0xFA]⟩ } := by decide!
  have h2 : onDataSrc readHeader { newSession [] with
        m_pDataSrc := ⟨List.replicate 512 0,
          [0, 0, 0, 0, 0, 0, 0, 1, 0, 1, 0x00, 0x11, 0x02, 0xFF] ++
          [0x00, 0xD0, 0xFF, 0xFF, 0xFF, 0xFA]⟩ } =
      .ok 2 { newSession [] with
        m_pDataSrc := ⟨[0xFF, 0x02, 0x11, 0x00, 1, 0, 1, 0, 0, 0, 0, 0, 0, 0] ++
          List.replicate 512 0, [0x00, 0xD0, 0xFF, 0xFF, 0xFF, 0xFA]⟩ } := by decide!
  intro fuel
  rw [Open, bind_apply, h1]
  dsimp only
  rw [bind_apply, h2]
  exact hloop fuel

/-! ## The unpacked rows of `unpackbits` -/

/-- C32: `unpackbits` at 1 bpp on a picture 16 pixels wide and one row high
with `rowBytes = 2`: the row is the two bytes `00 00`, but the expansion is
run with the pixel width 16 as its count of source bytes, so it also expands
the bytes at source positions 2 and 3 (`FF`, `0F`, which follow the row in the
data) and writes the destination positions 16 to 31 (and on to 127), beyond
the 16 pixels of the row.  With other bytes after the same row the line
differs.  The cursor has moved over the two bytes of the row.  At 4 bpp, a row
of 4 pixels with `rowBytes = 2` is expanded from 4 source bytes into 8
destination positions in the same way. -/
theorem unpackbits_raw_row_expands_width_bytes :
    bufPrefix ((unpackbits demoEnv ⟨0, 0, 1, 16⟩ 2 1
        (demoBmp, ⟨[], [0x00, 0x00, 0xFF, 0x0F]⟩)).state.1.lines 0) 32 =
      [0, 0, 0, 0, 0, 0, 0, 0, 0, 0, 0, 0, 0, 0, 0, 0,
       1, 1, 1, 1, 1, 1, 1, 1, 0, 0, 0, 0, 1, 1, 1, 1] ∧
    bufPrefix ((unpackbits demoEnv ⟨0, 0, 1, 16⟩ 2 1
        (demoBmp, ⟨[], [0x00, 0x00, 0x00, 0x00]⟩)).state.1.lines 0) 32 =
      [0, 0, 0, 0, 0, 0, 0, 0, 0, 0, 0, 0, 0, 0, 0, 0,
       0, 0, 0, 0, 0, 0, 0, 0, 0, 0, 0, 0, 0, 0, 0, 0] ∧
    (unpackbits demoEnv ⟨0, 0, 1, 16⟩ 2 1 (demoBmp, ⟨[], [0x00, 0x00, 0xFF, 0x0F]⟩)).state.2 =
      ⟨[0x00, 0x00], [0xFF, 0x0F]⟩ ∧
    bufPrefix ((unpackbits demoEnv ⟨0, 0, 1, 4⟩ 2 4
        (demoBmp, ⟨[], [0x12, 0x34, 0x56, 0x78]⟩)).state.1.lines 0) 10 =
      [1, 2, 3, 4, 5, 6, 7, 8, 0, 0] ∧
    (unpackbits demoEnv ⟨0, 0, 1, 4⟩ 2 4 (demoBmp, ⟨[], [0x12, 0x34, 0x56, 0x78]⟩)).state.2 =
      ⟨[0x34, 0x12], [0x56, 0x78]⟩ := by
  decide

/-! ## The plane count of `unpack32bits` -/

/-- C33: `unpack32bits` with the component count 1 on a row of 2 pixels
(`rowBytes = 0x8008`, so the row `01 AA BB` has a 2-byte length): the row
buffer is allocated with `Width * NumBitPlanes = 2` bytes and the row fills
them with `AA BB`, but the reassembly for a plane count other than 3 reads
four planes, at the positions `j`, `j + 2`, `j + 4` and `j + 6` of the buffer.
With the memory behind the allocation holding `100 + k` at offset `k`, the
red, green and blue channels of the two pixels are 102, 104, 106 and
103, 105, 107. -/
theorem unpack32bits_one_plane_reads_four :
    bufPrefix ((unpack32bits { demoEnv with heap := fun k => 100 + k } ⟨0, 0, 1, 2⟩ 0x8008 1
        (demoBmp, ⟨[], [0x00, 0x03, 0x01, 0xAA, 0xBB]⟩)).state.1.lines 0) 8 =
      [102, 104, 106, 0xAA, 103, 105, 107, 0xBB] ∧
    (unpack32bits { demoEnv with heap := fun k => 100 + k } ⟨0, 0, 1, 2⟩ 0x8008 1
        (demoBmp, ⟨[], [0x00, 0x03, 0x01, 0xAA, 0xBB]⟩)).error = none ∧
    toWord ((2 : Int) * 1) = 2 := by
  decide

/-! ## inv_cmap: what a scan does to the two arrays -/

theorem descends_refl (s : InvCmapState) : Descends s s :=
  ⟨Eq.refl _, fun _ => le_refl _, fun _ => Or.inl (Eq.refl _)⟩

theorem descends_trans {s s1 s2 : InvCmapState} (h1 : Descends s s1) (h2 : Descends s1 s2) :
    Descends s s2 := by
  obtain ⟨c1, d1, m1⟩ := h1
  obtain ⟨c2, d2, m2⟩ := h2
  refine ⟨c2.trans c1, fun p => le_trans (d2 p) (d1 p), fun p => ?_⟩
  rcases m2 p with h | h
  · rcases m1 p with h3 | h3
    · exact Or.inl (h.trans h3)
    · exact Or.inr (h.trans h3)
  · exact Or.inr (by rw [h, c1])

theorem descends_of_eq {s s1 : InvCmapState} (hc : s1.cindex = s.cindex)
    (hd : s1.dist_buf = s.dist_buf) (hm : s1.rgbmap = s.rgbmap) : Descends s s1 :=
  ⟨hc, fun p => by rw [hd], fun p => Or.inl (by rw [hm])⟩

theorem blueFill_descends (maxv : Nat) (i : Int) (step : BlueRegs → BlueRegs) :
    ∀ (n : Nat) (l : BlueRegs) (s : InvCmapState), i = s.cindex →
      Descends s (blueFill maxv i step n l s).2 := by
  intro n
  induction n with
  | zero => intro l s _; exact descends_refl s
  | succ n ih =>
    intro l s hi
    rw [blueFill]
    by_cases hc : s.dist_buf l.dp > toULong maxv l.bdist
    · rw [if_pos hc]
      refine descends_trans ?_ (ih (step l) _ hi)
      refine ⟨Eq.refl _, fun p => ?_, fun p => ?_⟩
      · show storeAt s.dist_buf l.dp (toULong maxv l.bdist) p ≤ s.dist_buf p
        unfold storeAt
        by_cases hp : p = l.dp
        · rw [if_pos hp, hp]; exact le_of_lt hc
        · rw [if_neg hp]
      · show storeAt s.rgbmap l.rgbp (i % 256).toNat p = s.rgbmap p ∨
          storeAt s.rgbmap l.rgbp (i % 256).toNat p = (s.cindex % 256).toNat
        unfold storeAt
        by_cases hp : p = l.rgbp
        · rw [if_pos hp, hi]; exact Or.inr (Eq.refl _)
        · rw [if_neg hp]; exact Or.inl (Eq.refl _)
    · rw [if_neg hc]
      exact descends_refl s

theorem blueRemember_descends (l : BlueRegs) (s : InvCmapState) :
    Descends s (blueRemember l s) :=
  descends_of_eq (Eq.refl _) (Eq.refl _) (Eq.refl _)

theorem blueFindUp_descends (maxv : Nat) (txsqr : Int) :
    ∀ (n : Nat) (l : BlueRegs) (s : InvCmapState),
      Descends s (blueFindUp maxv txsqr n l s).2.2 := by
  intro n
  induction n with
  | zero => intro l s; exact descends_refl s
  | succ n ih =>
    intro l s
    rw [blueFindUp]
    split_ifs
    · exact blueRemember_descends l s
    · exact descends_refl s
    · exact ih _ s

theorem blueFindDown_descends (maxv : Nat) (txsqr : Int) :
    ∀ (n : Nat) (l : BlueRegs) (s : InvCmapState),
      Descends s (blueFindDown maxv txsqr n l s).2.2 := by
  intro n
  induction n with
  | zero => intro l s; exact descends_refl s
  | succ n ih =>
    intro l s
    rw [blueFindDown]
    split_ifs
    · exact blueRemember_descends l s
    · exact ih _ s


theorem blueloop_descends (maxv : Nat) (restart : Bool) (s : InvCmapState) :
    Descends s (blueloop maxv restart s).2 := by
  unfold blueloop
  lift_lets
  extract_lets i txsqr s1 lim l0
  have h1 : Descends s s1 := by
    cases restart <;> exact descends_of_eq (Eq.refl _) (Eq.refl _) (Eq.refl _)
  have h2 := blueFindUp_descends maxv txsqr (lim - l0.b + 1).toNat l0 s1
  generalize blueFindUp maxv txsqr (lim - l0.b + 1).toNat l0 s1 = r1 at h2 ⊢
  obtain ⟨detect1, l1, s2⟩ := r1
  have h12 := descends_trans h1 h2
  have h3 := blueFill_descends maxv i (BlueRegs.up txsqr) (lim - l1.b + 1).toNat l1 s2
    h12.1.symm
  dsimp only
  generalize blueFill maxv i (BlueRegs.up txsqr) (lim - l1.b + 1).toNat l1 s2 = r2 at h3 ⊢
  obtain ⟨l2, s3⟩ := r2
  have h13 := descends_trans h12 h3
  dsimp only
  have h4 : ∀ (n : Nat) (l3 : BlueRegs), Descends s3 (if (!detect1) = true then
      blueFindDown maxv txsqr n l3 s3 else (detect1, l3, s3)).2.2 := by
    intro n l3
    split_ifs
    · exact blueFindDown_descends maxv txsqr _ l3 s3
    · exact descends_refl s3
  generalize hl3 : (⟨s3.blueHere - 1, s3.gdist - (s3.binc - txsqr), s3.binc - txsqr, s3.gdp - 1,
    s3.grgbp - 1⟩ : BlueRegs) = l3
  have h4b := h4 (s3.blueHere - 1 - s3.blueMin + 1).toNat l3
  generalize (if (!detect1) = true then
      blueFindDown maxv txsqr (s3.blueHere - 1 - s3.blueMin + 1).toNat l3 s3
      else (detect1, l3, s3)) = r3 at h4b ⊢
  obtain ⟨detect2, l4, s4⟩ := r3
  have h14 := descends_trans h13 h4b
  exact descends_trans h14 (blueFill_descends maxv i (BlueRegs.down txsqr) _ l4 s4 h14.1.symm)

theorem greenStepUp_descends (txsqr : Int) (s : InvCmapState) :
    Descends s (greenStepUp txsqr s) :=
  descends_of_eq (Eq.refl _) (Eq.refl _) (Eq.refl _)

theorem greenStepDown_descends (txsqr : Int) (s : InvCmapState) :
    Descends s (greenStepDown txsqr s) :=
  descends_of_eq (Eq.refl _) (Eq.refl _) (Eq.refl _)

theorem greenRemember_descends (g : Int) (s : InvCmapState) :
    Descends s (greenRemember g s) :=
  descends_of_eq (Eq.refl _) (Eq.refl _) (Eq.refl _)

/-- One pass of the upward loop of `greenloop`, given what the passes after
it do: the state at the end of the loop comes after the one that the call of
`blueloop` in the first pass returns. -/
theorem greenUp_first (maxv : Nat) (txsqr : Int) (n : Nat)
    (hn : ∀ (g : Int) (first detect : Bool) (s : InvCmapState),
      Descends s (greenUp maxv txsqr n g first detect s).2)
    (g : Int) (first detect : Bool) (s : InvCmapState) :
    Descends (blueloop maxv first s).2 (greenUp maxv txsqr (n + 1) g first detect s).2 := by
  rw [greenUp]
  dsimp only
  by_cases hb : (blueloop maxv first s).1 = true
  · rw [if_pos hb]
    refine descends_trans ?_ (hn _ _ _ _)
    refine descends_trans ?_ (greenStepUp_descends txsqr _)
    split_ifs
    · exact greenRemember_descends g _
    · exact descends_refl _
    · exact descends_refl _
  · rw [if_neg hb]
    by_cases hd : detect = true
    · rw [if_pos hd]
      exact descends_refl _
    · rw [if_neg hd]
      exact descends_trans (greenStepUp_descends txsqr _) (hn _ _ _ _)

theorem greenUp_descends (maxv : Nat) (txsqr : Int) :
    ∀ (n : Nat) (g : Int) (first detect : Bool) (s : InvCmapState),
      Descends s (greenUp maxv txsqr n g first detect s).2 := by
  intro n
  induction n with
  | zero => intro g first detect s; exact descends_refl s
  | succ n ih =>
    intro g first detect s
    exact descends_trans (blueloop_descends maxv first s)
      (greenUp_first maxv txsqr n ih g first detect s)

theorem greenDown_descends (maxv : Nat) (txsqr : Int) :
    ∀ (n : Nat) (g : Int) (first detect : Bool) (s : InvCmapState),
      Descends s (greenDown maxv txsqr n g first detect s).2 := by
  intro n
  induction n with
  | zero => intro g first detect s; exact descends_refl s
  | succ n ih =>
    intro g first detect s
    refine descends_trans (blueloop_descends maxv first s) ?_
    rw [greenDown]
    dsimp only
    by_cases hb : (blueloop maxv first s).1 = true
    · rw [if_pos hb]
      refine descends_trans ?_ (ih _ _ _ _)
      refine descends_trans ?_ (greenStepDown_descends txsqr _)
      split_ifs
      · exact greenRemember_descends g _
      · exact descends_refl _
    · rw [if_neg hb]
      by_cases hd : detect = true
      · rw [if_pos hd]
        exact descends_refl _
      · rw [if_neg hd]
        exact descends_trans (greenStepDown_descends txsqr _) (ih _ _ _ _)

/-- The first call of `blueloop` in a restarted `greenloop` that has a line to
scan upwards: the state that `greenloop` returns comes after the one that this
call returns. -/
theorem greenloop_first (maxv : Nat) (s : InvCmapState) (n : Nat)
    (hn : (s.colormax - 1 - s.gcenter + 1).toNat = n + 1) :
    Descends (blueloop maxv true (greenloopStart s)).2 (greenloop maxv true s).2 := by
  unfold greenloop
  dsimp only
  rw [if_pos (Eq.refl true)]
  refine descends_trans ?_ (greenDown_descends maxv _ _ _ _ _ _)
  refine descends_trans ?_ (descends_of_eq (Eq.refl _) (Eq.refl _) (Eq.refl _))
  have h := greenUp_first maxv (s.xsqr + s.xsqr) n (greenUp_descends maxv _ n)
    s.gcenter true false (greenloopStart s)
  rw [← hn] at h
  exact h

theorem greenloop_descends (maxv : Nat) (restart : Bool) (s : InvCmapState) :
    Descends s (greenloop maxv restart s).2 := by
  unfold greenloop
  dsimp only
  refine descends_trans ?_ (greenDown_descends maxv _ _ _ _ _ _)
  refine descends_trans ?_ (descends_of_eq (Eq.refl _) (Eq.refl _) (Eq.refl _))
  refine descends_trans ?_ (greenUp_descends maxv _ _ _ _ _ _)
  cases restart <;> exact descends_of_eq (Eq.refl _) (Eq.refl _) (Eq.refl _)

/-- One pass of a loop of `redloop`, given what the passes after it do: the
state at the end of the loop comes after the one that the call of `greenloop`
in the first pass returns. -/
theorem redLoop_first (maxv : Nat) (txsqr : Int) (down : Bool) (n : Nat)
    (hn : ∀ (first detect : Bool) (s : InvCmapState),
      Descends s (redLoop maxv txsqr down n first detect s).2)
    (first detect : Bool) (s : InvCmapState) :
    Descends (greenloop maxv first s).2 (redLoop maxv txsqr down (n + 1) first detect s).2 := by
  rw [redLoop]
  dsimp only
  have hnext : Descends (greenloop maxv first s).2
      (if down = true then
        { (greenloop maxv first s).2 with
          rdp := (greenloop maxv first s).2.rdp - (greenloop maxv first s).2.rstride,
          rrgbp := (greenloop maxv first s).2.rrgbp - (greenloop maxv first s).2.rstride,
          rxx := (greenloop maxv first s).2.rxx - txsqr,
          rdist := (greenloop maxv first s).2.rdist - ((greenloop maxv first s).2.rxx - txsqr) }
      else
        { (greenloop maxv first s).2 with
          rdp := (greenloop maxv first s).2.rdp + (greenloop maxv first s).2.rstride,
          rrgbp := (greenloop maxv first s).2.rrgbp + (greenloop maxv first s).2.rstride,
          rdist := (greenloop maxv first s).2.rdist + (greenloop maxv first s).2.rxx,
          rxx := (greenloop maxv first s).2.rxx + txsqr }) := by
    cases down <;> exact descends_of_eq (Eq.refl _) (Eq.refl _) (Eq.refl _)
  by_cases hb : (greenloop maxv first s).1 = true
  · rw [if_pos hb]
    exact descends_trans hnext (hn _ _ _)
  · rw [if_neg hb]
    by_cases hd : detect = true
    · rw [if_pos hd]
      exact descends_refl _
    · rw [if_neg hd]
      exact descends_trans hnext (hn _ _ _)

theorem redLoop_descends (maxv : Nat) (txsqr : Int) (down : Bool) :
    ∀ (n : Nat) (first detect : Bool) (s : InvCmapState),
      Descends s (redLoop maxv txsqr down n first detect s).2 := by
  intro n
  induction n with
  | zero => intro first detect s; exact descends_refl s
  | succ n ih =>
    intro first detect s
    exact descends_trans (greenloop_descends maxv first s)
      (redLoop_first maxv txsqr down n ih first detect s)

/-- The first call of `greenloop` in `redloop`, when there is a plane to scan
upwards: the state that `redloop` returns comes after the one that this call
returns. -/
theorem redloop_first (maxv : Nat) (s : InvCmapState) (n : Nat)
    (hn : (s.colormax - s.rcenter).toNat = n + 1) :
    Descends (greenloop maxv true (redloopStart s)).2 (redloop maxv s).2 := by
  unfold redloop
  dsimp only
  refine descends_trans ?_ (redLoop_descends maxv _ _ _ _ _ _)
  refine descends_trans ?_ (descends_of_eq (Eq.refl _) (Eq.refl _) (Eq.refl _))
  have h := redLoop_first maxv (s.xsqr + s.xsqr) false n (redLoop_descends maxv _ false n)
    true false (redloopStart s)
  rw [← hn] at h
  exact h

/-- The loop of `maxfill` in closed form. -/
theorem maxfillLoop_eq (maxv : Nat) : ∀ (n : Nat) (bp : Int) (buffer : Int → Nat) (k : Int),
    maxfillLoop maxv n bp buffer k = if bp ≤ k ∧ k < bp + n then maxv else buffer k := by
  intro n
  induction n with
  | zero =>
    intro bp buffer k
    rw [maxfillLoop, if_neg]
    omega
  | succ n ih =>
    intro bp buffer k
    rw [maxfillLoop, ih]
    unfold storeAt
    by_cases h1 : bp + 1 ≤ k ∧ k < bp + 1 + (n : Int)
    · rw [if_pos h1, if_pos]
      push_cast
      omega
    · rw [if_neg h1]
      by_cases h2 : k = bp
      · rw [if_pos h2, if_pos]
        push_cast
        omega
      · rw [if_neg h2, if_neg]
        push_cast
        omega

/-- The arrays after `inv_cmap` on one colour are those after the call of
`redloop` for it. -/
theorem inv_cmap_one_colour (maxv : Nat) (colormap : Fin 3 → Nat → Fin 256) (bits : Nat)
    (s : InvCmapState) :
    (inv_cmap maxv 1 colormap bits s).dist_buf =
      (redloop maxv (invCmapCentre colormap (8 - bits) (invCmapStart maxv bits s))).2.dist_buf ∧
    (inv_cmap maxv 1 colormap bits s).rgbmap =
      (redloop maxv (invCmapCentre colormap (8 - bits) (invCmapStart maxv bits s))).2.rgbmap :=
  ⟨Eq.refl _, Eq.refl _⟩

theorem invCmapStart_eq (maxv : Nat) (bits : Nat) (s : InvCmapState) :
    invCmapStart maxv bits s = invCmapFilled maxv bits s := by
  have h : maxfill maxv s.dist_buf ((1 <<< bits : Nat) : Int) =
      fun k => if 0 ≤ k ∧ k < ((2 ^ (3 * bits) : Nat) : Int) then maxv else s.dist_buf k := by
    funext k
    unfold maxfill
    rw [maxfillLoop_eq]
    have h1 : (((1 <<< bits : Nat) : Int) * ((1 <<< bits : Nat) : Int) *
        ((1 <<< bits : Nat) : Int)).toNat = 2 ^ (3 * bits) := by
      rw [← Nat.cast_mul, ← Nat.cast_mul, Int.toNat_natCast, Nat.shiftLeft_eq, Nat.one_mul]
      ring
    rw [h1, Int.zero_add]
  unfold invCmapFilled invCmapStart
  dsimp only
  rw [h]

/-- C34: `inv_cmap` with `bits = 8` (so `x = 1`) on the one colour
(255, 255, 255), for a 64-bit `unsigned long`.  The cell
`(r, g, b) = (255, 255, 254)`, at offset `2^24 - 2` of the arrays, is given to
colour 0 with the distance 0 in `dist_buf`, while the squared distance from
(255, 255, 255) to the centre `(255*x + x/2, 255*x + x/2, 254*x + x/2)` of
the cell is 1 with the `x/2 = 0` of the code (and 3/4 with the centre at
`+ 0.5`).  The start value `cdist` is computed with `x/2 = 0`, the increments
`2 * ((c + 1) * xsqr - colour * x)` belong to a centre at `+ x/2 = 0.5`. -/
theorem inv_cmap_bits8_distance_not_exact :
    (inv_cmap (2 ^ 64 - 1) 1 (colormapOf [255] [255] [255]) 8
      (invCmapInit 0 0xEE)).dist_buf (2 ^ 24 - 2) = 0 ∧
    (inv_cmap (2 ^ 64 - 1) 1 (colormapOf [255] [255] [255]) 8
      (invCmapInit 0 0xEE)).rgbmap (2 ^ 24 - 2) = 0 ∧
    (2 ^ 24 - 2 : Int) = (255 <<< (2 * 8)) + (255 <<< 8) + 254 ∧
    cellDist (colormapOf [255] [255] [255]) 8 255 255 254 0 = 1 := by
  have hone := inv_cmap_one_colour (2 ^ 64 - 1) (colormapOf [255] [255] [255]) 8
    (invCmapInit 0 0xEE)
  have hD := descends_trans
    (greenloop_first (2 ^ 64 - 1)
      (redloopStart (invCmapCentre (colormapOf [255] [255] [255]) (8 - 8)
        (invCmapStart (2 ^ 64 - 1) 8 (invCmapInit 0 0xEE)))) 0 (by decide!))
    (redloop_first (2 ^ 64 - 1)
      (invCmapCentre (colormapOf [255] [255] [255]) (8 - 8)
        (invCmapStart (2 ^ 64 - 1) 8 (invCmapInit 0 0xEE))) 0 (by decide!))
  rw [invCmapStart_eq] at hD hone
  have hB : (blueloop (2 ^ 64 - 1) true
        (greenloopStart (redloopStart (invCmapCentre (colormapOf [255] [255] [255]) (8 - 8)
          (invCmapFilled (2 ^ 64 - 1) 8 (invCmapInit 0 0xEE)))))).2.dist_buf (2 ^ 24 - 2) = 0 ∧
      (blueloop (2 ^ 64 - 1) true
        (greenloopStart (redloopStart (invCmapCentre (colormapOf [255] [255] [255]) (8 - 8)
          (invCmapFilled (2 ^ 64 - 1) 8 (invCmapInit 0 0xEE)))))).2.rgbmap (2 ^ 24 - 2) = 0 ∧
      ((blueloop (2 ^ 64 - 1) true
        (greenloopStart (redloopStart (invCmapCentre (colormapOf [255] [255] [255]) (8 - 8)
          (invCmapFilled (2 ^ 64 - 1) 8 (invCmapInit 0 0xEE)))))).2.cindex % 256).toNat = 0 := by
    decide!
  obtain ⟨_, hd, hm⟩ := hD
  rw [hone.1, hone.2]
  refine ⟨?_, ?_, by decide, by decide⟩
  · have h := hd (2 ^ 24 - 2)
    rw [hB.1] at h
    exact Nat.le_zero.mp h
  · rcases hm (2 ^ 24 - 2) with h | h
    · rw [h, hB.2.1]
    · rw [h, hB.2.2]

/-! ## The line buffer block of `unpackbits` -/

theorem expandBufLoop_above (env : Env) (hch : env.channelsOK = true) (pSrcLine : List PLBYTE) :
    ∀ (n q p : Nat) (d : Buf) (k : Nat), p + 4 * n ≤ k →
      expandBufLoop env pSrcLine n q p d k = d k := by
  obtain ⟨hB, hG, hR, hA, _⟩ := channelsOK_iff env hch
  intro n
  induction n with
  | zero => intro q p d k _; rfl
  | succ n ih =>
    intro q p d k hk
    rw [expandBufLoop, ih _ _ _ k (by omega)]
    simp only [store_get]
    rw [if_neg (by omega), if_neg (by omega), if_neg (by omega), if_neg (by omega)]

/-- A literal run at 16 bpp writes the 4 bytes of each of its units and
nothing behind them. -/
theorem rleStep_literal16_above (env : Env) (hch : env.channelsOK = true)
    (pSrcLine : List PLBYTE) (st st1 : RleState)
    (h : rleStep env 16 2 1 pSrcLine st = .ok st1) (hlit : peekByte pSrcLine st.j < 0x80)
    (k : Nat) (hk : st.pBuf + 4 * (peekByte pSrcLine st.j + 1) ≤ k) :
    st1.lineBuf k = st.lineBuf k := by
  obtain ⟨hf1, _, hf3⟩ := control_byte_facts (peekByte pSrcLine st.j) (peekByte_lt _ _)
  have h0 : ¬ (peekByte pSrcLine st.j &&& 0x80 ≠ 0) := fun hne => by
    have := hf1.1 hne
    omega
  simp only [rleStep, if_neg h0, if_true, hf3, expandBuf, Int.toNat_ofNat] at h
  have h2 : st1 = ⟨st.j + ((peekByte pSrcLine st.j + 1) * 2 + 1),
      st.pBuf + (peekByte pSrcLine st.j + 1) * 4 * 1,
      expandBufLoop env pSrcLine (peekByte pSrcLine st.j + 1) (st.j + 1) st.pBuf st.lineBuf⟩ := by
    injection h with h
    exact h.symm
  rw [h2]
  exact expandBufLoop_above env hch pSrcLine _ _ _ _ k hk

/-- C10 as amended: at 16 bpp, the RLE loop of `unpackbits` run on the row
made of the literal-run control byte `n - 1` (`1 <= n <= 128`) followed by `n`
two-byte units, when the `4n` bytes of output fit the line buffer (which has
`rowBytes * 2 + 4` bytes at 16 bpp), consumes the `2n + 1` bytes and leaves
`4n` bytes in the line buffer: unit after unit, the 32-bit pixel whose colour
channels are the three 5-bit fields of the unit scaled by 8 and whose alpha is
255.  Nothing is written at or behind offset `4n`, so every write is inside
the block. -/
theorem unpackRle_16bpp_literal_run (env : Env) (hch : env.channelsOK = true) (rowBytes n : Nat)
    (hn1 : 1 ≤ n) (hn2 : n ≤ 128) (hfit : 4 * n ≤ rowBytes * 2 + 4)
    (c : PLBYTE) (hc : c.val = n - 1)
    (units rest : List PLBYTE) (hlen : units.length = 2 * n) (pLineBuf : Buf) :
    ∃ size st, lineBufSize rowBytes 16 = some size ∧ 4 * n ≤ size ∧
      unpackRle env 16 2 1 (c :: (units ++ rest)) (2 * n + 1) (2 * n + 1)
        ⟨0, 0, pLineBuf⟩ = .ok st ∧
      st.j = 2 * n + 1 ∧ st.pBuf = 4 * n ∧
      bufPrefix st.lineBuf (4 * n) =
        ((List.range n).map (fun u =>
          expandUnit16 env (peekByte units (2 * u)) (peekByte units (2 * u + 1)))).flatten ∧
      ∀ k, 4 * n ≤ k → st.lineBuf k = pLineBuf k := by
  obtain ⟨st1, h1, h2, h3⟩ := rleStep_spec env 16 (fun _ => hch) (by decide)
    (c :: (units ++ rest)) ⟨0, 0, pLineBuf⟩
  have hc0 : peekByte (c :: (units ++ rest)) 0 = n - 1 := by
    rw [← hc]
    rfl
  have hlit : n - 1 < 0x80 := by omega
  have habove : ∀ k, 4 * n ≤ k → st1.lineBuf k = pLineBuf k := by
    intro k hk
    have h1x : rleStep env 16 2 1 (c :: (units ++ rest)) ⟨0, 0, pLineBuf⟩ = .ok st1 := h1
    exact rleStep_literal16_above env hch _ ⟨0, 0, pLineBuf⟩ st1 h1x
      (by show peekByte (c :: (units ++ rest)) 0 < 0x80; rw [hc0]; exact hlit) k
      (by show 0 + 4 * (peekByte (c :: (units ++ rest)) 0 + 1) ≤ k; rw [hc0]; omega)
  simp only [specAdvance, specRun, hc0, if_pos hlit, if_true, Nat.zero_add,
    show n - 1 + 1 = n by omega] at h2 h3
  have hunits : (List.range n).map (fun u => unitOut env 16 (c :: (units ++ rest)) (1 + u * 2)) =
      (List.range n).map (fun u =>
        expandUnit16 env (peekByte units (2 * u)) (peekByte units (2 * u + 1))) := by
    apply List.map_congr_left
    intro u hu
    have hu2 : u < n := List.mem_range.1 hu
    have e1 : 1 + u * 2 = 2 * u + 1 := by omega
    simp only [unitOut, if_true]
    rw [e1, peekByte_cons_succ, peekByte_cons_succ,
      peekByte_append_left _ _ _ (by omega), peekByte_append_left _ _ _ (by omega)]
  rw [hunits] at h3
  have hp : st1.pBuf = 4 * n := by
    have hl := congrArg List.length h3
    simp only [bufPrefix, List.length_map, List.length_range, List.nil_append] at hl
    rw [hl]
    exact flatten_units_length 4 _ n (fun u _ => expandUnit16_length _ _ _)
  refine ⟨rowBytes * 2 + 4, st1, rfl, hfit, ?_, by rw [h2]; omega, hp, ?_, habove⟩
  · exact unpackRle_one_run env 16 2 1 _ (2 * n + 1) ⟨0, 0, pLineBuf⟩ st1
      (Nat.succ_pos _) h1 (by rw [h2]; omega) (2 * n + 1) (by omega)
  · rw [← hp, h3]
    simp [bufPrefix]

theorem unpackRle_16bpp_literal_run_witness :
    demoEnv.channelsOK = true ∧ 1 ≤ 2 ∧ 2 ≤ 128 ∧ 4 * 2 ≤ 8 * 2 + 4 ∧ (1 : PLBYTE).val = 2 - 1 ∧
    ([0x7c, 0x00, 0x03, 0xe0] : List PLBYTE).length = 2 * 2 ∧
    ∃ size st, lineBufSize 8 16 = some size ∧ 4 * 2 ≤ size ∧
      unpackRle demoEnv 16 2 1 (1 :: ([0x7c, 0x00, 0x03, 0xe0] ++ [0xaa])) (2 * 2 + 1)
        (2 * 2 + 1) ⟨0, 0, demoEnv.heap⟩ = .ok st ∧
      st.j = 2 * 2 + 1 ∧ st.pBuf = 4 * 2 ∧
      bufPrefix st.lineBuf (4 * 2) = [248, 0, 0, 255, 0, 248, 0, 255] :=
  ⟨by decide, by decide, by decide, by decide, by decide, by decide,
   (unpackRle_16bpp_literal_run demoEnv (by decide) 8 2 (by decide) (by decide) (by decide)
      1 (by decide) [0x7c, 0x00, 0x03, 0xe0] [0xaa] (by decide) demoEnv.heap).imp
     (fun _ h => h.imp
       (fun _ h => ⟨h.1, h.2.1, h.2.2.1, h.2.2.2.1, h.2.2.2.2.1,
         h.2.2.2.2.2.1.trans (by decide)⟩))⟩

/-- C9: the RLE loop of `unpackbits` at 1 bpp with `rowBytes = 8`, run as
`unpackbits` runs it (one-byte units, 8 pixels for each unit) on the
compressed row `81 FF`.  The line buffer is a block of `(8 + 1) * 32 = 288`
bytes.  The control byte `0x81` repeats the unit `FF` `(255 - 0x81) + 2 = 128`
times, that is 1024 bytes of output, and the loop writes all of them: the
bytes at the offsets 288 to 1023, behind the end of the block, are changed
from 0 to 1 (the byte at 1024 is not), and the write offset ends at 1024. -/
theorem unpackRle_repeat_run_overruns_line_buffer :
    lineBufSize 8 1 = some 288 ∧
    (255 - 0x81) + 2 = 128 ∧
    (match unpackRle demoEnv 1 1 8 [0x81, 0xFF] 2 2 ⟨0, 0, demoEnv.heap⟩ with
      | .ok st => (st.j, st.pBuf, st.lineBuf 287, st.lineBuf 288, st.lineBuf 1023,
          st.lineBuf 1024)
      | .error _ => (0, 0, 0, 0, 0, 0)) = (2, 1024, 1, 1, 1, 0) ∧
    demoEnv.heap 287 = 0 ∧ demoEnv.heap 288 = 0 ∧ demoEnv.heap 1023 = 0 := by
  decide!

/-! ### Pixel sizes that the unpackers reject -/

/-- The pixel formats that `expandBuf` and `expandBuf8` do not know:
`expandBuf` raises `PL_ERRFORMAT_UNKNOWN` for every bpp other than 16, and
`expandBuf8` for every bpp outside {1, 2, 4, 8}. -/
theorem expandBuf_expandBuf8_reject_other_bpp (env : Env) (pixelSize : Nat) (dest : Buf)
    (p : Nat) (src : List PLBYTE) (q : Nat) (Width : Int) :
    (pixelSize ≠ 16 →
      expandBuf env dest p src q Width pixelSize = .error .PL_ERRFORMAT_UNKNOWN) ∧
    (¬ (pixelSize = 1 ∨ pixelSize = 2 ∨ pixelSize = 4 ∨ pixelSize = 8) →
      expandBuf8 dest p src q Width pixelSize = .error .PL_ERRFORMAT_UNKNOWN) := by
  refine ⟨fun h => ?_, fun h => ?_⟩
  · simp only [expandBuf, if_neg h]
  · have h8 : ¬ pixelSize = 8 := fun e => h (by omega)
    have h4 : ¬ pixelSize = 4 := fun e => h (by omega)
    have h2 : ¬ pixelSize = 2 := fun e => h (by omega)
    have h1 : ¬ pixelSize = 1 := fun e => h (by omega)
    simp only [expandBuf8, if_neg h8, if_neg h4, if_neg h2, if_neg h1]

/-- C20: `unpackbits` with a pixel size outside {1, 2, 4, 8, 16}, here 3 and
24.  The `switch` takes its `default` branch, which raises
`PL_ERRFORMAT_UNKNOWN`; the raise comes before any `new`, so `pLineBuf` is
still unassigned (this is so for every illegal pixel size and every
`rowBytes`), and it is in this state that the handler of the source runs
`delete [] pLineBuf` before it throws again.  For the legal pixel size 1 the
same `switch` assigns a block of 288 bytes. -/
theorem unpackbits_illegal_pixel_size_leaves_pLineBuf_unassigned :
    (∀ rowBytes pixelSize : Nat,
      ¬ (pixelSize = 1 ∨ pixelSize = 2 ∨ pixelSize = 4 ∨ pixelSize = 8 ∨ pixelSize = 16) →
      lineBufSize rowBytes pixelSize = none) ∧
    lineBufSize 8 3 = none ∧ lineBufSize 8 24 = none ∧ lineBufSize 8 1 = some 288 ∧
    (unpackbits demoEnv ⟨0, 0, 1, 8⟩ 8 3
      (demoBmp, ⟨[], [1, 2, 3, 4, 5, 6, 7, 8]⟩)).error = some .PL_ERRFORMAT_UNKNOWN ∧
    (unpackbits demoEnv ⟨0, 0, 1, 8⟩ 8 24
      (demoBmp, ⟨[], [1, 2, 3, 4, 5, 6, 7, 8]⟩)).error = some .PL_ERRFORMAT_UNKNOWN := by
  refine ⟨fun rowBytes pixelSize h => ?_, by decide, by decide, by decide, by decide, by decide⟩
  have h16 : ¬ pixelSize = 16 := fun e => h (by omega)
  have h8 : ¬ pixelSize = 8 := fun e => h (by omega)
  have h4 : ¬ pixelSize = 4 := fun e => h (by omega)
  have h2 : ¬ pixelSize = 2 := fun e => h (by omega)
  have h1 : ¬ pixelSize = 1 := fun e => h (by omega)
  simp only [lineBufSize, if_neg h16, if_neg h8, if_neg h4, if_neg h2, if_neg h1]

/-! ### A colour table of more than 256 entries in `pixPat` -/

/-- C28: `pixPat` on a pattern of type 1 whose colour table has the count word
`01 00`, that is 257 entries, and the flags word `80 00`.  The call of
`readColourTable` that `pixPat` makes after the 54 bytes of padding,
`rowBytes` word, rectangle and pixmap header returns 257 and has written the
entry number 256 (`AB AB AB`, where the memory held 0 before), which lies
behind the last entry of the array `CT[256]` that `pixPat` hands to it. -/
theorem pixPat_table_of_257_entries_overruns_CT :
    pixPat demoEnv ⟨[], [0, 1] ++ (List.replicate 8 0xAA ++ [0, 2] ++ [0, 0, 0, 0, 0, 1, 0, 8] ++
        (List.replicate 18 0 ++ [0, 1] ++ List.replicate 16 0) ++
        [0, 0, 0, 0, 0x80, 0, 0x01, 0x00] ++ List.replicate (257 * 8) 0xAB ++ [0x11, 0x22] ++
        [0x55])⟩ =
      (match readColourTable (demoEnv.stackPal,
          cursorAt [1, 0] (List.replicate 8 0xAA ++ [0, 2] ++ [0, 0, 0, 0, 0, 1, 0, 8] ++
            (List.replicate 18 0 ++ [0, 1] ++ List.replicate 16 0) ++
            [0, 0, 0, 0, 0x80, 0, 0x01, 0x00] ++ List.replicate (257 * 8) 0xAB ++ [0x11, 0x22] ++
            [0x55]) 54) with
        | .ok _ st => skipBits ⟨0, 0, 1, 8⟩ 2 1 st.2
        | .raise e st => .raise e st.2) ∧
    (readColourTable (demoEnv.stackPal,
        cursorAt [1, 0] (List.replicate 8 0xAA ++ [0, 2] ++ [0, 0, 0, 0, 0, 1, 0, 8] ++
          (List.replicate 18 0 ++ [0, 1] ++ List.replicate 16 0) ++
          [0, 0, 0, 0, 0x80, 0, 0x01, 0x00] ++ List.replicate (257 * 8) 0xAB ++ [0x11, 0x22] ++
          [0x55]) 54)).value = some 257 ∧
    (readColourTable (demoEnv.stackPal,
        cursorAt [1, 0] (List.replicate 8 0xAA ++ [0, 2] ++ [0, 0, 0, 0, 0, 1, 0, 8] ++
          (List.replicate 18 0 ++ [0, 1] ++ List.replicate 16 0) ++
          [0, 0, 0, 0, 0x80, 0, 0x01, 0x00] ++ List.replicate (257 * 8) 0xAB ++ [0x11, 0x22] ++
          [0x55]) 54)).state.1 256 = ⟨0xAB, 0xAB, 0xAB, 0⟩ ∧
    demoEnv.stackPal 256 = ⟨0, 0, 0, 0⟩ := by
  decide!

/-- C25: the pass of the opcode loop over the version-2 opcode `0x0012`
(pixPat) with a pattern of type 1 whose colour table has the count word
`01 00`, that is 257 entries, and the flags word `80 00`.  The opcode is not a
terminal one, the pass is the call of `pixPat` on what follows the opcode, and
the call of `readColourTable` inside it returns 257 and has written the entry
number 256 (`AB AB AB`, where the memory held 0 before), which lies behind the
last entry of the array `CT[256]` in the frame of `pixPat`. -/
theorem interpretOpcode_pixPat_table_overruns_CT :
    onDataSrc (readOpcode 2) (newSession ([0x00, 0x12, 0, 1] ++
        (List.replicate 8 0xAA ++ [0, 2] ++ [0, 0, 0, 0, 0, 1, 0, 8] ++
        (List.replicate 18 0 ++ [0, 1] ++ List.replicate 16 0) ++
        [0, 0, 0, 0, 0x80, 0, 0x01, 0x00] ++ List.replicate (257 * 8) 0xAB ++ [0x11, 0x22] ++
        [0x55]))) =
      .ok 0x12 { newSession [] with
        m_pDataSrc := ⟨[0x12, 0x00], [0, 1] ++
          (List.replicate 8 0xAA ++ [0, 2] ++ [0, 0, 0, 0, 0, 1, 0, 8] ++
          (List.replicate 18 0 ++ [0, 1] ++ List.replicate 16 0) ++
          [0, 0, 0, 0, 0x80, 0, 0x01, 0x00] ++ List.replicate (257 * 8) 0xAB ++ [0x11, 0x22] ++
          [0x55])⟩ } ∧
    interpretOpcode demoEnv 2 (newSession ([0x00, 0x12, 0, 1] ++
        (List.replicate 8 0xAA ++ [0, 2] ++ [0, 0, 0, 0, 0, 1, 0, 8] ++
        (List.replicate 18 0 ++ [0, 1] ++ List.replicate 16 0) ++
        [0, 0, 0, 0, 0x80, 0, 0x01, 0x00] ++ List.replicate (257 * 8) 0xAB ++ [0x11, 0x22] ++
        [0x55]))) =
      (match pixPat demoEnv ⟨[0x12, 0x00], [0, 1] ++
          (List.replicate 8 0xAA ++ [0, 2] ++ [0, 0, 0, 0, 0, 1, 0, 8] ++
          (List.replicate 18 0 ++ [0, 1] ++ List.replicate 16 0) ++
          [0, 0, 0, 0, 0x80, 0, 0x01, 0x00] ++ List.replicate (257 * 8) 0xAB ++ [0x11, 0x22] ++
          [0x55])⟩ with
        | .ok _ d => .ok (0x12, false) { newSession [] with m_pDataSrc := d }
        | .raise e d => .raise e { newSession [] with m_pDataSrc := d }) ∧
    (readColourTable (demoEnv.stackPal,
        cursorAt [1, 0, 0x12, 0x00] (List.replicate 8 0xAA ++ [0, 2] ++ [0, 0, 0, 0, 0, 1, 0, 8] ++
          (List.replicate 18 0 ++ [0, 1] ++ List.replicate 16 0) ++
          [0, 0, 0, 0, 0x80, 0, 0x01, 0x00] ++ List.replicate (257 * 8) 0xAB ++ [0x11, 0x22] ++
          [0x55]) 54)).value = some 257 ∧
    (readColourTable (demoEnv.stackPal,
        cursorAt [1, 0, 0x12, 0x00] (List.replicate 8 0xAA ++ [0, 2] ++ [0, 0, 0, 0, 0, 1, 0, 8] ++
          (List.replicate 18 0 ++ [0, 1] ++ List.replicate 16 0) ++
          [0, 0, 0, 0, 0x80, 0, 0x01, 0x00] ++ List.replicate (257 * 8) 0xAB ++ [0x11, 0x22] ++
          [0x55]) 54)).state.1 256 = ⟨0xAB, 0xAB, 0xAB, 0⟩ ∧
    demoEnv.stackPal 256 = ⟨0, 0, 0, 0⟩ := by
  decide!
end PLPict
